import Mathlib

/-!
CaveNet: the CAVE chat server (`cave_server.c`).

A shallow embedding of the server's framer (`handle_client_data`), command
handlers (`handle_command`, `handle_profile_command`), client table helpers
(`broadcast_line`, `find_client_by_nick`, `client_init`) and the accept branch
of `main`, followed by theorems about them.  The command handlers of the WinSock
server (`cave_server_windows.c`) are embedded next to them under `Windows`, and
the client (`cave_client.c`) under `Client`: its limits, `handle_net_line` and
`handle_user_input`.

Conventions of the embedding.

* A byte is a natural number (`Byte`); the constants the code compares with are
  NUL = 0, LF = 10, CR = 13, space = 32 and colon = 58.
* A C string (`const char *`, or a `char[N]` field holding one) is the list of
  its bytes before the terminating NUL.  `snprintf (dst, size, ...)` keeps the
  first `size - 1` bytes of the formatted text.
* The client table `clients[MAX_CLIENTS]` is a list of `client_t`; a pointer
  `client_t *c` into it is the slot index.  Only the first `buf_len` bytes of
  `buf` are live, so the accumulator is the list `buf` and `buf_len` is its
  length.
* The effect of a function is returned explicitly: the new table and the list
  of socket events (`Ev.send fd line` for one `send_line (fd, line)` call, which
  transmits `line` followed by CR LF; `Ev.close fd` for `close (fd)`).
-/

namespace CaveNet

/-! ## Bytes, C strings and the libc functions the server calls -/

abbrev Byte := Nat

/-- The bytes of an ASCII string literal. -/
def str (s : String) : List Byte := s.toList.map Char.toNat

abbrev MAX_CLIENTS : Nat := 32
abbrev BUF_SIZE : Nat := 4096
abbrev CAVE_NICK_MAX : Nat := 32
abbrev CAVE_DISPLAY_MAX : Nat := 64
abbrev CAVE_BIO_MAX : Nat := 512
abbrev CAVE_PRONOUNS_MAX : Nat := 16

/-- Length of a C string. -/
def strlen (s : List Byte) : Nat := s.length

/-- Lexicographic comparison of two C strings; only the sign is specified. -/
def strcmp (a b : List Byte) : Int :=
  if a = b then 0 else if a < b then -1 else 1

/-- Comparison of at most `n` leading bytes of two C strings. -/
def strncmp (a b : List Byte) (n : Nat) : Int := strcmp (a.take n) (b.take n)

/-- ASCII lower-casing of one byte, as `tolower` in the C locale. -/
def tolower (b : Nat) : Nat := if 65 ≤ b ∧ b ≤ 90 then b + 32 else b

/-- Case-insensitive comparison of two C strings. -/
def strcasecmp (a b : List Byte) : Int := strcmp (a.map tolower) (b.map tolower)

/-- Pointer to the first occurrence of byte `ch` in a C string: the suffix that
starts there, or `none` for a null pointer. -/
def strchr : List Byte → Byte → Option (List Byte)
  | [], _ => none
  | b :: bs, ch => if b = ch then some (b :: bs) else strchr bs ch

/-- Result of `snprintf (dst, size, fmt, ...)` where `text` is the fully
formatted output: at most `size - 1` bytes are stored. -/
def snprintf (size : Nat) (text : List Byte) : List Byte := text.take (size - 1)

/-- Offset of the match of `strstr (start, "\n")`, where `start` is raw buffer
memory that is followed by a NUL: the scan stops at the first NUL byte. -/
def strstr_nl : List Byte → Option Nat
  | [] => none
  | b :: bs =>
    if b = 0 then none
    else if b = 10 then some 0
    else (strstr_nl bs).map (· + 1)

/-- Skip leading spaces: `while (*p == ' ') p++;`. -/
def skip_spaces (p : List Byte) : List Byte := p.dropWhile (· = 32)

/-! ## Client table -/

structure client_t where
  fd : Int
  nick : List Byte
  display_name : List Byte
  bio : List Byte
  pronouns : List Byte
  buf : List Byte
deriving DecidableEq, Repr

/-- Socket events performed by the server. -/
inductive Ev where
  | send (fd : Int) (line : List Byte)
  | close (fd : Int)
deriving DecidableEq, Repr

abbrev Registry := List client_t

/-- Accumulator fill level `c->buf_len`. -/
def client_t.buf_len (c : client_t) : Nat := c.buf.length

def client_init (c : client_t) : client_t :=
  { c with fd := -1, nick := [], display_name := [], bio := [], pronouns := [], buf := [] }

/-- An empty slot, as left by `client_init`. -/
def empty_slot : client_t :=
  { fd := -1, nick := [], display_name := [], bio := [], pronouns := [], buf := [] }

instance : Inhabited client_t := ⟨empty_slot⟩

/-- The slot a pointer `c = &clients[i]` refers to. -/
def slot (cs : Registry) (i : Nat) : client_t := cs.getD i empty_slot

def send_line (fd : Int) (line : List Byte) : List Ev := [Ev.send fd line]

def broadcast_line : Registry → Int → List Byte → List Ev
  | [], _, _ => []
  | c :: cs, from_fd, line =>
    (if c.fd ≠ -1 ∧ c.fd ≠ from_fd then send_line c.fd line else [])
      ++ broadcast_line cs from_fd line

/-- Index of the slot returned by `find_client_by_nick`, `none` for `NULL`. -/
def find_client_by_nick : Registry → List Byte → Option Nat
  | [], _ => none
  | c :: cs, nick =>
    if c.fd ≠ -1 ∧ c.nick ≠ [] ∧ strcmp c.nick nick = 0 then some 0
    else (find_client_by_nick cs nick).map (· + 1)

/-! ## PROFILE command handler -/

/-- The field-name token of `PROFILE SET`: bytes up to a space or colon, at
most 31 of them (`char field[32]`). -/
def field_token (p : List Byte) : List Byte :=
  (p.takeWhile (fun b => b ≠ 32 ∧ b ≠ 58)).take (32 - 1)

/-- The target token of `PROFILE GET`: bytes up to a space, CR or LF, at most
`CAVE_NICK_MAX - 1` of them (`char target_nick[CAVE_NICK_MAX]`). -/
def target_token (p : List Byte) : List Byte :=
  (p.takeWhile (fun b => b ≠ 32 ∧ b ≠ 13 ∧ b ≠ 10)).take (CAVE_NICK_MAX - 1)

/-- The reply lines of a successful `PROFILE GET` for the found client. -/
def profile_lines (fd : Int) (target : client_t) : List Ev :=
  (if target.display_name ≠ [] then
      send_line fd (snprintf BUF_SIZE
        (str "PROFILE DATA " ++ target.nick ++ str " DISPLAYNAME :" ++ target.display_name))
    else [])
  ++ (if target.pronouns ≠ [] then
      send_line fd (snprintf BUF_SIZE
        (str "PROFILE DATA " ++ target.nick ++ str " PRONOUNS :" ++ target.pronouns))
    else [])
  ++ (if target.bio ≠ [] then
      send_line fd (snprintf BUF_SIZE
        (str "PROFILE DATA " ++ target.nick ++ str " BIO :" ++ target.bio))
    else [])
  ++ send_line fd (snprintf BUF_SIZE (str "PROFILE END " ++ target.nick))

def handle_profile_command (cs : Registry) (i : Nat) (args : List Byte) :
    Registry × List Ev :=
  let c := slot cs i
  let args := skip_spaces args
  if strncmp args (str "SET ") 4 = 0 then
    let p := skip_spaces (args.drop 4)
    let field := field_token p
    let p := skip_spaces (p.drop field.length)
    match strchr p 58 with
    | none => (cs, send_line c.fd (str "PROFILE ERR SYNTAX"))
    | some colon =>
      let value := skip_spaces (colon.drop 1)
      if strcasecmp field (str "DISPLAYNAME") = 0 then
        if strlen value ≥ CAVE_DISPLAY_MAX then
          (cs, send_line c.fd (str "PROFILE ERR VALUE_TOO_LONG"))
        else
          (cs.set i { c with display_name := snprintf CAVE_DISPLAY_MAX value },
            send_line c.fd (str "PROFILE OK DISPLAYNAME"))
      else if strcasecmp field (str "BIO") = 0 then
        if strlen value ≥ CAVE_BIO_MAX then
          (cs, send_line c.fd (str "PROFILE ERR VALUE_TOO_LONG"))
        else
          (cs.set i { c with bio := snprintf CAVE_BIO_MAX value },
            send_line c.fd (str "PROFILE OK BIO"))
      else if strcasecmp field (str "PRONOUNS") = 0 then
        if strlen value ≥ CAVE_PRONOUNS_MAX then
          (cs, send_line c.fd (str "PROFILE ERR VALUE_TOO_LONG"))
        else
          (cs.set i { c with pronouns := snprintf CAVE_PRONOUNS_MAX value },
            send_line c.fd (str "PROFILE OK PRONOUNS"))
      else
        (cs, send_line c.fd (str "PROFILE ERR FIELD"))
  else if strncmp args (str "GET ") 4 = 0 then
    let p := skip_spaces (args.drop 4)
    let target_nick := target_token p
    if target_nick = [] then
      (cs, send_line c.fd (str "PROFILE ERR SYNTAX"))
    else
      match find_client_by_nick cs target_nick with
      | none =>
        (cs, send_line c.fd (snprintf 128 (str "PROFILE ERR NOTFOUND " ++ target_nick)))
      | some t => (cs, profile_lines c.fd (slot cs t))
  else
    (cs, send_line c.fd (str "PROFILE ERR SYNTAX"))

/-! ## Main command handler -/

def handle_command (cs : Registry) (i : Nat) (line : List Byte) : Registry × List Ev :=
  let c := slot cs i
  if strncmp line (str "NICK ") 5 = 0 then
    let nick := snprintf CAVE_NICK_MAX (line.drop 5)
    let cs1 := cs.set i { c with nick := nick }
    let msg := snprintf 128
      (str "SYS :" ++ (if nick ≠ [] then nick else str "anonymous") ++ str " joined")
    (cs1, broadcast_line cs1 c.fd msg ++ send_line c.fd (str "SYS :nickname set"))
  else if strncmp line (str "MSG ") 4 = 0 then
    let text := line.drop 4
    let colon := match strchr text 58 with
      | some q => q.drop 1
      | none => text
    let msg := snprintf BUF_SIZE
      (str "MSG @" ++ (if c.nick ≠ [] then c.nick else str "anon") ++ str " :" ++ colon)
    (cs, broadcast_line cs c.fd msg ++ send_line c.fd msg)
  else if strcmp line (str "PING") = 0 then
    (cs, send_line c.fd (str "PONG"))
  else if strncmp line (str "PROFILE ") 8 = 0 then
    handle_profile_command cs i (line.drop 8)
  else
    (cs, send_line c.fd (str "ERR :unknown command"))

/-! ## Socket read loop per client -/

/-- The line-extraction loop of `handle_client_data`, run on the bytes from
`start` to the end of the accumulator.  Each iteration consumes at least the
newline it found, so `fuel` greater than the number of bytes never runs out.
Returns the table and events after the dispatched commands, and the bytes left
from `start` on when the loop ends.  `handle_command` never writes `c->buf`,
so the scan is unaffected by the commands it dispatches. -/
def frame_loop : Nat → Registry → Nat → List Byte → (Registry × List Ev) × List Byte
  | 0, cs, _, start => ((cs, []), start)
  | fuel + 1, cs, i, start =>
    match strstr_nl start with
    | none => ((cs, []), start)
    | some k =>
      let line :=
        if 0 < k ∧ start.getD (k - 1) 0 = 13 then start.take (k - 1) else start.take k
      let r := if line ≠ [] then handle_command cs i line else (cs, [])
      let r2 := frame_loop fuel r.1 i (start.drop (k + 1))
      ((r2.1.1, r.2 ++ r2.1.2), r2.2)

/-- One call `handle_client_data (&clients[i])` in which `recv` returned `n`
and, when `n > 0`, stored the `n` bytes `rx` behind the accumulator. -/
def handle_client_data (cs : Registry) (i : Nat) (n : Int) (rx : List Byte) :
    Registry × List Ev :=
  let c := slot cs i
  if n ≤ 0 then
    (cs.set i (client_init c), [Ev.close c.fd])
  else
    let buf := c.buf ++ rx.take n.toNat
    let cs1 := cs.set i { c with buf := buf }
    let r := frame_loop (buf.length + 1) cs1 i buf
    (r.1.1.set i { slot r.1.1 i with buf := r.2 }, r.1.2)

/-! ## Accepting a connection (`main`) -/

/-- The slot search of the accept branch: the first slot with `fd == -1`
receives the new descriptor with all fields cleared. -/
def assign_slot : Registry → Int → Option Registry
  | [], _ => none
  | c :: cs, cfd =>
    if c.fd = -1 then
      some ({ c with fd := cfd, buf := [], nick := [], display_name := [],
                     bio := [], pronouns := [] } :: cs)
    else (assign_slot cs cfd).map (c :: ·)

/-- The accept branch of `main` for the descriptor `cfd` returned by `accept`. -/
def main_accept (cs : Registry) (cfd : Int) : Registry × List Ev :=
  if cfd ≥ 0 then
    match assign_slot cs cfd with
    | some cs1 => (cs1, send_line cfd (str "WELCOME CAVE/0.1"))
    | none => (cs, send_line cfd (str "ERR :server full") ++ [Ev.close cfd])
  else (cs, [])

/-! ## The WinSock server (`cave_server_windows.c`) and the client's limits -/

/-- The pronouns limit of the client, `cave_client.c`. -/
abbrev Client.CAVE_PRONOUNS_MAX : Nat := 32

/-- The pronouns limit of the WinSock server; its other limits are those of
`cave_server.c`. -/
abbrev Windows.CAVE_PRONOUNS_MAX : Nat := 32

/-- The handle of a free slot.  `SOCKET` is unsigned and `INVALID_SOCKET` is
its all-ones value; the table keeps it as `-1`, as the POSIX server does. -/
abbrev Windows.INVALID_SOCKET : Int := -1

def Windows.send_line (fd : Int) (line : List Byte) : List Ev :=
  if fd = Windows.INVALID_SOCKET then [] else [Ev.send fd line]

def Windows.broadcast_line : Registry → Int → List Byte → List Ev
  | [], _, _ => []
  | c :: cs, from_fd, line =>
    (if c.fd ≠ Windows.INVALID_SOCKET ∧ c.fd ≠ from_fd then Windows.send_line c.fd line else [])
      ++ Windows.broadcast_line cs from_fd line

def Windows.find_client_by_nick : Registry → List Byte → Option Nat
  | [], _ => none
  | c :: cs, nick =>
    if c.fd ≠ Windows.INVALID_SOCKET ∧ c.nick ≠ [] ∧ strcmp c.nick nick = 0 then some 0
    else (Windows.find_client_by_nick cs nick).map (· + 1)

/-- The reply lines of a successful `PROFILE GET`, WinSock server. -/
def Windows.profile_lines (fd : Int) (target : client_t) : List Ev :=
  (if target.display_name ≠ [] then
      Windows.send_line fd (snprintf BUF_SIZE
        (str "PROFILE DATA " ++ target.nick ++ str " DISPLAYNAME :" ++ target.display_name))
    else [])
  ++ (if target.pronouns ≠ [] then
      Windows.send_line fd (snprintf BUF_SIZE
        (str "PROFILE DATA " ++ target.nick ++ str " PRONOUNS :" ++ target.pronouns))
    else [])
  ++ (if target.bio ≠ [] then
      Windows.send_line fd (snprintf BUF_SIZE
        (str "PROFILE DATA " ++ target.nick ++ str " BIO :" ++ target.bio))
    else [])
  ++ Windows.send_line fd (snprintf BUF_SIZE (str "PROFILE END " ++ target.nick))

def Windows.handle_profile_command (cs : Registry) (i : Nat) (args : List Byte) :
    Registry × List Ev :=
  let c := slot cs i
  let args := skip_spaces args
  if strncmp args (str "SET ") 4 = 0 then
    let p := skip_spaces (args.drop 4)
    let field := field_token p
    let p := skip_spaces (p.drop field.length)
    match strchr p 58 with
    | none => (cs, Windows.send_line c.fd (str "PROFILE ERR SYNTAX"))
    | some colon =>
      let value := skip_spaces (colon.drop 1)
      if strcasecmp field (str "DISPLAYNAME") = 0 then
        if strlen value ≥ CAVE_DISPLAY_MAX then
          (cs, Windows.send_line c.fd (str "PROFILE ERR VALUE_TOO_LONG"))
        else
          (cs.set i { c with display_name := snprintf CAVE_DISPLAY_MAX value },
            Windows.send_line c.fd (str "PROFILE OK DISPLAYNAME"))
      else if strcasecmp field (str "BIO") = 0 then
        if strlen value ≥ CAVE_BIO_MAX then
          (cs, Windows.send_line c.fd (str "PROFILE ERR VALUE_TOO_LONG"))
        else
          (cs.set i { c with bio := snprintf CAVE_BIO_MAX value },
            Windows.send_line c.fd (str "PROFILE OK BIO"))
      else if strcasecmp field (str "PRONOUNS") = 0 then
        if strlen value ≥ Windows.CAVE_PRONOUNS_MAX then
          (cs, Windows.send_line c.fd (str "PROFILE ERR VALUE_TOO_LONG"))
        else
          (cs.set i { c with pronouns := snprintf Windows.CAVE_PRONOUNS_MAX value },
            Windows.send_line c.fd (str "PROFILE OK PRONOUNS"))
      else
        (cs, Windows.send_line c.fd (str "PROFILE ERR FIELD"))
  else if strncmp args (str "GET ") 4 = 0 then
    let p := skip_spaces (args.drop 4)
    let target_nick := target_token p
    if target_nick = [] then
      (cs, Windows.send_line c.fd (str "PROFILE ERR SYNTAX"))
    else
      match Windows.find_client_by_nick cs target_nick with
      | none =>
        (cs, Windows.send_line c.fd (snprintf 128 (str "PROFILE ERR NOTFOUND " ++ target_nick)))
      | some t => (cs, Windows.profile_lines c.fd (slot cs t))
  else
    (cs, Windows.send_line c.fd (str "PROFILE ERR SYNTAX"))

def Windows.handle_command (cs : Registry) (i : Nat) (line : List Byte) : Registry × List Ev :=
  let c := slot cs i
  if strncmp line (str "NICK ") 5 = 0 then
    let nick := snprintf CAVE_NICK_MAX (line.drop 5)
    let cs1 := cs.set i { c with nick := nick }
    let msg := snprintf 128
      (str "SYS :" ++ (if nick ≠ [] then nick else str "anonymous") ++ str " joined")
    (cs1, Windows.broadcast_line cs1 c.fd msg ++ Windows.send_line c.fd (str "SYS :nickname set"))
  else if strncmp line (str "MSG ") 4 = 0 then
    let text := line.drop 4
    let colon := match strchr text 58 with
      | some q => q.drop 1
      | none => text
    let msg := snprintf BUF_SIZE
      (str "MSG @" ++ (if c.nick ≠ [] then c.nick else str "anon") ++ str " :" ++ colon)
    (cs, Windows.broadcast_line cs c.fd msg ++ Windows.send_line c.fd msg)
  else if strcmp line (str "PING") = 0 then
    (cs, Windows.send_line c.fd (str "PONG"))
  else if strncmp line (str "PROFILE ") 8 = 0 then
    Windows.handle_profile_command cs i (line.drop 8)
  else
    (cs, Windows.send_line c.fd (str "ERR :unknown command"))

/-! ## The client (`cave_client.c`): server lines and user input -/

abbrev Client.BUF_SIZE : Nat := 4096
abbrev Client.CAVE_NICK_MAX : Nat := 32
abbrev Client.CAVE_DISPLAY_MAX : Nat := 64
abbrev Client.CAVE_BIO_MAX : Nat := 512

/-- The profile being assembled from `PROFILE DATA` lines (`pv`). -/
structure Client.profile_view_t where
  active : Bool
  nick : List Byte
  display_name : List Byte
  pronouns : List Byte
  bio : List Byte
deriving DecidableEq, Repr

/-- The globals `handle_net_line` and `handle_user_input` read and write. -/
structure Client.State where
  current_nick : List Byte
  pv : Client.profile_view_t
deriving DecidableEq, Repr

/-- What the client prints, one constructor per `printf` site, holding the
strings its format receives: a `[system]` line, a chat line `nick: body`
(`mine` selects the colour), a profile block, a `[profile error]` line and a
`[raw]` line. -/
inductive Client.Out where
  | system (msg : List Byte)
  | chat (mine : Bool) (nick body : List Byte)
  | profile (pv : Client.profile_view_t)
  | profile_error (err : List Byte)
  | raw (line : List Byte)
deriving DecidableEq, Repr

/-- What `handle_user_input` does with one line of input: send a line to the
server, print a usage text, report an unknown slash command, or `exit (0)`
after printing `said`. -/
inductive Client.Act where
  | send (line : List Byte)
  | usage (text : List Byte)
  | unknown (inbuf : List Byte)
  | exit (said : List Byte)
deriving DecidableEq, Repr

def Client.clear_profile_view (_pv : Client.profile_view_t) : Client.profile_view_t :=
  { active := false, nick := [], display_name := [], pronouns := [], bio := [] }

def Client.show_profile_view (pv : Client.profile_view_t) : List Client.Out :=
  if pv.active = false then [] else [Client.Out.profile pv]

def Client.handle_net_line (s : Client.State) (line : List Byte) :
    Client.State × List Client.Out :=
  if strncmp line (str "SYS :") 5 = 0 then
    (s, [Client.Out.system (line.drop 5)])
  else if strncmp line (str "MSG ") 4 = 0 then
    let p := line.drop 4
    let p := if p.head? = some 64 then p.drop 1 else p
    let nick := (p.takeWhile (fun b => b ≠ 32 ∧ b ≠ 58)).take (Client.CAVE_NICK_MAX - 1)
    let body := match strchr line 58 with
      | some colon => colon.drop 1
      | none => []
    let mine := decide (s.current_nick ≠ [] ∧ strcmp s.current_nick nick = 0)
    (s, [Client.Out.chat mine nick body])
  else if strncmp line (str "PROFILE DATA ") 13 = 0 then
    let p := skip_spaces (line.drop 13)
    let nick := (p.takeWhile (fun b => b ≠ 32)).take (Client.CAVE_NICK_MAX - 1)
    let p := skip_spaces (p.drop nick.length)
    let field := (p.takeWhile (fun b => b ≠ 32 ∧ b ≠ 58)).take (32 - 1)
    let p := p.drop field.length
    match strchr p 58 with
    | none => (s, [])
    | some colon =>
      let value := skip_spaces (colon.drop 1)
      let pv :=
        if s.pv.active = false ∨ strcmp s.pv.nick nick ≠ 0 then
          { Client.clear_profile_view s.pv with
            active := true, nick := snprintf Client.CAVE_NICK_MAX nick }
        else s.pv
      let pv :=
        if strcmp field (str "DISPLAYNAME") = 0 then
          { pv with display_name := snprintf Client.CAVE_DISPLAY_MAX value }
        else if strcmp field (str "PRONOUNS") = 0 then
          { pv with pronouns := snprintf Client.CAVE_PRONOUNS_MAX value }
        else if strcmp field (str "BIO") = 0 then
          { pv with bio := snprintf Client.CAVE_BIO_MAX value }
        else pv
      ({ s with pv := pv }, [])
  else if strncmp line (str "PROFILE END ") 12 = 0 then
    let p := skip_spaces (line.drop 12)
    let nick := (p.takeWhile (fun b => b ≠ 32 ∧ b ≠ 13 ∧ b ≠ 10)).take
      (Client.CAVE_NICK_MAX - 1)
    if s.pv.active = true ∧ strcmp s.pv.nick nick = 0 then
      ({ s with pv := Client.clear_profile_view s.pv }, Client.show_profile_view s.pv)
    else (s, [])
  else if strncmp line (str "PROFILE ERR ") 12 = 0 then
    (s, [Client.Out.profile_error (line.drop 12)])
  else if line ≠ [] then
    (s, [Client.Out.raw line])
  else (s, [])

/-- One call of `handle_user_input`; `input` is the string `fgets` stored in
`inbuf`, or `none` when it returned `NULL`. -/
def Client.handle_user_input (s : Client.State) (input : Option (List Byte)) :
    Client.State × List Client.Act :=
  match input with
  | none => (s, [Client.Act.exit (str "Exiting.")])
  | some read =>
    let inbuf := if read.getLast? = some 10 then read.dropLast else read
    if inbuf = [] then (s, [])
    else if inbuf.head? = some 47 then
      if strcmp inbuf (str "/quit") = 0 then
        (s, [Client.Act.exit (str "Bye!")])
      else if strncmp inbuf (str "/nick ") 6 = 0 then
        let name := inbuf.drop 6
        if name = [] then (s, [Client.Act.usage (str "Usage: /nick NAME")])
        else
          ({ s with current_nick := snprintf Client.CAVE_NICK_MAX name },
            [Client.Act.send (snprintf Client.BUF_SIZE (str "NICK " ++ name))])
      else if strncmp inbuf (str "/profile get ") 13 = 0 then
        let nick := inbuf.drop 13
        if nick = [] then (s, [Client.Act.usage (str "Usage: /profile get NICK")])
        else (s, [Client.Act.send (snprintf Client.BUF_SIZE (str "PROFILE GET " ++ nick))])
      else if strncmp inbuf (str "/profile set displayname ") 25 = 0 then
        let value := inbuf.drop 25
        if value = [] then
          (s, [Client.Act.usage (str "Usage: /profile set displayname TEXT")])
        else
          (s, [Client.Act.send
            (snprintf Client.BUF_SIZE (str "PROFILE SET DISPLAYNAME :" ++ value))])
      else if strncmp inbuf (str "/profile set bio ") 17 = 0 then
        let value := inbuf.drop 17
        if value = [] then (s, [Client.Act.usage (str "Usage: /profile set bio TEXT")])
        else (s, [Client.Act.send (snprintf Client.BUF_SIZE (str "PROFILE SET BIO :" ++ value))])
      else if strncmp inbuf (str "/profile set pronouns ") 22 = 0 then
        let value := inbuf.drop 22
        if value = [] then
          (s, [Client.Act.usage (str "Usage: /profile set pronouns TEXT")])
        else
          (s, [Client.Act.send
            (snprintf Client.BUF_SIZE (str "PROFILE SET PRONOUNS :" ++ value))])
      else (s, [Client.Act.unknown inbuf])
    else (s, [Client.Act.send (snprintf Client.BUF_SIZE (str "MSG :" ++ inbuf))])

/-! ## Derived definitions used to state the theorems

None of these is a function of the server; each is defined from the functions
above or from the words of the specification. -/

/-! ### The call trace of the framer -/

/-- Replace the accumulator of slot `i`. -/
def setbuf (cs : Registry) (i : Nat) (b : List Byte) : Registry :=
  cs.set i { slot cs i with buf := b }

/-- Dispatch a sequence of lines from client `i` to `handle_command`, in order. -/
def dispatch : Registry → Nat → List (List Byte) → Registry × List Ev
  | cs, _, [] => (cs, [])
  | cs, i, l :: ls =>
    let r := handle_command cs i l
    let r2 := dispatch r.1 i ls
    (r2.1, r.2 ++ r2.2)

/-- The lines the extraction loop hands to `handle_command`, and the bytes it
leaves: the scan of `frame_loop` without the dispatch. -/
def frame_lines : Nat → List Byte → List (List Byte) × List Byte
  | 0, start => ([], start)
  | fuel + 1, start =>
    match strstr_nl start with
    | none => ([], start)
    | some k =>
      let line :=
        if 0 < k ∧ start.getD (k - 1) 0 = 13 then start.take (k - 1) else start.take k
      let r2 := frame_lines fuel (start.drop (k + 1))
      ((if line ≠ [] then [line] else []) ++ r2.1, r2.2)

/-- The scan of the extraction loop with the fuel `handle_client_data` could
never exhaust. -/
def framed (start : List Byte) : List (List Byte) × List Byte :=
  frame_lines start.length start

/-- The arguments of the `handle_command` calls made by one
`handle_client_data` call, in order. -/
def dispatched (cs : Registry) (i : Nat) (n : Int) (rx : List Byte) : List (List Byte) :=
  if n ≤ 0 then []
  else
    let buf := (slot cs i).buf ++ rx.take n.toNat
    (frame_lines (buf.length + 1) buf).1

/-- Consecutive `handle_client_data` calls on client `i`, one per chunk, each
read returning the whole chunk. -/
def feed : Registry → Nat → List (List Byte) → Registry × List Ev
  | cs, _, [] => (cs, [])
  | cs, i, ch :: rest =>
    let r := handle_client_data cs i ch.length ch
    let r2 := feed r.1 i rest
    (r2.1, r.2 ++ r2.2)

/-- All lines dispatched while the chunks are fed. -/
def fed_lines : Registry → Nat → List (List Byte) → List (List Byte)
  | _, _, [] => []
  | cs, i, ch :: rest =>
    dispatched cs i ch.length ch ++
      fed_lines (handle_client_data cs i ch.length ch).1 i rest

/-- Every chunk is a possible result of the `recv` call that reads it: at least
one byte and at most the `BUF_SIZE - buf_len - 1` bytes requested. -/
def reads_ok : Registry → Nat → List (List Byte) → Prop
  | _, _, [] => True
  | cs, i, ch :: rest =>
    (0 < ch.length ∧ ch.length ≤ BUF_SIZE - (slot cs i).buf_len - 1) ∧
      reads_ok (handle_client_data cs i ch.length ch).1 i rest

/-- Decision procedure for `reads_ok`, by recursion on the chunks. -/
def reads_ok_dec : (cs : Registry) → (i : Nat) → (chunks : List (List Byte)) →
    Decidable (reads_ok cs i chunks)
  | _, _, [] => isTrue trivial
  | cs, i, ch :: rest =>
    have := reads_ok_dec (handle_client_data cs i ch.length ch).1 i rest
    inferInstanceAs (Decidable (_ ∧ _))

instance (cs : Registry) (i : Nat) (chunks : List (List Byte)) :
    Decidable (reads_ok cs i chunks) := reads_ok_dec cs i chunks

/-! ### Lines of a byte stream, in the words of the specification -/

/-- The pieces of a byte stream between its LF bytes: `k` LF bytes give `k + 1`
pieces, the last one being what follows the last LF. -/
def split_nl : List Byte → List (List Byte)
  | [] => [[]]
  | b :: bs =>
    if b = 10 then [] :: split_nl bs
    else
      match split_nl bs with
      | [] => [[b]]
      | p :: ps => (b :: p) :: ps

/-- Strip one trailing CR, if there is one. -/
def strip_cr (p : List Byte) : List Byte :=
  if p.getLast? = some 13 then p.dropLast else p

/-- The lines of a stream in the words of the specification: split on LF,
strip one optional trailing CR from each piece, drop the empty pieces. -/
def spec_lines (s : List Byte) : List (List Byte) :=
  ((split_nl s).map strip_cr).filter (· ≠ [])

/-- The lines of a stream that are terminated by an LF: as `spec_lines`, but
without the piece that follows the last LF. -/
def complete_lines (s : List Byte) : List (List Byte) :=
  ((split_nl s).dropLast.map strip_cr).filter (· ≠ [])

/-- The unterminated piece that follows the last LF of a stream. -/
def pending (s : List Byte) : List Byte := (split_nl s).getLastD []

/-! ### Commands and their observable effects -/

/-- The field dispatch of `PROFILE SET` once the field token and the value have
been parsed (the `strcasecmp` chain of `handle_profile_command`). -/
def profile_set_field (cs : Registry) (i : Nat) (field value : List Byte) :
    Registry × List Ev :=
  let c := slot cs i
  if strcasecmp field (str "DISPLAYNAME") = 0 then
    if strlen value ≥ CAVE_DISPLAY_MAX then
      (cs, send_line c.fd (str "PROFILE ERR VALUE_TOO_LONG"))
    else
      (cs.set i { c with display_name := snprintf CAVE_DISPLAY_MAX value },
        send_line c.fd (str "PROFILE OK DISPLAYNAME"))
  else if strcasecmp field (str "BIO") = 0 then
    if strlen value ≥ CAVE_BIO_MAX then
      (cs, send_line c.fd (str "PROFILE ERR VALUE_TOO_LONG"))
    else
      (cs.set i { c with bio := snprintf CAVE_BIO_MAX value },
        send_line c.fd (str "PROFILE OK BIO"))
  else if strcasecmp field (str "PRONOUNS") = 0 then
    if strlen value ≥ CAVE_PRONOUNS_MAX then
      (cs, send_line c.fd (str "PROFILE ERR VALUE_TOO_LONG"))
    else
      (cs.set i { c with pronouns := snprintf CAVE_PRONOUNS_MAX value },
        send_line c.fd (str "PROFILE OK PRONOUNS"))
  else
    (cs, send_line c.fd (str "PROFILE ERR FIELD"))

/-- The chat line composed by the `MSG` branch of `handle_command` for issuer
`c` and the remainder `r` of the line after `MSG `. -/
def chat_line (c : client_t) (r : List Byte) : List Byte :=
  snprintf BUF_SIZE
    (str "MSG @" ++ (if c.nick ≠ [] then c.nick else str "anon") ++ str " :" ++
      (match strchr r 58 with
        | some q => q.drop 1
        | none => r))

/-- The string fields of a client fit their `char` arrays: the invariant of
every `client_t` value in C. -/
def client_t.fits (c : client_t) : Prop :=
  c.nick.length < CAVE_NICK_MAX ∧ c.display_name.length < CAVE_DISPLAY_MAX ∧
    c.bio.length < CAVE_BIO_MAX ∧ c.pronouns.length < CAVE_PRONOUNS_MAX

instance (c : client_t) : Decidable c.fits := by
  unfold client_t.fits
  exact inferInstance

/-- The line is dispatched to the `PROFILE SET` branch: it starts with
`PROFILE ` and, after optional spaces, `SET `. -/
def is_profile_set (line : List Byte) : Prop :=
  strncmp line (str "PROFILE ") 8 = 0 ∧
    strncmp (skip_spaces (line.drop 8)) (str "SET ") 4 = 0

instance (line : List Byte) : Decidable (is_profile_set line) := by
  unfold is_profile_set
  exact inferInstance

/-- The lines sent, in order, whatever their recipients. -/
def sent_lines : List Ev → List (List Byte)
  | [] => []
  | Ev.send _ l :: evs => l :: sent_lines evs
  | Ev.close _ :: evs => sent_lines evs

/-- Two client records agree on descriptor and nickname and, when the nickname
is `t`, on the profile fields. -/
def same_profile (t : List Byte) (c d : client_t) : Prop :=
  d.fd = c.fd ∧ d.nick = c.nick ∧
    (c.nick = t → d.display_name = c.display_name ∧ d.bio = c.bio ∧ d.pronouns = c.pronouns)

/-- The lines sent to descriptor `fd`, in order. -/
def received (fd : Int) : List Ev → List (List Byte)
  | [] => []
  | Ev.send f l :: evs => if f = fd then l :: received fd evs else received fd evs
  | Ev.close _ :: evs => received fd evs

/-- The field name of a `PROFILE SET` line in the words of the specification:
after optional spaces, the token up to the next space or colon. -/
def spec_field_name (r : List Byte) : List Byte :=
  (skip_spaces r).takeWhile (fun b => b ≠ 32 ∧ b ≠ 58)

/-- The connection handles of the live clients, in slot order. -/
def live_fds (cs : Registry) : List Int :=
  (cs.filter (fun c => c.fd ≠ -1)).map (fun c => c.fd)

/-! ### Sample tables for the concrete instances -/

/-- A table with one connected client (descriptor 4) that has set nothing. -/
def one_client : Registry :=
  [{ fd := 4, nick := [], display_name := [], bio := [], pronouns := [], buf := [] }]

/-- A table with two connected clients and a free slot between them: `bob`
(descriptor 4) with a display name and pronouns, and a client that has set
nothing (descriptor 5). -/
def sample_table : Registry :=
  [{ fd := 4, nick := str "bob", display_name := str "Bob", bio := [],
     pronouns := str "he/him", buf := [] },
   empty_slot,
   { fd := 5, nick := [], display_name := [], bio := [], pronouns := [], buf := [] }]

/-- A table whose first slot is free and whose second slot holds a connected
client (descriptor 5). -/
def free_then_client : Registry :=
  [empty_slot,
   { fd := 5, nick := [], display_name := [], bio := [], pronouns := [], buf := [] }]

/-- A full table: `MAX_CLIENTS` connected clients with descriptors 4, 5, ... -/
def full_table : Registry :=
  (List.range MAX_CLIENTS).map (fun k =>
    { fd := (k : Int) + 4, nick := [], display_name := [], bio := [], pronouns := [],
      buf := [] })

/-- One event of the main loop of `main`: a connection is accepted, or a live
client whose socket is readable is served by `handle_client_data`, where `recv`
returned `n`, at most the `BUF_SIZE - buf_len - 1` bytes requested, and stored
the `n` bytes `rx`. -/
inductive Step : Registry → Registry → Prop where
  | accept (cs : Registry) (cfd : Int) : Step cs (main_accept cs cfd).1
  | read (cs : Registry) (i : Nat) (n : Int) (rx : List Byte)
      (hlive : (slot cs i).fd ≠ -1)
      (hrecv : n ≤ (BUF_SIZE : Int) - (slot cs i).buf_len - 1)
      (hrx : 0 < n → (rx.length : Int) = n) :
      Step cs (handle_client_data cs i n rx).1

/-- The tables the server can be in: `main` starts with `client_init` on every
one of the `MAX_CLIENTS` slots and then runs loop events. -/
inductive Reachable : Registry → Prop where
  | init : Reachable (List.replicate MAX_CLIENTS empty_slot)
  | step {cs cs1 : Registry} : Reachable cs → Step cs cs1 → Reachable cs1

/-- One client whose accumulator holds `BUF_SIZE - 1` bytes, none of them an
LF, next to a second client. -/
def full_line_table : Registry :=
  [{ fd := 4, nick := [], display_name := [], bio := [], pronouns := [],
     buf := List.replicate (BUF_SIZE - 1) 65 },
   { fd := 5, nick := [], display_name := [], bio := [], pronouns := [], buf := [] }]

/-- The accumulator holds a NUL byte with no LF before it. -/
def wedged (buf : List Byte) : Prop := 0 ∈ buf.takeWhile (· ≠ 10)

instance (buf : List Byte) : Decidable (wedged buf) := by
  unfold wedged
  exact inferInstance

/-- One client whose accumulator holds `PING` followed by a NUL byte. -/
def wedged_table : Registry :=
  [{ fd := 4, nick := [], display_name := [], bio := [], pronouns := [],
     buf := str "PING" ++ [0] }]

/-- Two live clients that share the nickname `a b`, with different display
names. -/
def shared_nick_table : Registry :=
  [{ fd := 4, nick := str "a b", display_name := str "One", bio := [], pronouns := [],
     buf := [] },
   { fd := 5, nick := str "a b", display_name := str "Two", bio := [], pronouns := [],
     buf := [] }]

/-- Two live clients that share the nickname `bob`, with different display
names, behind a free slot. -/
def twin_table : Registry :=
  [empty_slot,
   { fd := 4, nick := str "bob", display_name := str "One", bio := [], pronouns := [],
     buf := [] },
   { fd := 5, nick := str "bob", display_name := str "Two", bio := [], pronouns := [],
     buf := [] }]

/-- The handles closed by a list of socket events, in order. -/
def closed_fds : List Ev → List Int
  | [] => []
  | Ev.send _ _ :: evs => closed_fds evs
  | Ev.close fd :: evs => fd :: closed_fds evs

/-- The handles a line was written to by a list of socket events, in order. -/
def written_fds : List Ev → List Int
  | [] => []
  | Ev.send fd _ :: evs => fd :: written_fds evs
  | Ev.close _ :: evs => written_fds evs

/-- The rule of the specification for a failed write, read on one run that
ended in table `r.1` after the events `r.2`: every handle written to while its
socket was failing has been closed and is no longer in the table. -/
def spec_write_failure_closes (failing : Int → Bool) (r : Registry × List Ev) : Prop :=
  ∀ fd ∈ written_fds r.2, failing fd = true → fd ∈ closed_fds r.2 ∧ fd ∉ live_fds r.1

instance (failing : Int → Bool) (r : Registry × List Ev) :
    Decidable (spec_write_failure_closes failing r) := by
  unfold spec_write_failure_closes
  exact inferInstance

/-- The name under which the server relays a client's chat lines: its nickname,
or `anon` while it has none (`c->nick[0] ? c->nick : "anon"`). -/
def shown_nick (c : client_t) : List Byte := if c.nick ≠ [] then c.nick else str "anon"

/-- A client state with the nickname `bob` and no profile in view. -/
def Client.sample_state : Client.State :=
  { current_nick := str "bob",
    pv := { active := false, nick := [], display_name := [], pronouns := [], bio := [] } }

/-- One thing the server does between two requests: hand a line to
`handle_command`, accept a connection, or call `handle_client_data` for a read
that returned `n` with the bytes `rx` (a positive read dispatches the lines it
completes, a read of zero or negative length disconnects the client). -/
inductive ServerStep where
  | command (i : Nat) (line : List Byte)
  | accept (cfd : Int)
  | read (i : Nat) (n : Int) (rx : List Byte)
deriving DecidableEq, Repr

/-- The table after one step. -/
def run_step (cs : Registry) : ServerStep → Registry
  | ServerStep.command i line => (handle_command cs i line).1
  | ServerStep.accept cfd => (main_accept cs cfd).1
  | ServerStep.read i n rx => (handle_client_data cs i n rx).1

/-- The record is one `find_client_by_nick` accepts for the name `t`: a live
client whose nickname is non-empty and equal to `t`. -/
def answers_to (t : List Byte) (c : client_t) : Prop :=
  c.fd ≠ -1 ∧ c.nick ≠ [] ∧ c.nick = t

instance (t : List Byte) (c : client_t) : Decidable (answers_to t c) := by
  unfold answers_to
  exact inferInstance

/-- A command line that is neither a `NICK` command nor a `PROFILE SET` issued
by a client whose nickname is `t`. -/
def line_keeps_answer (t : List Byte) (c : client_t) (line : List Byte) : Prop :=
  strncmp line (str "NICK ") 5 ≠ 0 ∧ (c.nick = t → ¬is_profile_set line)

instance (t : List Byte) (c : client_t) (line : List Byte) :
    Decidable (line_keeps_answer t c line) := by
  unfold line_keeps_answer
  exact inferInstance

/-- The step, taken in table `cs`, processes no `NICK` command and no
`PROFILE SET` from a client named `t`, and disconnects no live client named
`t`. -/
def step_keeps_answer (t : List Byte) (cs : Registry) : ServerStep → Prop
  | ServerStep.command i line => line_keeps_answer t (slot cs i) line
  | ServerStep.accept _ => True
  | ServerStep.read i n rx =>
    if n ≤ 0 then ¬answers_to t (slot cs i)
    else ∀ line ∈ dispatched cs i n rx, line_keeps_answer t (slot cs i) line

instance (t : List Byte) (cs : Registry) (st : ServerStep) :
    Decidable (step_keeps_answer t cs st) := by
  cases st <;> unfold step_keeps_answer <;> exact inferInstance

/-- Every step of the sequence, taken in the table it finds, satisfies
`step_keeps_answer`. -/
def steps_keep_answer (t : List Byte) : Registry → List ServerStep → Prop
  | _, [] => True
  | cs, st :: rest => step_keeps_answer t cs st ∧ steps_keep_answer t (run_step cs st) rest

/-- Decision procedure for `steps_keep_answer`, by recursion on the steps. -/
def steps_keep_answer_dec (t : List Byte) : (cs : Registry) → (steps : List ServerStep) →
    Decidable (steps_keep_answer t cs steps)
  | _, [] => isTrue trivial
  | cs, st :: rest =>
    have := steps_keep_answer_dec t (run_step cs st) rest
    inferInstanceAs (Decidable (_ ∧ _))

instance (t : List Byte) (cs : Registry) (steps : List ServerStep) :
    Decidable (steps_keep_answer t cs steps) := steps_keep_answer_dec t cs steps

theorem strcmp_eq_zero (a b : List Byte) : strcmp a b = 0 ↔ a = b := by
  unfold strcmp
  by_cases h : a = b
  · simp [h]
  · simp only [h, if_false, iff_false]
    split <;> decide

theorem strncmp_eq_zero (a b : List Byte) (n : Nat) :
    strncmp a b n = 0 ↔ a.take n = b.take n := by
  unfold strncmp
  exact strcmp_eq_zero _ _

theorem strcasecmp_eq_zero (a b : List Byte) :
    strcasecmp a b = 0 ↔ a.map tolower = b.map tolower := by
  unfold strcasecmp
  exact strcmp_eq_zero _ _

theorem slot_set (cs : Registry) (i j : Nat) (c : client_t) :
    slot (cs.set i c) j = if i = j ∧ i < cs.length then c else slot cs j := by
  unfold slot
  by_cases hij : i = j
  · subst hij
    by_cases hi : i < cs.length
    · simp [hi, List.getD_eq_getElem?_getD, List.getElem?_set]
    · have : cs.length ≤ i := Nat.le_of_not_lt hi
      simp [hi, List.getD_eq_getElem?_getD, List.getElem?_set, List.getElem?_eq_none this]
  · simp [hij, List.getD_eq_getElem?_getD, List.getElem?_set]

theorem slot_of_ge (cs : Registry) (i : Nat) (h : cs.length ≤ i) : slot cs i = empty_slot := by
  unfold slot
  simp [List.getD_eq_getElem?_getD, List.getElem?_eq_none h]

theorem dispatch_append (cs : Registry) (i : Nat) (l1 l2 : List (List Byte)) :
    dispatch cs i (l1 ++ l2) =
      ((dispatch (dispatch cs i l1).1 i l2).1,
        (dispatch cs i l1).2 ++ (dispatch (dispatch cs i l1).1 i l2).2) := by
  induction l1 generalizing cs with
  | nil => simp [dispatch]
  | cons l ls ih => simp [dispatch, ih, List.append_assoc]

theorem frame_loop_eq (fuel : Nat) (cs : Registry) (i : Nat) (start : List Byte) :
    frame_loop fuel cs i start =
      (dispatch cs i (frame_lines fuel start).1, (frame_lines fuel start).2) := by
  induction fuel generalizing cs start with
  | zero => simp [frame_loop, frame_lines, dispatch]
  | succ f ih =>
    unfold frame_loop frame_lines
    cases hk : strstr_nl start with
    | none => simp [dispatch]
    | some k =>
      simp only [ih]
      generalize (if 0 < k ∧ start.getD (k - 1) 0 = 13 then start.take (k - 1)
        else start.take k) = line
      by_cases hl : line = [] <;> simp [hl, dispatch]

theorem strstr_nl_lt {s : List Byte} {k : Nat} (h : strstr_nl s = some k) : k < s.length := by
  induction s generalizing k with
  | nil => simp [strstr_nl] at h
  | cons b bs ih =>
    unfold strstr_nl at h
    split at h
    · simp at h
    · split at h
      · simp at h; subst h; simp
      · cases hb : strstr_nl bs with
        | none => simp [hb] at h
        | some j =>
          simp [hb] at h
          subst h
          have := ih hb
          simp; omega

theorem frame_lines_fuel (fuel : Nat) (start : List Byte) (h : start.length ≤ fuel) :
    frame_lines fuel start = frame_lines start.length start := by
  induction fuel using Nat.strong_induction_on generalizing start with
  | _ f ih =>
    cases f with
    | zero =>
      have : start.length = 0 := by omega
      rw [this]
    | succ f =>
      cases start with
      | nil => simp [frame_lines, strstr_nl]
      | cons b bs =>
        simp only [List.length_cons]
        unfold frame_lines
        cases hk : strstr_nl (b :: bs) with
        | none => rfl
        | some k =>
          have hlt := strstr_nl_lt hk
          simp only [List.length_cons] at hlt
          have hlen : ((b :: bs).drop (k + 1)).length ≤ bs.length := by
            simp [List.length_drop]
          have e1 := ih f (Nat.lt_succ_self f) ((b :: bs).drop (k + 1))
            (by simp only [List.length_cons] at h; omega)
          have e2 : frame_lines bs.length ((b :: bs).drop (k + 1)) =
              frame_lines ((b :: bs).drop (k + 1)).length ((b :: bs).drop (k + 1)) := by
            by_cases hf : bs.length < f + 1
            · exact ih bs.length hf _ hlen
            · have : bs.length = f := by simp only [List.length_cons] at h; omega
              rw [this]; exact e1
          simp only [e1, e2]

theorem frame_lines_eq_framed (fuel : Nat) (start : List Byte) (h : start.length ≤ fuel) :
    frame_lines fuel start = framed start :=
  frame_lines_fuel fuel start h

theorem strstr_nl_append {s : List Byte} {k : Nat} (t : List Byte)
    (h : strstr_nl s = some k) : strstr_nl (s ++ t) = some k := by
  induction s generalizing k with
  | nil => simp [strstr_nl] at h
  | cons b bs ih =>
    simp only [List.cons_append]
    unfold strstr_nl at h ⊢
    split
    · rename_i hb; simp [hb] at h
    · rename_i hb
      simp only [hb, if_false] at h
      split
      · rename_i hb2; simpa [hb2] using h
      · rename_i hb2
        simp only [hb2, if_false] at h
        cases hs : strstr_nl bs with
        | none => simp [hs] at h
        | some j =>
          simp only [hs, Option.map_some'] at h
          simp [ih hs, h]

theorem framed_step (start : List Byte) (k : Nat) (hk : strstr_nl start = some k) :
    framed start =
      ((if (if 0 < k ∧ start.getD (k - 1) 0 = 13 then start.take (k - 1) else start.take k) ≠ []
          then [if 0 < k ∧ start.getD (k - 1) 0 = 13 then start.take (k - 1) else start.take k]
          else []) ++ (framed (start.drop (k + 1))).1,
        (framed (start.drop (k + 1))).2) := by
  have h1 : framed start = frame_lines (start.length + 1) start :=
    (frame_lines_eq_framed _ _ (Nat.le_succ _)).symm
  rw [h1]
  unfold frame_lines
  simp only [hk]
  rw [frame_lines_eq_framed _ _ (by simp [List.length_drop])]

theorem framed_none (start : List Byte) (hk : strstr_nl start = none) :
    framed start = ([], start) := by
  have h1 : framed start = frame_lines (start.length + 1) start :=
    (frame_lines_eq_framed _ _ (Nat.le_succ _)).symm
  rw [h1]
  unfold frame_lines
  simp only [hk]

theorem framed_append (X b : List Byte) :
    framed (X ++ b) =
      ((framed X).1 ++ (framed ((framed X).2 ++ b)).1, (framed ((framed X).2 ++ b)).2) := by
  generalize hn : X.length = n
  induction n using Nat.strong_induction_on generalizing X with
  | _ n ih =>
    subst hn
    cases hk : strstr_nl X with
    | none => simp [framed_none X hk]
    | some k =>
      have hlt := strstr_nl_lt hk
      rw [framed_step X k hk, framed_step (X ++ b) k (strstr_nl_append b hk)]
      have e1 : (X ++ b).getD (k - 1) 0 = X.getD (k - 1) 0 := by
        simp only [List.getD_eq_getElem?_getD]
        rw [List.getElem?_append_left (by omega)]
      have e2 : (X ++ b).take (k - 1) = X.take (k - 1) := by
        rw [List.take_append_of_le_length (by omega)]
      have e3 : (X ++ b).take k = X.take k := by
        rw [List.take_append_of_le_length (by omega)]
      have e4 : (X ++ b).drop (k + 1) = X.drop (k + 1) ++ b := by
        rw [List.drop_append_of_le_length (by omega)]
      rw [e1, e2, e3, e4]
      have := ih (X.drop (k + 1)).length (by simp [List.length_drop]; omega) (X.drop (k + 1)) rfl
      rw [this]
      simp [List.append_assoc]

theorem slot_cons_zero (c : client_t) (cs : Registry) : slot (c :: cs) 0 = c := rfl

theorem slot_cons_succ (c : client_t) (cs : Registry) (i : Nat) :
    slot (c :: cs) (i + 1) = slot cs i := rfl

theorem slot_of_lt (cs : Registry) (i : Nat) (h : i < cs.length) : slot cs i = cs[i] := by
  unfold slot
  simp [List.getD_eq_getElem?_getD, List.getElem?_eq_getElem h]

theorem broadcast_line_set (cs : Registry) (i : Nat) (c : client_t) (from_fd : Int)
    (line : List Byte) (hfd : c.fd = (slot cs i).fd) :
    broadcast_line (cs.set i c) from_fd line = broadcast_line cs from_fd line := by
  induction cs generalizing i with
  | nil => simp
  | cons d ds ih =>
    cases i with
    | zero =>
      rw [slot_cons_zero] at hfd
      simp [broadcast_line, hfd]
    | succ j =>
      rw [slot_cons_succ] at hfd
      simp [broadcast_line, ih j hfd]

theorem find_client_by_nick_set (cs : Registry) (i : Nat) (c : client_t) (nick : List Byte)
    (hfd : c.fd = (slot cs i).fd) (hnick : c.nick = (slot cs i).nick) :
    find_client_by_nick (cs.set i c) nick = find_client_by_nick cs nick := by
  induction cs generalizing i with
  | nil => simp
  | cons d ds ih =>
    cases i with
    | zero =>
      rw [slot_cons_zero] at hfd hnick
      simp [find_client_by_nick, hfd, hnick]
    | succ j =>
      rw [slot_cons_succ] at hfd hnick
      simp [find_client_by_nick, ih j hfd hnick]

theorem handle_profile_command_length (cs : Registry) (i : Nat) (args : List Byte) :
    (handle_profile_command cs i args).1.length = cs.length := by
  unfold handle_profile_command
  simp only []
  split_ifs <;> (try split) <;> (try split_ifs) <;> simp

theorem handle_command_length (cs : Registry) (i : Nat) (line : List Byte) :
    (handle_command cs i line).1.length = cs.length := by
  unfold handle_command
  simp only []
  split_ifs <;> simp [handle_profile_command_length]

theorem dispatch_length (cs : Registry) (i : Nat) (ls : List (List Byte)) :
    (dispatch cs i ls).1.length = cs.length := by
  induction ls generalizing cs with
  | nil => rfl
  | cons l ls ih => simp [dispatch, ih, handle_command_length]

theorem setbuf_length (cs : Registry) (i : Nat) (b : List Byte) :
    (setbuf cs i b).length = cs.length := by
  simp [setbuf]

theorem setbuf_of_ge (cs : Registry) (i : Nat) (b : List Byte) (h : cs.length ≤ i) :
    setbuf cs i b = cs := by
  unfold setbuf
  exact List.set_eq_of_length_le h

theorem slot_setbuf (cs : Registry) (i : Nat) (b : List Byte) (h : i < cs.length) :
    slot (setbuf cs i b) i = { slot cs i with buf := b } := by
  unfold setbuf
  rw [slot_set]
  simp [h]

theorem setbuf_setbuf (cs : Registry) (i : Nat) (a b : List Byte) :
    setbuf (setbuf cs i a) i b = setbuf cs i b := by
  by_cases h : i < cs.length
  · unfold setbuf
    rw [slot_set]
    simp [h, List.set_set]
  · have h2 : cs.length ≤ i := Nat.le_of_not_lt h
    rw [setbuf_of_ge cs i a h2, setbuf_of_ge cs i b h2]

theorem slot_setbuf_fd (cs : Registry) (i j : Nat) (b : List Byte) :
    (slot (setbuf cs i b) j).fd = (slot cs j).fd := by
  unfold setbuf
  rw [slot_set]
  split
  · rename_i h; rw [h.1]
  · rfl

theorem profile_lines_setbuf (cs : Registry) (i t : Nat) (b : List Byte) (fd : Int) :
    profile_lines fd (slot (setbuf cs i b) t) = profile_lines fd (slot cs t) := by
  unfold setbuf
  rw [slot_set]
  split
  · rename_i h; rw [h.1]; rfl
  · rfl

theorem broadcast_line_setbuf (cs : Registry) (i : Nat) (b : List Byte) (from_fd : Int)
    (line : List Byte) :
    broadcast_line (setbuf cs i b) from_fd line = broadcast_line cs from_fd line :=
  broadcast_line_set cs i _ from_fd line rfl

theorem find_client_by_nick_setbuf (cs : Registry) (i : Nat) (b : List Byte)
    (nick : List Byte) :
    find_client_by_nick (setbuf cs i b) nick = find_client_by_nick cs nick :=
  find_client_by_nick_set cs i _ nick rfl rfl

theorem set_setbuf (cs : Registry) (i : Nat) (b : List Byte) (f : client_t → client_t)
    (hf : ∀ c : client_t, f { c with buf := b } = { f c with buf := b }) :
    (setbuf cs i b).set i (f (slot (setbuf cs i b) i)) =
      setbuf (cs.set i (f (slot cs i))) i b := by
  by_cases h : i < cs.length
  · rw [slot_setbuf cs i b h]
    unfold setbuf
    rw [slot_set]
    simp [h, List.set_set, hf]
  · have h2 : cs.length ≤ i := Nat.le_of_not_lt h
    rw [setbuf_of_ge cs i b h2, setbuf_of_ge _ i b (by simpa using h2)]

theorem handle_profile_command_setbuf (cs : Registry) (i : Nat) (b args : List Byte) :
    handle_profile_command (setbuf cs i b) i args =
      (setbuf (handle_profile_command cs i args).1 i b,
        (handle_profile_command cs i args).2) := by
  by_cases h : i < cs.length
  · unfold handle_profile_command
    simp only [find_client_by_nick_setbuf, profile_lines_setbuf, slot_setbuf cs i b h]
    split_ifs <;> (try split) <;> (try split_ifs) <;>
      simp [setbuf, slot_set, h, List.set_set]
  · have h2 : cs.length ≤ i := Nat.le_of_not_lt h
    rw [setbuf_of_ge cs i b h2,
      setbuf_of_ge _ i b (by rw [handle_profile_command_length]; exact h2)]

theorem handle_command_setbuf (cs : Registry) (i : Nat) (b line : List Byte) :
    handle_command (setbuf cs i b) i line =
      (setbuf (handle_command cs i line).1 i b, (handle_command cs i line).2) := by
  by_cases h : i < cs.length
  · unfold handle_command
    simp only [handle_profile_command_setbuf, broadcast_line_setbuf, slot_setbuf cs i b h]
    have e1 : (setbuf cs i b).set i
        { fd := (slot cs i).fd, nick := snprintf CAVE_NICK_MAX (line.drop 5),
          display_name := (slot cs i).display_name, bio := (slot cs i).bio,
          pronouns := (slot cs i).pronouns, buf := b } =
        setbuf (cs.set i { slot cs i with nick := snprintf CAVE_NICK_MAX (line.drop 5) }) i b := by
      simp [setbuf, slot_set, h, List.set_set]
    simp only [e1, broadcast_line_setbuf]
    split_ifs <;> rfl
  · have h2 : cs.length ≤ i := Nat.le_of_not_lt h
    rw [setbuf_of_ge cs i b h2,
      setbuf_of_ge _ i b (by rw [handle_command_length]; exact h2)]

theorem dispatch_setbuf (cs : Registry) (i : Nat) (b : List Byte) (ls : List (List Byte)) :
    dispatch (setbuf cs i b) i ls =
      (setbuf (dispatch cs i ls).1 i b, (dispatch cs i ls).2) := by
  induction ls generalizing cs with
  | nil => rfl
  | cons l ls ih => simp [dispatch, handle_command_setbuf, ih]

theorem handle_client_data_pos (cs : Registry) (i : Nat) (n : Int) (rx : List Byte)
    (hn : 0 < n) (hrx : (rx.length : Int) = n) :
    handle_client_data cs i n rx =
      (setbuf (dispatch cs i (framed ((slot cs i).buf ++ rx)).1).1 i
          (framed ((slot cs i).buf ++ rx)).2,
        (dispatch cs i (framed ((slot cs i).buf ++ rx)).1).2) := by
  have htake : rx.take n.toNat = rx := by
    apply List.take_of_length_le
    omega
  unfold handle_client_data
  simp only [not_le.mpr hn, if_false, htake]
  rw [frame_loop_eq, frame_lines_eq_framed _ _ (Nat.le_succ _)]
  have e : cs.set i { slot cs i with buf := (slot cs i).buf ++ rx } =
      setbuf cs i ((slot cs i).buf ++ rx) := rfl
  rw [e, dispatch_setbuf]
  exact Prod.ext (setbuf_setbuf _ _ _ _) rfl

theorem slot_buf_after (cs : Registry) (i : Nat) (ls : List (List Byte)) (b : List Byte)
    (hi : i < cs.length) :
    (slot (setbuf (dispatch cs i ls).1 i b) i).buf = b := by
  rw [slot_setbuf _ _ _ (by rw [dispatch_length]; exact hi)]

theorem split_nl_ne_nil (s : List Byte) : split_nl s ≠ [] := by
  cases s with
  | nil => simp [split_nl]
  | cons b bs =>
    unfold split_nl
    split
    · simp
    · split <;> simp

theorem split_nl_of_not_mem (s : List Byte) (h : 10 ∉ s) : split_nl s = [s] := by
  induction s with
  | nil => rfl
  | cons b bs ih =>
    simp only [List.mem_cons, not_or] at h
    unfold split_nl
    rw [ih h.2]
    simp [Ne.symm h.1]

theorem split_nl_append_nl (pre post : List Byte) (h : 10 ∉ pre) :
    split_nl (pre ++ 10 :: post) = pre :: split_nl post := by
  induction pre with
  | nil => simp [split_nl]
  | cons b bs ih =>
    simp only [List.mem_cons, not_or] at h
    simp only [List.cons_append]
    rw [split_nl, ih h.2]
    simp [Ne.symm h.1]

theorem strstr_nl_none_not_mem (s : List Byte) (h0 : 0 ∉ s) (h : strstr_nl s = none) :
    10 ∉ s := by
  induction s with
  | nil => simp
  | cons b bs ih =>
    simp only [List.mem_cons, not_or] at h0
    unfold strstr_nl at h
    simp only [Ne.symm h0.1, if_false] at h
    split at h
    · simp at h
    · rename_i hb
      simp only [Option.map_eq_none'] at h
      simp only [List.mem_cons, not_or]
      exact ⟨Ne.symm hb, ih h0.2 h⟩

theorem strstr_nl_some_split (s : List Byte) (k : Nat) (h : strstr_nl s = some k) :
    s = s.take k ++ 10 :: s.drop (k + 1) ∧ 10 ∉ s.take k := by
  induction s generalizing k with
  | nil => simp [strstr_nl] at h
  | cons b bs ih =>
    unfold strstr_nl at h
    split at h
    · simp at h
    · split at h
      · rename_i hb
        simp only [Option.some.injEq] at h
        subst h
        simp [hb]
      · rename_i hb
        cases hs : strstr_nl bs with
        | none => simp [hs] at h
        | some j =>
          simp only [hs, Option.map_some', Option.some.injEq] at h
          subst h
          have := ih j hs
          simp only [List.take_succ_cons, List.drop_succ_cons, List.cons_append,
            List.mem_cons, not_or]
          exact ⟨by rw [← this.1], Ne.symm hb, this.2⟩

theorem line_eq_strip_cr (s : List Byte) (k : Nat) (hk : k < s.length) :
    (if 0 < k ∧ s.getD (k - 1) 0 = 13 then s.take (k - 1) else s.take k) =
      strip_cr (s.take k) := by
  unfold strip_cr
  rw [List.getLast?_take, List.dropLast_take hk]
  cases k with
  | zero => simp
  | succ j =>
    have hj : j < s.length := by omega
    simp [List.getD_eq_getElem?_getD, List.getElem?_eq_getElem hj]

theorem framed_of_nul_free (s : List Byte) (h0 : 0 ∉ s) :
    framed s = (complete_lines s, pending s) := by
  generalize hn : s.length = n
  induction n using Nat.strong_induction_on generalizing s with
  | _ n ih =>
    subst hn
    cases hk : strstr_nl s with
    | none =>
      have hnl := strstr_nl_none_not_mem s h0 hk
      rw [framed_none s hk]
      simp [complete_lines, pending, split_nl_of_not_mem s hnl]
    | some k =>
      have hlt := strstr_nl_lt hk
      obtain ⟨hsplit, hpre⟩ := strstr_nl_some_split s k hk
      have h0post : 0 ∉ s.drop (k + 1) := fun hm => h0 (List.mem_of_mem_drop hm)
      have hrec := ih (s.drop (k + 1)).length (by simp [List.length_drop]; omega)
        (s.drop (k + 1)) h0post rfl
      rw [framed_step s k hk, hrec, line_eq_strip_cr s k hlt]
      have hs : split_nl s = s.take k :: split_nl (s.drop (k + 1)) := by
        conv_lhs => rw [hsplit]
        exact split_nl_append_nl _ _ hpre
      have hne := split_nl_ne_nil (s.drop (k + 1))
      unfold complete_lines pending
      rw [hs, List.dropLast_cons_of_ne_nil hne]
      cases hsp : split_nl (s.drop (k + 1)) with
      | nil => exact absurd hsp hne
      | cons q qs =>
        by_cases hl : strip_cr (s.take k) = [] <;> simp [hl, List.getLastD_eq_getLast?]
  

theorem dispatched_pos (cs : Registry) (i : Nat) (n : Int) (rx : List Byte)
    (hn : 0 < n) (hrx : (rx.length : Int) = n) :
    dispatched cs i n rx = (framed ((slot cs i).buf ++ rx)).1 := by
  have htake : rx.take n.toNat = rx := by
    apply List.take_of_length_le
    omega
  unfold dispatched
  simp only [not_le.mpr hn, if_false, htake]
  rw [frame_lines_eq_framed _ _ (Nat.le_succ _)]

theorem mem_of_mem_split_nl (s p : List Byte) (b : Byte) (hp : p ∈ split_nl s) (hb : b ∈ p) :
    b ∈ s ∧ b ≠ 10 := by
  induction s generalizing p with
  | nil =>
    simp only [split_nl, List.mem_singleton] at hp
    subst hp
    simp at hb
  | cons c cs ih =>
    rw [split_nl] at hp
    split at hp
    · rename_i hc
      simp only [List.mem_cons] at hp
      rcases hp with hp | hp
      · subst hp; simp at hb
      · have := ih p hp hb
        exact ⟨List.mem_cons_of_mem _ this.1, this.2⟩
    · rename_i hc
      cases hs : split_nl cs with
      | nil => exact absurd hs (split_nl_ne_nil cs)
      | cons q qs =>
        rw [hs] at hp ih
        simp only [List.mem_cons] at hp
        rcases hp with hp | hp
        · subst hp
          simp only [List.mem_cons] at hb
          rcases hb with hb | hb
          · subst hb; exact ⟨List.mem_cons_self _ _, hc⟩
          · have := ih q (List.mem_cons_self _ _) hb
            exact ⟨List.mem_cons_of_mem _ this.1, this.2⟩
        · have := ih p (List.mem_cons_of_mem _ hp) hb
          exact ⟨List.mem_cons_of_mem _ this.1, this.2⟩

theorem pending_mem_split_nl (s : List Byte) : pending s ∈ split_nl s := by
  unfold pending
  rw [List.getLastD_eq_getLast?]
  cases h : (split_nl s).getLast? with
  | none => exact absurd (List.getLast?_eq_none_iff.mp h) (split_nl_ne_nil s)
  | some p => simpa using List.mem_of_getLast?_eq_some h

theorem pending_not_mem (s : List Byte) (h0 : 0 ∉ s) : 0 ∉ pending s ∧ 10 ∉ pending s :=
  ⟨fun hm => h0 (mem_of_mem_split_nl s _ 0 (pending_mem_split_nl s) hm).1,
    fun hm => (mem_of_mem_split_nl s _ 10 (pending_mem_split_nl s) hm).2 rfl⟩

theorem set_slot_self (cs : Registry) (i : Nat) : cs.set i (slot cs i) = cs := by
  induction cs generalizing i with
  | nil => rfl
  | cons c cs ih =>
    cases i with
    | zero => rfl
    | succ j => simp only [List.set_cons_succ, slot_cons_succ, ih j]

theorem setbuf_self (cs : Registry) (i : Nat) : setbuf cs i (slot cs i).buf = cs :=
  set_slot_self cs i

theorem feed_general (chunks : List (List Byte)) (cs : Registry) (i : Nat)
    (hi : i < cs.length) (h0 : 0 ∉ (slot cs i).buf) (h10 : 10 ∉ (slot cs i).buf)
    (hnul : ∀ ch ∈ chunks, 0 ∉ ch) (hne : ∀ ch ∈ chunks, 0 < ch.length) :
    fed_lines cs i chunks = complete_lines ((slot cs i).buf ++ chunks.flatten) ∧
    feed cs i chunks =
      (setbuf (dispatch cs i (complete_lines ((slot cs i).buf ++ chunks.flatten))).1 i
          (pending ((slot cs i).buf ++ chunks.flatten)),
        (dispatch cs i (complete_lines ((slot cs i).buf ++ chunks.flatten))).2) := by
  induction chunks generalizing cs with
  | nil =>
    simp [fed_lines, feed, complete_lines, pending, split_nl_of_not_mem _ h10, dispatch,
      setbuf_self]
  | cons ch rest ih =>
    have hchpos : (0 : Int) < ch.length := by
      have := hne ch (List.mem_cons_self _ _); omega
    have hch0 : 0 ∉ ch := hnul ch (List.mem_cons_self _ _)
    have hX0 : 0 ∉ (slot cs i).buf ++ ch := by
      simp only [List.mem_append, not_or]; exact ⟨h0, hch0⟩
    have hstep := handle_client_data_pos cs i _ ch hchpos rfl
    have hfr := framed_of_nul_free _ hX0
    rw [hfr] at hstep
    simp only [] at hstep
    have hpend := pending_not_mem _ hX0
    have hlen : i < (handle_client_data cs i ch.length ch).1.length := by
      rw [hstep]; simp only [setbuf_length, dispatch_length]; exact hi
    have hbuf : (slot (handle_client_data cs i ch.length ch).1 i).buf =
        pending ((slot cs i).buf ++ ch) := by
      rw [hstep]; exact slot_buf_after cs i _ _ hi
    have hrec := ih (handle_client_data cs i ch.length ch).1 hlen
      (by rw [hbuf]; exact hpend.1) (by rw [hbuf]; exact hpend.2)
      (fun c hc => hnul c (List.mem_cons_of_mem _ hc))
      (fun c hc => hne c (List.mem_cons_of_mem _ hc))
    rw [hbuf] at hrec
    have hrest0 : 0 ∉ pending ((slot cs i).buf ++ ch) ++ rest.flatten := by
      simp only [List.mem_append, not_or, List.mem_flatten, not_exists, not_and]
      exact ⟨hpend.1, fun l hl hm => hnul l (List.mem_cons_of_mem _ hl) hm⟩
    have happ := framed_append ((slot cs i).buf ++ ch) rest.flatten
    have hall0 : 0 ∉ (slot cs i).buf ++ ch ++ rest.flatten := by
      simp only [List.mem_append, not_or, List.mem_flatten, not_exists, not_and]
      exact ⟨⟨h0, hch0⟩, fun l hl hm => hnul l (List.mem_cons_of_mem _ hl) hm⟩
    rw [framed_of_nul_free _ hall0, hfr] at happ
    simp only [] at happ
    rw [framed_of_nul_free _ hrest0] at happ
    simp only [Prod.mk.injEq] at happ
    simp only [List.flatten_cons, ← List.append_assoc]
    rw [happ.1, happ.2]
    constructor
    · simp only [fed_lines]
      rw [dispatched_pos cs i _ ch hchpos rfl, hfr, hrec.1]
    · simp only [feed]
      rw [hrec.2, hstep]
      simp only [dispatch_append, dispatch_setbuf, setbuf_setbuf]

theorem reads_ok_pos (chunks : List (List Byte)) (cs : Registry) (i : Nat)
    (h : reads_ok cs i chunks) : ∀ ch ∈ chunks, 0 < ch.length := by
  induction chunks generalizing cs with
  | nil => simp
  | cons ch rest ih =>
    intro c hc
    simp only [List.mem_cons] at hc
    rcases hc with hc | hc
    · subst hc; exact h.1.1
    · exact ih _ h.2 c hc

theorem str_NICK : str "NICK " = [78, 73, 67, 75, 32] := by decide

theorem str_MSG : str "MSG " = [77, 83, 71, 32] := by decide

theorem str_PING : str "PING" = [80, 73, 78, 71] := by decide

theorem str_PROFILE : str "PROFILE " = [80, 82, 79, 70, 73, 76, 69, 32] := by decide

theorem str_SET : str "SET " = [83, 69, 84, 32] := by decide

theorem str_GET : str "GET " = [71, 69, 84, 32] := by decide

theorem str_colon : str " :" = [32, 58] := by decide

theorem str_append (a b : String) : str (a ++ b) = str a ++ str b := by
  simp [str, String.toList]

theorem handle_command_profile (cs : Registry) (i : Nat) (args : List Byte) :
    handle_command cs i (str "PROFILE " ++ args) = handle_profile_command cs i args := by
  unfold handle_command
  simp [strncmp_eq_zero, strcmp_eq_zero, str_NICK, str_MSG, str_PING, str_PROFILE]

theorem takeWhile_token (F rest : List Byte) (p : Byte → Bool) (hF : ∀ b ∈ F, p b = true)
    (hrest : rest.head?.all (fun b => !p b) = true) :
    (F ++ rest).takeWhile p = F := by
  induction F with
  | nil =>
    cases rest with
    | nil => rfl
    | cons r rs =>
      simp only [List.head?_cons, Option.all_some, Bool.not_eq_true'] at hrest
      simp [List.takeWhile, hrest]
  | cons b bs ih =>
    have hb := hF b (List.mem_cons_self _ _)
    simp only [List.cons_append, List.takeWhile_cons, hb, if_true]
    rw [ih (fun c hc => hF c (List.mem_cons_of_mem _ hc))]

theorem skip_spaces_of_head (p : List Byte) (h : p.head? ≠ some 32) : skip_spaces p = p := by
  cases p with
  | nil => rfl
  | cons b bs =>
    simp only [List.head?_cons, ne_eq, Option.some.injEq] at h
    simp [skip_spaces, List.dropWhile, h]

theorem handle_profile_command_set (cs : Registry) (i : Nat) (F v : List Byte)
    (hne : F ≠ []) (hF : ∀ b ∈ F, b ≠ 32 ∧ b ≠ 58) (hlen : F.length ≤ 31) :
    handle_profile_command cs i (str "SET " ++ F ++ str " :" ++ v) =
      profile_set_field cs i F (skip_spaces v) := by
  have htok : field_token (F ++ str " :" ++ v) = F := by
    unfold field_token
    rw [List.append_assoc, takeWhile_token F _ _ (by simpa using hF) (by simp [str_colon])]
    exact List.take_of_length_le (by omega)
  have hskipF : skip_spaces (F ++ str " :" ++ v) = F ++ str " :" ++ v := by
    apply skip_spaces_of_head
    cases F with
    | nil => exact absurd rfl hne
    | cons b bs =>
      have := (hF b (List.mem_cons_self _ _)).1
      simpa using this
  unfold handle_profile_command profile_set_field
  have h1 : skip_spaces (str "SET " ++ F ++ str " :" ++ v) = str "SET " ++ F ++ str " :" ++ v := by
    apply skip_spaces_of_head
    simp [str_SET]
  simp only [h1]
  have h2 : (str "SET " ++ F ++ str " :" ++ v).drop 4 = F ++ str " :" ++ v := by
    simp [str_SET]
  have h3 : strncmp (str "SET " ++ F ++ str " :" ++ v) (str "SET ") 4 = 0 := by
    simp [strncmp_eq_zero, str_SET]
  simp only [h2, h3, if_true, hskipF, htok]
  have h4 : skip_spaces ((F ++ str " :" ++ v).drop F.length) = 58 :: v := by
    rw [List.append_assoc, List.drop_left]
    simp [skip_spaces, str_colon, List.dropWhile]
  simp only [h4, strchr, if_true, List.drop_one, List.tail_cons]

theorem tolower_letter (b : Nat) (h : 97 ≤ tolower b ∧ tolower b ≤ 122) :
    b ≠ 32 ∧ b ≠ 58 := by
  unfold tolower at h
  split at h <;> omega

theorem field_token_props (F X : List Byte) (h : strcasecmp F X = 0)
    (hX : ∀ b ∈ X.map tolower, 97 ≤ b ∧ b ≤ 122) :
    (∀ b ∈ F, b ≠ 32 ∧ b ≠ 58) ∧ F.length = X.length := by
  rw [strcasecmp_eq_zero] at h
  constructor
  · intro b hb
    have hm : tolower b ∈ X.map tolower := by
      rw [← h]; exact List.mem_map_of_mem _ hb
    exact tolower_letter b (hX _ hm)
  · have := congrArg List.length h
    simpa using this

theorem handle_command_profile_set (cs : Registry) (i : Nat) (F X v : List Byte)
    (h : strcasecmp F X = 0) (hX : ∀ b ∈ X.map tolower, 97 ≤ b ∧ b ≤ 122)
    (hXlen : 0 < X.length ∧ X.length ≤ 31) :
    handle_command cs i (str "PROFILE SET " ++ F ++ str " :" ++ v) =
      profile_set_field cs i F (skip_spaces v) := by
  obtain ⟨hF, hlen⟩ := field_token_props F X h hX
  have e : str "PROFILE SET " = str "PROFILE " ++ str "SET " := by decide
  rw [e, List.append_assoc, List.append_assoc, List.append_assoc, handle_command_profile,
    ← List.append_assoc, ← List.append_assoc]
  apply handle_profile_command_set cs i F v _ hF (by omega)
  intro hnil
  rw [hnil] at hlen
  simp at hlen
  omega

theorem strcasecmp_self (X : List Byte) : strcasecmp X X = 0 := by
  rw [strcasecmp_eq_zero]

theorem lower_DISPLAYNAME : ∀ b ∈ (str "DISPLAYNAME").map tolower, 97 ≤ b ∧ b ≤ 122 := by
  decide

theorem lower_BIO : ∀ b ∈ (str "BIO").map tolower, 97 ≤ b ∧ b ≤ 122 := by decide

theorem lower_PRONOUNS : ∀ b ∈ (str "PRONOUNS").map tolower, 97 ≤ b ∧ b ≤ 122 := by decide

theorem strcasecmp_ne_of (F X Y : List Byte) (h : strcasecmp F X = 0)
    (hXY : X.map tolower ≠ Y.map tolower) : strcasecmp F Y ≠ 0 := by
  intro h2
  rw [strcasecmp_eq_zero] at h h2
  exact hXY (h.symm.trans h2)

theorem handle_command_profile_get (cs : Registry) (i : Nat) (r : List Byte) :
    handle_command cs i (str "PROFILE GET " ++ r) =
      if target_token (skip_spaces r) = [] then
        (cs, send_line (slot cs i).fd (str "PROFILE ERR SYNTAX"))
      else
        match find_client_by_nick cs (target_token (skip_spaces r)) with
        | none =>
          (cs, send_line (slot cs i).fd
            (snprintf 128 (str "PROFILE ERR NOTFOUND " ++ target_token (skip_spaces r))))
        | some t => (cs, profile_lines (slot cs i).fd (slot cs t)) := by
  have e : str "PROFILE GET " = str "PROFILE " ++ str "GET " := by decide
  rw [e, List.append_assoc, handle_command_profile]
  unfold handle_profile_command
  have h1 : skip_spaces (str "GET " ++ r) = str "GET " ++ r := by
    apply skip_spaces_of_head
    simp [str_GET]
  have h2 : strncmp (str "GET " ++ r) (str "SET ") 4 ≠ 0 := by
    simp [strncmp_eq_zero, str_SET, str_GET]
  have h3 : strncmp (str "GET " ++ r) (str "GET ") 4 = 0 := by
    simp [strncmp_eq_zero, str_GET]
  have h4 : (str "GET " ++ r).drop 4 = r := by simp [str_GET]
  simp only [h1, h2, h3, h4, if_true, if_false]

theorem find_client_by_nick_some (cs : Registry) (nick : List Byte) (k : Nat)
    (h : find_client_by_nick cs nick = some k) :
    k < cs.length ∧ (slot cs k).fd ≠ -1 ∧ (slot cs k).nick ≠ [] ∧ (slot cs k).nick = nick := by
  induction cs generalizing k with
  | nil => simp [find_client_by_nick] at h
  | cons c cs ih =>
    unfold find_client_by_nick at h
    split at h
    · rename_i hc
      simp only [Option.some.injEq] at h
      subst h
      rw [strcmp_eq_zero] at hc
      exact ⟨by simp, hc.1, hc.2.1, hc.2.2⟩
    · cases hf : find_client_by_nick cs nick with
      | none => simp [hf] at h
      | some j =>
        simp only [hf, Option.map_some', Option.some.injEq] at h
        subst h
        have := ih j hf
        exact ⟨by simp; exact this.1, this.2⟩

theorem find_client_by_nick_none (cs : Registry) (nick : List Byte)
    (h : ∀ c ∈ cs, c.fd ≠ -1 → c.nick ≠ nick) : find_client_by_nick cs nick = none := by
  induction cs with
  | nil => rfl
  | cons c cs ih =>
    unfold find_client_by_nick
    have hc := h c (List.mem_cons_self _ _)
    have : ¬(c.fd ≠ -1 ∧ c.nick ≠ [] ∧ strcmp c.nick nick = 0) := by
      rw [strcmp_eq_zero]
      intro hh
      exact hc hh.1 hh.2.2
    simp only [this, if_false, ih (fun d hd => h d (List.mem_cons_of_mem _ hd)),
      Option.map_none']

theorem target_token_simple (t : List Byte) (hne : t ≠ [])
    (ht : ∀ b ∈ t, b ≠ 32 ∧ b ≠ 13 ∧ b ≠ 10) (hlen : t.length < CAVE_NICK_MAX) :
    target_token (skip_spaces t) = t := by
  have hs : skip_spaces t = t := by
    apply skip_spaces_of_head
    cases t with
    | nil => exact absurd rfl hne
    | cons b bs =>
      have := (ht b (List.mem_cons_self _ _)).1
      simpa using this
  rw [hs]
  unfold target_token
  have := takeWhile_token t [] (fun b => decide (b ≠ 32 ∧ b ≠ 13 ∧ b ≠ 10))
    (by simpa using ht) (by simp)
  rw [List.append_nil] at this
  rw [this]
  exact List.take_of_length_le (by simp only [CAVE_NICK_MAX] at hlen ⊢; omega)

theorem assign_slot_first (cs : Registry) (cfd : Int) (k : Nat) (hk : k < cs.length)
    (hfree : (slot cs k).fd = -1) (hfirst : ∀ m < k, (slot cs m).fd ≠ -1) :
    assign_slot cs cfd =
      some (cs.set k
        { slot cs k with fd := cfd, buf := [], nick := [], display_name := [], bio := [],
                         pronouns := [] }) := by
  induction cs generalizing k with
  | nil => simp at hk
  | cons c cs ih =>
    cases k with
    | zero =>
      rw [slot_cons_zero] at hfree
      simp [assign_slot, hfree, slot_cons_zero]
    | succ j =>
      have h0 := hfirst 0 (Nat.succ_pos j)
      rw [slot_cons_zero] at h0
      rw [slot_cons_succ] at hfree
      have := ih j (by simpa using hk) hfree
        (fun m hm => by have := hfirst (m + 1) (by omega); rwa [slot_cons_succ] at this)
      simp [assign_slot, h0, this, slot_cons_succ]

theorem find_client_by_nick_first (cs : Registry) (t : List Byte) (k : Nat)
    (hk : k < cs.length) (hlive : (slot cs k).fd ≠ -1) (hnick : (slot cs k).nick = t)
    (hne : t ≠ [])
    (hfirst : ∀ m < k, ¬((slot cs m).fd ≠ -1 ∧ (slot cs m).nick = t)) :
    find_client_by_nick cs t = some k := by
  induction cs generalizing k with
  | nil => simp at hk
  | cons c cs ih =>
    cases k with
    | zero =>
      rw [slot_cons_zero] at hlive hnick
      unfold find_client_by_nick
      have : c.fd ≠ -1 ∧ c.nick ≠ [] ∧ strcmp c.nick t = 0 := by
        rw [strcmp_eq_zero]
        exact ⟨hlive, by rw [hnick]; exact hne, hnick⟩
      rw [if_pos this]
    | succ j =>
      have h0 := hfirst 0 (Nat.succ_pos j)
      rw [slot_cons_zero] at h0
      rw [slot_cons_succ] at hlive hnick
      have := ih j (by simpa using hk) hlive hnick
        (fun m hm => by have := hfirst (m + 1) (by omega); rwa [slot_cons_succ] at this)
      unfold find_client_by_nick
      have hc : ¬(c.fd ≠ -1 ∧ c.nick ≠ [] ∧ strcmp c.nick t = 0) := by
        rw [strcmp_eq_zero]
        intro hh
        exact h0 ⟨hh.1, hh.2.2⟩
      simp only [hc, if_false, this, Option.map_some']

theorem handle_command_nick (cs : Registry) (i : Nat) (name : List Byte) :
    handle_command cs i (str "NICK " ++ name) =
      (cs.set i { slot cs i with nick := snprintf CAVE_NICK_MAX name },
        broadcast_line (cs.set i { slot cs i with nick := snprintf CAVE_NICK_MAX name })
            (slot cs i).fd
            (snprintf 128 (str "SYS :" ++
              (if snprintf CAVE_NICK_MAX name ≠ [] then snprintf CAVE_NICK_MAX name
                else str "anonymous") ++ str " joined"))
          ++ send_line (slot cs i).fd (str "SYS :nickname set")) := by
  unfold handle_command
  have h1 : strncmp (str "NICK " ++ name) (str "NICK ") 5 = 0 := by
    simp [strncmp_eq_zero, str_NICK]
  have h2 : (str "NICK " ++ name).drop 5 = name := by simp [str_NICK]
  simp only [h1, if_true, h2]

theorem same_profile_refl (t : List Byte) (c : client_t) : same_profile t c c :=
  ⟨rfl, rfl, fun _ => ⟨rfl, rfl, rfl⟩⟩

theorem forall2_slot (t : List Byte) {as bs : Registry}
    (h : List.Forall₂ (same_profile t) as bs) (k : Nat) :
    same_profile t (slot as k) (slot bs k) := by
  induction h generalizing k with
  | nil => exact same_profile_refl t _
  | cons hab _ ih =>
    cases k with
    | zero => exact hab
    | succ j => exact ih j

theorem forall2_find (t : List Byte) {as bs : Registry}
    (h : List.Forall₂ (same_profile t) as bs) (nick : List Byte) :
    find_client_by_nick bs nick = find_client_by_nick as nick := by
  induction h with
  | nil => rfl
  | cons hab _ ih =>
    unfold find_client_by_nick
    rw [hab.1, hab.2.1, ih]

theorem sent_lines_profile_lines (fd1 fd2 : Int) (c d : client_t)
    (h : d.nick = c.nick ∧ d.display_name = c.display_name ∧ d.bio = c.bio ∧
      d.pronouns = c.pronouns) :
    sent_lines (profile_lines fd2 d) = sent_lines (profile_lines fd1 c) := by
  obtain ⟨h1, h2, h3, h4⟩ := h
  unfold profile_lines send_line
  rw [h1, h2, h3, h4]
  split_ifs <;> rfl

theorem profile_get_lines_same (cs0 cs : Registry) (i1 i2 : Nat) (r : List Byte)
    (h : List.Forall₂ (same_profile (target_token (skip_spaces r))) cs0 cs) :
    sent_lines (handle_command cs i2 (str "PROFILE GET " ++ r)).2 =
      sent_lines (handle_command cs0 i1 (str "PROFILE GET " ++ r)).2 := by
  rw [handle_command_profile_get, handle_command_profile_get, forall2_find _ h]
  by_cases htok : target_token (skip_spaces r) = []
  · simp only [htok, if_true, send_line, sent_lines]
  · simp only [htok, if_false]
    cases hf : find_client_by_nick cs0 (target_token (skip_spaces r)) with
    | none => simp only [send_line, sent_lines]
    | some k =>
      simp only []
      have hk := find_client_by_nick_some cs0 _ k hf
      have hs := forall2_slot _ h k
      have hp := hs.2.2 hk.2.2.2
      exact sent_lines_profile_lines _ _ _ _ ⟨hs.2.1, hp.1, hp.2.1, hp.2.2⟩

theorem handle_command_msg (cs : Registry) (i : Nat) (r : List Byte) :
    handle_command cs i (str "MSG " ++ r) =
      (cs, broadcast_line cs (slot cs i).fd (chat_line (slot cs i) r) ++
        send_line (slot cs i).fd (chat_line (slot cs i) r)) := by
  unfold handle_command chat_line
  have h1 : strncmp (str "MSG " ++ r) (str "NICK ") 5 ≠ 0 := by
    simp [strncmp_eq_zero, str_NICK, str_MSG]
  have h2 : strncmp (str "MSG " ++ r) (str "MSG ") 4 = 0 := by
    simp [strncmp_eq_zero, str_MSG]
  have h3 : (str "MSG " ++ r).drop 4 = r := by simp [str_MSG]
  simp only [h1, h2, h3, if_true, if_false]

theorem mem_live_fds (cs : Registry) (k : Nat) (hk : k < cs.length)
    (hlive : (slot cs k).fd ≠ -1) : (slot cs k).fd ∈ live_fds cs := by
  unfold live_fds
  rw [List.mem_map]
  refine ⟨slot cs k, ?_, rfl⟩
  rw [List.mem_filter]
  refine ⟨?_, by simpa using hlive⟩
  rw [slot_of_lt cs k hk]
  exact List.getElem_mem _

theorem live_fds_mem (cs : Registry) (f : Int) (h : f ∈ live_fds cs) :
    ∃ k, k < cs.length ∧ (slot cs k).fd ≠ -1 ∧ (slot cs k).fd = f := by
  unfold live_fds at h
  rw [List.mem_map] at h
  obtain ⟨c, hc, hf⟩ := h
  rw [List.mem_filter] at hc
  obtain ⟨k, hk, hck⟩ := List.getElem_of_mem hc.1
  refine ⟨k, hk, ?_, ?_⟩
  · rw [slot_of_lt cs k hk, hck]; simpa using hc.2
  · rw [slot_of_lt cs k hk, hck]; exact hf

theorem count_broadcast_line (cs : Registry) (from_fd f : Int) (line : List Byte) :
    (broadcast_line cs from_fd line).count (Ev.send f line) =
      if f = from_fd then 0 else (live_fds cs).count f := by
  induction cs with
  | nil => simp [broadcast_line, live_fds]
  | cons c cs ih =>
    unfold broadcast_line
    rw [List.count_append, ih]
    unfold live_fds send_line
    by_cases hlive : c.fd = -1
    · simp [hlive, List.filter_cons]
    · by_cases hfrom : c.fd = from_fd
      · subst hfrom
        by_cases hf : f = c.fd
        · simp [hlive, hf]
        · have : ¬(c.fd = f) := fun h => hf h.symm
          simp [hlive, hf, List.filter_cons, List.count_cons, this]
      · by_cases hf : f = from_fd
        · have : ¬(c.fd = f) := fun h => hfrom (h.trans hf)
          simp [hlive, hfrom, hf, List.count_cons, this]
        · by_cases hcf : c.fd = f
          · subst hcf
            simp [hlive, hfrom, hf, List.filter_cons, List.count_cons]
            omega
          · have h2 : ¬(Ev.send c.fd line = Ev.send f line) := by
              intro h; injection h with h1 _; exact hcf h1
            simp [hlive, hfrom, hf, hcf, List.filter_cons, List.count_cons, h2]

theorem mem_broadcast_line (cs : Registry) (from_fd : Int) (line : List Byte) (e : Ev)
    (h : e ∈ broadcast_line cs from_fd line) :
    ∃ f, f ∈ live_fds cs ∧ f ≠ from_fd ∧ e = Ev.send f line := by
  induction cs with
  | nil => simp [broadcast_line] at h
  | cons c cs ih =>
    unfold broadcast_line at h
    rw [List.mem_append] at h
    rcases h with h | h
    · split at h
      · rename_i hc
        simp only [send_line, List.mem_singleton] at h
        refine ⟨c.fd, ?_, hc.2, h⟩
        simp [live_fds, List.filter_cons, hc.1]
      · simp at h
    · obtain ⟨f, hf, hne, he⟩ := ih h
      refine ⟨f, ?_, hne, he⟩
      unfold live_fds at hf ⊢
      rw [List.filter_cons]
      split
      · exact List.mem_cons_of_mem _ hf
      · exact hf

theorem strchr_eq (r : List Byte) (ch : Byte) :
    strchr r ch = if ch ∈ r then some (r.dropWhile (· ≠ ch)) else none := by
  induction r with
  | nil => simp [strchr]
  | cons b bs ih =>
    unfold strchr
    by_cases hb : b = ch
    · simp [hb]
    · have hb2 : ¬(ch = b) := fun h => hb h.symm
      simp only [hb, if_false, ih, List.mem_cons, hb2, false_or]
      split
      · simp [List.dropWhile, hb]
      · rfl

theorem chat_line_eq (c : client_t) (r : List Byte) :
    chat_line c r =
      (str "MSG @" ++ (if c.nick = [] then str "anon" else c.nick) ++ str " :" ++
        (if 58 ∈ r then (r.dropWhile (· ≠ 58)).drop 1 else r)).take (BUF_SIZE - 1) := by
  unfold chat_line snprintf
  rw [strchr_eq]
  by_cases hn : c.nick = [] <;> by_cases hr : 58 ∈ r <;> simp [hn, hr]

theorem drop_after_colon (t : List Byte) :
    (([58] ++ t : List Byte).dropWhile (· ≠ 58)).drop 1 = t := by
  simp [List.dropWhile]

theorem profile_lines_of_fits (fd : Int) (c : client_t) (hfit : c.fits) :
    profile_lines fd c =
      (if c.display_name ≠ [] then
          [Ev.send fd (str "PROFILE DATA " ++ c.nick ++ str " DISPLAYNAME :" ++ c.display_name)]
        else [])
      ++ (if c.pronouns ≠ [] then
          [Ev.send fd (str "PROFILE DATA " ++ c.nick ++ str " PRONOUNS :" ++ c.pronouns)]
        else [])
      ++ (if c.bio ≠ [] then
          [Ev.send fd (str "PROFILE DATA " ++ c.nick ++ str " BIO :" ++ c.bio)]
        else [])
      ++ [Ev.send fd (str "PROFILE END " ++ c.nick)] := by
  obtain ⟨h1, h2, h3, h4⟩ := hfit
  simp only [CAVE_NICK_MAX, CAVE_DISPLAY_MAX, CAVE_BIO_MAX, CAVE_PRONOUNS_MAX] at h1 h2 h3 h4
  have l1 : (str "PROFILE DATA ").length = 13 := by decide
  have l2 : (str " DISPLAYNAME :").length = 14 := by decide
  have l3 : (str " PRONOUNS :").length = 11 := by decide
  have l4 : (str " BIO :").length = 6 := by decide
  have l5 : (str "PROFILE END ").length = 12 := by decide
  unfold profile_lines send_line snprintf
  rw [List.take_of_length_le (by simp only [List.length_append, l1, l2, BUF_SIZE]; omega),
    List.take_of_length_le (by simp only [List.length_append, l1, l3, BUF_SIZE]; omega),
    List.take_of_length_le (by simp only [List.length_append, l1, l4, BUF_SIZE]; omega),
    List.take_of_length_le (by simp only [List.length_append, l5, BUF_SIZE]; omega)]

theorem profile_get_of_find (cs : Registry) (i k : Nat) (r : List Byte)
    (hfind : find_client_by_nick cs (target_token (skip_spaces r)) = some k) :
    handle_command cs i (str "PROFILE GET " ++ r) =
      (cs, profile_lines (slot cs i).fd (slot cs k)) := by
  have hk := find_client_by_nick_some cs _ k hfind
  have hne : target_token (skip_spaces r) ≠ [] := by
    rw [← hk.2.2.2]; exact hk.2.2.1
  rw [handle_command_profile_get]
  simp only [hne, if_false, hfind]

theorem set_displayname_ok (cs : Registry) (i : Nat) (v : List Byte)
    (hlen : strlen (skip_spaces v) < CAVE_DISPLAY_MAX) :
    handle_command cs i (str "PROFILE SET DISPLAYNAME :" ++ v) =
      (cs.set i { slot cs i with display_name := skip_spaces v },
        [Ev.send (slot cs i).fd (str "PROFILE OK DISPLAYNAME")]) := by
  have e : str "PROFILE SET DISPLAYNAME :" =
      str "PROFILE SET " ++ str "DISPLAYNAME" ++ str " :" := by decide
  rw [e, handle_command_profile_set cs i _ _ v (strcasecmp_self _) lower_DISPLAYNAME
    (by decide)]
  unfold profile_set_field
  have htake : snprintf CAVE_DISPLAY_MAX (skip_spaces v) = skip_spaces v :=
    List.take_of_length_le (by unfold strlen at hlen; omega)
  simp only [strcasecmp_self, if_true, ge_iff_le, not_le.mpr hlen, if_false, htake, send_line]

theorem received_append (fd : Int) (a b : List Ev) :
    received fd (a ++ b) = received fd a ++ received fd b := by
  induction a with
  | nil => rfl
  | cons e es ih =>
    cases e with
    | send f l =>
      show received fd (Ev.send f l :: (es ++ b)) = received fd (Ev.send f l :: es) ++ _
      simp only [received]
      split <;> simp [ih]
    | close f =>
      show received fd (Ev.close f :: (es ++ b)) = received fd (Ev.close f :: es) ++ _
      simp only [received, ih]

theorem received_broadcast_line (cs : Registry) (from_fd f : Int) (line : List Byte) :
    received f (broadcast_line cs from_fd line) =
      if f = from_fd then [] else List.replicate ((live_fds cs).count f) line := by
  induction cs with
  | nil => simp [broadcast_line, live_fds, received]
  | cons c cs ih =>
    unfold broadcast_line
    rw [received_append, ih]
    unfold live_fds send_line
    by_cases hlive : c.fd = -1
    · simp [hlive, List.filter_cons, received]
    · by_cases hfrom : c.fd = from_fd
      · subst hfrom
        by_cases hf : f = c.fd
        · simp [hlive, hf, received]
        · have : ¬(c.fd = f) := fun h => hf h.symm
          simp [hlive, hf, List.filter_cons, List.count_cons, this, received]
      · by_cases hf : f = from_fd
        · have : ¬(c.fd = f) := fun h => hfrom (h.trans hf)
          simp [hlive, hfrom, hf, received, this]
        · by_cases hcf : c.fd = f
          · subst hcf
            simp [hlive, hfrom, hf, List.filter_cons, List.count_cons, received,
              List.replicate_succ]
          · simp [hlive, hfrom, hf, hcf, List.filter_cons, List.count_cons, received]

theorem live_fds_cons (c : client_t) (cs : Registry) :
    live_fds (c :: cs) = if c.fd ≠ -1 then c.fd :: live_fds cs else live_fds cs := by
  unfold live_fds
  by_cases h : c.fd = -1 <;> simp [List.filter_cons, h]

theorem live_of_slot (cs : Registry) (k : Nat) (h : (slot cs k).fd ≠ -1) : k < cs.length := by
  by_contra hk
  rw [slot_of_ge cs k (Nat.le_of_not_lt hk)] at h
  exact h rfl

theorem live_fd_ne (cs : Registry) (i k : Nat) (hik : k ≠ i)
    (hi : (slot cs i).fd ≠ -1) (hk : (slot cs k).fd ≠ -1) (hd : (live_fds cs).Nodup) :
    (slot cs k).fd ≠ (slot cs i).fd := by
  induction cs generalizing i k with
  | nil => exact absurd rfl hi
  | cons c cs ih =>
    rw [live_fds_cons] at hd
    cases i with
    | zero =>
      cases k with
      | zero => exact absurd rfl hik
      | succ k' =>
        rw [slot_cons_zero] at hi ⊢
        rw [slot_cons_succ] at hk ⊢
        rw [if_pos hi] at hd
        intro heq
        have hmem := mem_live_fds cs k' (live_of_slot cs k' hk) hk
        rw [heq] at hmem
        exact (List.nodup_cons.mp hd).1 hmem
    | succ i' =>
      cases k with
      | zero =>
        rw [slot_cons_zero] at hk ⊢
        rw [slot_cons_succ] at hi ⊢
        rw [if_pos hk] at hd
        intro heq
        have hmem := mem_live_fds cs i' (live_of_slot cs i' hi) hi
        rw [← heq] at hmem
        exact (List.nodup_cons.mp hd).1 hmem
      | succ k' =>
        rw [slot_cons_succ] at hi hk ⊢
        have hd' : (live_fds cs).Nodup := by
          split at hd
          · exact (List.nodup_cons.mp hd).2
          · exact hd
        exact ih i' k' (fun h => hik (by rw [h])) hi hk hd'

theorem join_notice_fits (nick : List Byte) (h : nick.length < CAVE_NICK_MAX) :
    snprintf 128 (str "SYS :" ++ (if nick ≠ [] then nick else str "anonymous") ++ str " joined") =
      str "SYS :" ++ (if nick = [] then str "anonymous" else nick) ++ str " joined" := by
  have l1 : (str "SYS :").length = 5 := by decide
  have l2 : (str " joined").length = 7 := by decide
  have l3 : (str "anonymous").length = 9 := by decide
  simp only [CAVE_NICK_MAX] at h
  unfold snprintf
  by_cases hn : nick = []
  · simp only [hn, ne_eq, not_true_eq_false, if_false, if_true]
    exact List.take_of_length_le (by simp only [List.length_append, l1, l2, l3]; omega)
  · simp only [hn, ne_eq, not_false_eq_true, if_true, if_false]
    exact List.take_of_length_le (by simp only [List.length_append, l1, l2]; omega)

theorem strncmp_zero_iff_starts (line lit : List Byte) :
    strncmp line lit lit.length = 0 ↔ lit <+: line := by
  rw [strncmp_eq_zero, List.take_length, List.prefix_iff_eq_take]
  exact eq_comm

theorem handle_command_unknown (cs : Registry) (i : Nat) (line : List Byte)
    (h1 : strncmp line (str "NICK ") 5 ≠ 0) (h2 : strncmp line (str "MSG ") 4 ≠ 0)
    (h3 : strcmp line (str "PING") ≠ 0) (h4 : strncmp line (str "PROFILE ") 8 ≠ 0) :
    handle_command cs i line =
      (cs, [Ev.send (slot cs i).fd (str "ERR :unknown command")]) := by
  unfold handle_command
  simp only []
  rw [if_neg h1, if_neg h2, if_neg h3, if_neg h4]
  rfl

theorem mem_skip_spaces_of_mem (p : List Byte) (b : Byte) (h : b ∈ skip_spaces p) : b ∈ p :=
  (List.dropWhile_sublist _).subset h

theorem mem_skip_spaces (p : List Byte) (b : Byte) (hb : b ≠ 32) (h : b ∈ p) :
    b ∈ skip_spaces p := by
  induction p with
  | nil => simp at h
  | cons c cs ih =>
    unfold skip_spaces
    by_cases hc : c = 32
    · simp only [List.mem_cons] at h
      rcases h with h | h
      · exact absurd (h.trans hc) hb
      · rw [List.dropWhile_cons_of_pos (by simpa using hc)]
        exact ih h
    · rw [List.dropWhile_cons_of_neg (by simpa using hc)]
      exact h

theorem strchr_none (p : List Byte) (ch : Byte) (h : ch ∉ p) : strchr p ch = none := by
  rw [strchr_eq, if_neg h]

theorem strchr_some (p : List Byte) (ch : Byte) (h : ch ∈ p) :
    strchr p ch = some (p.dropWhile (· ≠ ch)) := by
  rw [strchr_eq, if_pos h]

/-- The result of `handle_command` on a `PROFILE SET` line, with the parse made
explicit: field token, colon search, value. -/
theorem handle_command_profile_set_parse (cs : Registry) (i : Nat) (r : List Byte) :
    handle_command cs i (str "PROFILE SET " ++ r) =
      match strchr (skip_spaces ((skip_spaces r).drop (field_token (skip_spaces r)).length)) 58 with
      | none => (cs, send_line (slot cs i).fd (str "PROFILE ERR SYNTAX"))
      | some colon =>
        profile_set_field cs i (field_token (skip_spaces r)) (skip_spaces (colon.drop 1)) := by
  have e : str "PROFILE SET " = str "PROFILE " ++ str "SET " := by decide
  rw [e, List.append_assoc, handle_command_profile]
  unfold handle_profile_command profile_set_field
  have h1 : skip_spaces (str "SET " ++ r) = str "SET " ++ r := by
    apply skip_spaces_of_head
    simp [str_SET]
  have h2 : (str "SET " ++ r).drop 4 = r := by simp [str_SET]
  have h3 : strncmp (str "SET " ++ r) (str "SET ") 4 = 0 := by
    simp [strncmp_eq_zero, str_SET]
  simp only [h1, h2, h3, if_true]

theorem field_token_no_colon (p : List Byte) : ∀ b ∈ field_token p, b ≠ 32 ∧ b ≠ 58 := by
  intro b hb
  unfold field_token at hb
  have h2 := List.mem_takeWhile_imp (List.mem_of_mem_take hb)
  simpa using h2

theorem field_token_initial (p : List Byte) : field_token p <+: p := by
  have h1 : field_token p <+: p.takeWhile (fun b => b ≠ 32 ∧ b ≠ 58) := List.take_prefix _ _
  have h2 : p.takeWhile (fun b => b ≠ 32 ∧ b ≠ 58) <+: p := List.takeWhile_prefix _
  exact h1.trans h2

theorem colon_after_field_token (p : List Byte) (h : 58 ∈ p) :
    58 ∈ skip_spaces (p.drop (field_token p).length) := by
  apply mem_skip_spaces _ _ (by decide)
  obtain ⟨t, ht⟩ := field_token_initial p
  have hd : p.drop (field_token p).length = t := by
    have := congrArg (List.drop (field_token p).length) ht
    rw [List.drop_left] at this
    exact this.symm
  rw [hd]
  have hp : (58 : Byte) ∈ field_token p ++ t := by rw [ht]; exact h
  rw [List.mem_append] at hp
  replace h := hp
  rcases h with h | h
  · exact absurd rfl (field_token_no_colon p 58 h).2
  · exact h

theorem strcasecmp_length (a b : List Byte) (h : strcasecmp a b = 0) : a.length = b.length := by
  rw [strcasecmp_eq_zero] at h
  have := congrArg List.length h
  simpa using this

theorem field_token_match (r X : List Byte) (hX : X.length < 31) :
    strcasecmp (field_token (skip_spaces r)) X = 0 ↔ strcasecmp (spec_field_name r) X = 0 := by
  unfold field_token spec_field_name
  generalize (skip_spaces r).takeWhile (fun b => b ≠ 32 ∧ b ≠ 58) = T
  by_cases hT : T.length ≤ 31
  · rw [List.take_of_length_le (by omega)]
  · constructor
    · intro h
      have := strcasecmp_length _ _ h
      rw [List.length_take] at this
      omega
    · intro h
      have := strcasecmp_length _ _ h
      omega

theorem handle_profile_command_effect (cs : Registry) (i : Nat) (args : List Byte) :
    (handle_profile_command cs i args).1 = cs ∨
      (strncmp (skip_spaces args) (str "SET ") 4 = 0 ∧
        ((∃ v, handle_profile_command cs i args =
            (cs.set i { slot cs i with display_name := v },
              [Ev.send (slot cs i).fd (str "PROFILE OK DISPLAYNAME")])) ∨
          (∃ v, handle_profile_command cs i args =
            (cs.set i { slot cs i with bio := v },
              [Ev.send (slot cs i).fd (str "PROFILE OK BIO")])) ∨
          (∃ v, handle_profile_command cs i args =
            (cs.set i { slot cs i with pronouns := v },
              [Ev.send (slot cs i).fd (str "PROFILE OK PRONOUNS")])))) := by
  unfold handle_profile_command
  simp only []
  by_cases hset : strncmp (skip_spaces args) (str "SET ") 4 = 0
  · rw [if_pos hset]
    split
    · exact Or.inl rfl
    · by_cases h1 : strcasecmp (field_token (skip_spaces ((skip_spaces args).drop 4)))
          (str "DISPLAYNAME") = 0
      · rw [if_pos h1]
        split
        · exact Or.inl rfl
        · exact Or.inr ⟨hset, Or.inl ⟨_, rfl⟩⟩
      · rw [if_neg h1]
        by_cases h2 : strcasecmp (field_token (skip_spaces ((skip_spaces args).drop 4)))
            (str "BIO") = 0
        · rw [if_pos h2]
          split
          · exact Or.inl rfl
          · exact Or.inr ⟨hset, Or.inr (Or.inl ⟨_, rfl⟩)⟩
        · rw [if_neg h2]
          by_cases h3 : strcasecmp (field_token (skip_spaces ((skip_spaces args).drop 4)))
              (str "PRONOUNS") = 0
          · rw [if_pos h3]
            split
            · exact Or.inl rfl
            · exact Or.inr ⟨hset, Or.inr (Or.inr ⟨_, rfl⟩)⟩
          · rw [if_neg h3]
            exact Or.inl rfl
  · left
    rw [if_neg hset]
    split_ifs
    · rfl
    · split <;> rfl
    · rfl

theorem handle_command_effect (cs : Registry) (i : Nat) (line : List Byte) :
    (handle_command cs i line).1 = cs ∨
      (str "NICK " <+: line ∧
        (handle_command cs i line).1 =
          cs.set i { slot cs i with nick := snprintf CAVE_NICK_MAX (line.drop 5) } ∧
        ∃ bl, (handle_command cs i line).2 =
          bl ++ [Ev.send (slot cs i).fd (str "SYS :nickname set")]) ∨
      (is_profile_set line ∧
        ((∃ v, handle_command cs i line =
            (cs.set i { slot cs i with display_name := v },
              [Ev.send (slot cs i).fd (str "PROFILE OK DISPLAYNAME")])) ∨
          (∃ v, handle_command cs i line =
            (cs.set i { slot cs i with bio := v },
              [Ev.send (slot cs i).fd (str "PROFILE OK BIO")])) ∨
          (∃ v, handle_command cs i line =
            (cs.set i { slot cs i with pronouns := v },
              [Ev.send (slot cs i).fd (str "PROFILE OK PRONOUNS")])))) := by
  unfold handle_command
  simp only []
  by_cases h0 : strncmp line (str "NICK ") 5 = 0
  · rw [if_pos h0]
    exact Or.inr (Or.inl ⟨(strncmp_zero_iff_starts line (str "NICK ")).mp h0, rfl, _, rfl⟩)
  · rw [if_neg h0]
    by_cases h1 : strncmp line (str "MSG ") 4 = 0
    · rw [if_pos h1]; exact Or.inl rfl
    · by_cases h2 : strcmp line (str "PING") = 0
      · rw [if_neg h1, if_pos h2]; exact Or.inl rfl
      · by_cases h3 : strncmp line (str "PROFILE ") 8 = 0
        · rw [if_neg h1, if_neg h2, if_pos h3]
          rcases handle_profile_command_effect cs i (line.drop 8) with h | ⟨hs, h⟩
          · exact Or.inl h
          · exact Or.inr (Or.inr ⟨⟨h3, hs⟩, h⟩)
        · rw [if_neg h1, if_neg h2, if_neg h3]; exact Or.inl rfl

theorem not_two_prefixes (a b line : List Byte) (ha : a <+: line) (hb : b <+: line)
    (hlen : a.length ≤ b.length) (hne : ¬(a <+: b)) : False :=
  hne (List.prefix_of_prefix_length_le ha hb hlen)

theorem profile_err_ne (e L : List Byte) (h : L.take 12 ≠ str "PROFILE ERR ") :
    str "PROFILE ERR " ++ e ≠ L := by
  intro heq
  apply h
  rw [← heq]
  exact List.take_left' (by decide)

theorem not_profile_set_of_get (line : List Byte) (hget : str "PROFILE GET " <+: line) :
    ¬is_profile_set line := by
  obtain ⟨t, rfl⟩ := hget
  intro h
  have h2 := h.2
  have e : str "PROFILE GET " = str "PROFILE " ++ str "GET " := by decide
  rw [e, List.append_assoc, List.drop_left' (by decide),
    skip_spaces_of_head _ (by simp [str_GET]), strncmp_eq_zero] at h2
  simp [str_GET, str_SET] at h2

theorem ev_send_inj {f g : Int} {a b : List Byte} (h : [Ev.send f a] = [Ev.send g b]) :
    a = b := by
  injection h with h1 _
  injection h1

theorem last_of_singleton_eq {α : Type} (x y : α) (bl : List α) (h : [x] = bl ++ [y]) :
    x = y := by
  have := congrArg List.getLast? h
  simpa using this

theorem assign_slot_full (cs : Registry) (cfd : Int) (h : ∀ c ∈ cs, c.fd ≠ -1) :
    assign_slot cs cfd = none := by
  induction cs with
  | nil => rfl
  | cons c cs ih =>
    unfold assign_slot
    rw [if_neg (h c (List.mem_cons_self _ _)), ih (fun d hd => h d (List.mem_cons_of_mem _ hd))]
    rfl

theorem exists_first_free (cs : Registry) (h : ∃ c ∈ cs, c.fd = -1) :
    ∃ k, k < cs.length ∧ (slot cs k).fd = -1 ∧ ∀ m < k, (slot cs m).fd ≠ -1 := by
  induction cs with
  | nil => simp at h
  | cons c cs ih =>
    by_cases hc : c.fd = -1
    · exact ⟨0, by simp, hc, fun m hm => absurd hm (Nat.not_lt_zero m)⟩
    · have h' : ∃ d ∈ cs, d.fd = -1 := by
        obtain ⟨d, hd, hfd⟩ := h
        simp only [List.mem_cons] at hd
        rcases hd with hd | hd
        · rw [hd] at hfd; exact absurd hfd hc
        · exact ⟨d, hd, hfd⟩
      obtain ⟨k, hk, hfree, hfirst⟩ := ih h'
      refine ⟨k + 1, by simpa using hk, hfree, ?_⟩
      intro m hm
      cases m with
      | zero => exact hc
      | succ m' => exact hfirst m' (by omega)

theorem mem_iff_slot (cs : Registry) (c : client_t) :
    c ∈ cs ↔ ∃ k, k < cs.length ∧ slot cs k = c := by
  constructor
  · intro h
    obtain ⟨k, hk, hc⟩ := List.getElem_of_mem h
    exact ⟨k, hk, by rw [slot_of_lt cs k hk]; exact hc⟩
  · rintro ⟨k, hk, hc⟩
    rw [← hc, slot_of_lt cs k hk]
    exact List.getElem_mem _

theorem forall_mem_of_slot (cs : Registry) (P : client_t → Prop) (h : ∀ k, P (slot cs k)) :
    ∀ c ∈ cs, P c := by
  intro c hc
  obtain ⟨k, _, hk⟩ := (mem_iff_slot cs c).mp hc
  rw [← hk]; exact h k

theorem forall_slot_of_mem (cs : Registry) (P : client_t → Prop) (h0 : P empty_slot)
    (h : ∀ c ∈ cs, P c) : ∀ k, P (slot cs k) := by
  intro k
  by_cases hk : k < cs.length
  · exact h _ ((mem_iff_slot cs _).mpr ⟨k, hk, rfl⟩)
  · rw [slot_of_ge cs k (Nat.le_of_not_lt hk)]; exact h0

theorem snprintf_length (size : Nat) (text : List Byte) (h : 0 < size) :
    (snprintf size text).length < size := by
  unfold snprintf
  rw [List.length_take]
  omega

/-- Every command either leaves the table as it is or replaces the issuer's
record by one with the same handle and accumulator whose fields still fit. -/
theorem handle_profile_command_update (cs : Registry) (i : Nat) (args : List Byte) :
    (handle_profile_command cs i args).1 = cs ∨
      ∃ d : client_t, (handle_profile_command cs i args).1 = cs.set i d ∧
        d.fd = (slot cs i).fd ∧ d.buf = (slot cs i).buf ∧ ((slot cs i).fits → d.fits) := by
  unfold handle_profile_command
  simp only []
  by_cases hset : strncmp (skip_spaces args) (str "SET ") 4 = 0
  · rw [if_pos hset]
    split
    · exact Or.inl rfl
    · by_cases h1 : strcasecmp (field_token (skip_spaces ((skip_spaces args).drop 4)))
          (str "DISPLAYNAME") = 0
      · rw [if_pos h1]
        split
        · exact Or.inl rfl
        · exact Or.inr ⟨_, rfl, rfl, rfl, fun hf =>
            ⟨hf.1, snprintf_length _ _ (by decide), hf.2.2.1, hf.2.2.2⟩⟩
      · rw [if_neg h1]
        by_cases h2 : strcasecmp (field_token (skip_spaces ((skip_spaces args).drop 4)))
            (str "BIO") = 0
        · rw [if_pos h2]
          split
          · exact Or.inl rfl
          · exact Or.inr ⟨_, rfl, rfl, rfl, fun hf =>
              ⟨hf.1, hf.2.1, snprintf_length _ _ (by decide), hf.2.2.2⟩⟩
        · rw [if_neg h2]
          by_cases h3 : strcasecmp (field_token (skip_spaces ((skip_spaces args).drop 4)))
              (str "PRONOUNS") = 0
          · rw [if_pos h3]
            split
            · exact Or.inl rfl
            · exact Or.inr ⟨_, rfl, rfl, rfl, fun hf =>
                ⟨hf.1, hf.2.1, hf.2.2.1, snprintf_length _ _ (by decide)⟩⟩
          · rw [if_neg h3]
            exact Or.inl rfl
  · left
    rw [if_neg hset]
    split_ifs
    · rfl
    · split <;> rfl
    · rfl

theorem handle_command_update (cs : Registry) (i : Nat) (line : List Byte) :
    (handle_command cs i line).1 = cs ∨
      ∃ d : client_t, (handle_command cs i line).1 = cs.set i d ∧
        d.fd = (slot cs i).fd ∧ d.buf = (slot cs i).buf ∧ ((slot cs i).fits → d.fits) := by
  unfold handle_command
  simp only []
  by_cases h0 : strncmp line (str "NICK ") 5 = 0
  · rw [if_pos h0]
    exact Or.inr ⟨_, rfl, rfl, rfl, fun hf =>
      ⟨snprintf_length _ _ (by decide), hf.2.1, hf.2.2.1, hf.2.2.2⟩⟩
  · rw [if_neg h0]
    by_cases h1 : strncmp line (str "MSG ") 4 = 0
    · rw [if_pos h1]; exact Or.inl rfl
    · by_cases h2 : strcmp line (str "PING") = 0
      · rw [if_neg h1, if_pos h2]; exact Or.inl rfl
      · by_cases h3 : strncmp line (str "PROFILE ") 8 = 0
        · rw [if_neg h1, if_neg h2, if_pos h3]
          exact handle_profile_command_update cs i (line.drop 8)
        · rw [if_neg h1, if_neg h2, if_neg h3]; exact Or.inl rfl

/-- A property of single records that holds for the empty slot and is kept by
`d` survives `cs.set i d`, slot by slot. -/
theorem slot_set_keeps (cs : Registry) (i k : Nat) (d : client_t) (P : client_t → Prop)
    (hd : P (slot cs i) → P d) (h : P (slot cs k)) : P (slot (cs.set i d) k) := by
  rw [slot_set]
  split
  · rename_i hik
    rw [hik.1] at hd
    exact hd h
  · exact h

theorem handle_command_keeps (cs : Registry) (i k : Nat) (line : List Byte)
    (P : client_t → Prop)
    (hP : ∀ c d : client_t, d.fd = c.fd → d.buf = c.buf → (c.fits → d.fits) → P c → P d)
    (h : P (slot cs k)) : P (slot (handle_command cs i line).1 k) := by
  rcases handle_command_update cs i line with he | ⟨d, he, hfd, hbuf, hfit⟩
  · rw [he]; exact h
  · rw [he]
    exact slot_set_keeps cs i k d P (hP _ d hfd hbuf hfit) h

theorem dispatch_keeps (cs : Registry) (i k : Nat) (ls : List (List Byte))
    (P : client_t → Prop)
    (hP : ∀ c d : client_t, d.fd = c.fd → d.buf = c.buf → (c.fits → d.fits) → P c → P d)
    (h : P (slot cs k)) : P (slot (dispatch cs i ls).1 k) := by
  induction ls generalizing cs with
  | nil => exact h
  | cons l ls ih => exact ih _ (handle_command_keeps cs i k l P hP h)

theorem framed_rest_length (s : List Byte) : (framed s).2.length ≤ s.length := by
  generalize hn : s.length = n
  induction n using Nat.strong_induction_on generalizing s with
  | _ n ih =>
    subst hn
    cases hk : strstr_nl s with
    | none => rw [framed_none s hk]
    | some k =>
      rw [framed_step s k hk]
      have := ih (s.drop (k + 1)).length
        (by have := strstr_nl_lt hk; simp [List.length_drop]; omega) (s.drop (k + 1)) rfl
      simp only [List.length_drop] at this ⊢
      omega

theorem handle_client_data_read (cs : Registry) (i : Nat) (n : Int) (rx : List Byte)
    (hn : 0 < n) :
    handle_client_data cs i n rx =
      (setbuf (dispatch cs i (framed ((slot cs i).buf ++ rx.take n.toNat)).1).1 i
          (framed ((slot cs i).buf ++ rx.take n.toNat)).2,
        (dispatch cs i (framed ((slot cs i).buf ++ rx.take n.toNat)).1).2) := by
  unfold handle_client_data
  simp only [not_le.mpr hn, if_false]
  rw [frame_loop_eq, frame_lines_eq_framed _ _ (Nat.le_succ _)]
  have e : cs.set i { slot cs i with buf := (slot cs i).buf ++ rx.take n.toNat } =
      setbuf cs i ((slot cs i).buf ++ rx.take n.toNat) := rfl
  rw [e, dispatch_setbuf]
  exact Prod.ext (setbuf_setbuf _ _ _ _) rfl

theorem handle_client_data_closed (cs : Registry) (i : Nat) (n : Int) (rx : List Byte)
    (hn : n ≤ 0) :
    handle_client_data cs i n rx = (cs.set i empty_slot, [Ev.close (slot cs i).fd]) := by
  unfold handle_client_data
  simp only []
  rw [if_pos hn]
  rfl

theorem main_accept_cases (cs : Registry) (cfd : Int) :
    (main_accept cs cfd).1 = cs ∨
      ∃ k, k < cs.length ∧ (slot cs k).fd = -1 ∧ (main_accept cs cfd).1 = cs.set k
        { fd := cfd, nick := [], display_name := [], bio := [], pronouns := [], buf := [] } := by
  unfold main_accept
  by_cases hc : cfd ≥ 0
  · rw [if_pos hc]
    by_cases hfree : ∃ c ∈ cs, c.fd = -1
    · obtain ⟨k, hk, hkfree, hfirst⟩ := exists_first_free cs hfree
      rw [assign_slot_first cs cfd k hk hkfree hfirst]
      exact Or.inr ⟨k, hk, hkfree, rfl⟩
    · have hfull : ∀ c ∈ cs, c.fd ≠ -1 := fun c hcm hfd => hfree ⟨c, hcm, hfd⟩
      rw [assign_slot_full cs cfd hfull]
      exact Or.inl rfl
  · rw [if_neg hc]
    exact Or.inl rfl

theorem slot_setbuf_any (cs : Registry) (i k : Nat) (b : List Byte) :
    slot (setbuf cs i b) k =
      if i = k ∧ i < cs.length then { slot cs i with buf := b } else slot cs k := by
  unfold setbuf
  rw [slot_set]

theorem handle_command_other (cs : Registry) (i k : Nat) (line : List Byte) (hk : k ≠ i) :
    slot (handle_command cs i line).1 k = slot cs k := by
  rcases handle_command_update cs i line with he | ⟨d, he, _⟩
  · rw [he]
  · rw [he, slot_set, if_neg (fun h => hk h.1.symm)]

theorem dispatch_other (cs : Registry) (i k : Nat) (ls : List (List Byte)) (hk : k ≠ i) :
    slot (dispatch cs i ls).1 k = slot cs k := by
  induction ls generalizing cs with
  | nil => rfl
  | cons l ls ih =>
    show slot (dispatch (handle_command cs i l).1 i ls).1 k = slot cs k
    rw [ih, handle_command_other cs i k l hk]

theorem handle_client_data_other (cs : Registry) (i k : Nat) (n : Int) (rx : List Byte)
    (hk : k ≠ i) : slot (handle_client_data cs i n rx).1 k = slot cs k := by
  by_cases hn : 0 < n
  · rw [handle_client_data_read cs i n rx hn]
    simp only []
    rw [slot_setbuf_any, if_neg (fun h => hk h.1.symm)]
    exact dispatch_other cs i k _ hk
  · rw [handle_client_data_closed cs i n rx (not_lt.mp hn)]
    show slot (cs.set i empty_slot) k = slot cs k
    rw [slot_set, if_neg (fun h => hk h.1.symm)]

/-- The accumulator bound survives one `handle_client_data` call whose read
respects the requested length. -/
theorem handle_client_data_buf_len (cs : Registry) (i : Nat) (n : Int) (rx : List Byte)
    (hrecv : n ≤ (BUF_SIZE : Int) - (slot cs i).buf_len - 1)
    (h : ∀ k, (slot cs k).buf_len ≤ BUF_SIZE - 1) (k : Nat) :
    (slot (handle_client_data cs i n rx).1 k).buf_len ≤ BUF_SIZE - 1 := by
  by_cases hki : k = i
  · subst hki
    by_cases hn : 0 < n
    · rw [handle_client_data_read cs k n rx hn]
      simp only []
      rw [slot_setbuf_any]
      split
      · have h1 := framed_rest_length ((slot (dispatch cs k
          (framed ((slot cs k).buf ++ rx.take n.toNat)).1).1 k).buf.take 0 ++
            ((slot cs k).buf ++ rx.take n.toNat))
        simp only [List.take_zero, List.nil_append, List.length_append, List.length_take] at h1
        simp only [client_t.buf_len, BUF_SIZE] at hrecv ⊢
        omega
      · exact dispatch_keeps cs k k _ (fun c => c.buf_len ≤ BUF_SIZE - 1)
          (fun c d _ hb _ hc => by simp only [client_t.buf_len, hb] at hc ⊢; exact hc) (h k)
    · rw [handle_client_data_closed cs k n rx (not_lt.mp hn), slot_set]
      split
      · simp [empty_slot, client_t.buf_len]
      · exact h k
  · rw [handle_client_data_other cs i k n rx hki]
    exact h k

theorem main_accept_keeps (cs : Registry) (cfd : Int) (P : client_t → Prop)
    (hnew : P { fd := cfd, nick := [], display_name := [], bio := [], pronouns := [], buf := [] })
    (h : ∀ k, P (slot cs k)) (k : Nat) : P (slot (main_accept cs cfd).1 k) := by
  rcases main_accept_cases cs cfd with he | ⟨j, _, _, he⟩
  · rw [he]; exact h k
  · rw [he]
    exact slot_set_keeps cs j k _ P (fun _ => hnew) (h k)

theorem slot_replicate_empty (m k : Nat) : slot (List.replicate m empty_slot) k = empty_slot := by
  by_cases hk : k < m
  · rw [slot_of_lt _ k (by simpa using hk)]
    simp
  · rw [slot_of_ge _ k (by simpa using Nat.le_of_not_lt hk)]

theorem reachable_buf_len (cs : Registry) (h : Reachable cs) :
    ∀ k, (slot cs k).buf_len ≤ BUF_SIZE - 1 := by
  induction h with
  | init =>
    intro k
    rw [slot_replicate_empty]
    simp [empty_slot, client_t.buf_len]
  | @step cs0 cs1 _ hstep ih =>
    cases hstep with
    | accept cfd =>
      exact main_accept_keeps cs0 cfd (fun c => c.buf_len ≤ BUF_SIZE - 1)
        (by simp [client_t.buf_len]) ih
    | read i n rx _ hrecv _ =>
      exact handle_client_data_buf_len cs0 i n rx hrecv ih

theorem handle_client_data_fits (cs : Registry) (i : Nat) (n : Int) (rx : List Byte)
    (h : ∀ k, (slot cs k).fits) (k : Nat) : (slot (handle_client_data cs i n rx).1 k).fits := by
  by_cases hn : 0 < n
  · rw [handle_client_data_read cs i n rx hn]
    simp only []
    rw [slot_setbuf_any]
    split
    · exact dispatch_keeps cs i i _ (fun c => c.fits) (fun c d _ _ hf hc => hf hc) (h i)
    · exact dispatch_keeps cs i k _ (fun c => c.fits) (fun c d _ _ hf hc => hf hc) (h k)
  · rw [handle_client_data_closed cs i n rx (not_lt.mp hn)]
    exact slot_set_keeps cs i k _ (fun c => c.fits) (fun _ => by decide) (h k)

theorem reachable_fits (cs : Registry) (h : Reachable cs) : ∀ k, (slot cs k).fits := by
  induction h with
  | init =>
    intro k
    rw [slot_replicate_empty]
    decide
  | @step cs0 cs1 _ hstep ih =>
    cases hstep with
    | accept cfd =>
      exact main_accept_keeps cs0 cfd (fun c => c.fits)
        (by simp [client_t.fits]) ih
    | read i n rx _ _ _ =>
      exact handle_client_data_fits cs0 i n rx ih

theorem wedged_strstr_nl (buf : List Byte) (h : wedged buf) : strstr_nl buf = none := by
  induction buf with
  | nil => rfl
  | cons b bs ih =>
    unfold wedged at h
    unfold strstr_nl
    by_cases h0 : b = 0
    · rw [if_pos h0]
    · rw [if_neg h0]
      by_cases h10 : b = 10
      · simp [List.takeWhile_cons, h10] at h
      · rw [if_neg h10]
        have h2 : wedged bs := by
          unfold wedged
          simp only [List.takeWhile_cons, ne_eq, h10, not_false_eq_true, decide_True,
            if_true, List.mem_cons] at h
          rcases h with h | h
          · exact absurd h.symm h0
          · exact h
        rw [ih h2]
        rfl

theorem wedged_append (buf rx : List Byte) (h : wedged buf) : wedged (buf ++ rx) := by
  induction buf with
  | nil => simp [wedged] at h
  | cons b bs ih =>
    unfold wedged at h ⊢
    by_cases h10 : b = 10
    · simp [List.takeWhile_cons, h10] at h
    · simp only [List.cons_append, List.takeWhile_cons, ne_eq, h10, not_false_eq_true,
        decide_True, if_true, List.mem_cons] at h ⊢
      rcases h with h | h
      · exact Or.inl h
      · exact Or.inr (ih h)

theorem wedged_lt_length (cs : Registry) (i : Nat) (h : wedged (slot cs i).buf) :
    i < cs.length := by
  by_contra hge
  rw [slot_of_ge cs i (Nat.le_of_not_lt hge)] at h
  simp [wedged, empty_slot] at h

theorem handle_client_data_wedged (cs : Registry) (i : Nat) (n : Int) (rx : List Byte)
    (hw : wedged (slot cs i).buf) (hn : 0 < n) (hrx : (rx.length : Int) = n) :
    handle_client_data cs i n rx = (setbuf cs i ((slot cs i).buf ++ rx), []) ∧
    dispatched cs i n rx = [] := by
  have hs := wedged_strstr_nl _ (wedged_append _ rx hw)
  rw [handle_client_data_pos cs i n rx hn hrx, dispatched_pos cs i n rx hn hrx,
    framed_none _ hs]
  exact ⟨rfl, rfl⟩

theorem feed_wedged (chunks : List (List Byte)) (cs : Registry) (i : Nat)
    (hw : wedged (slot cs i).buf) (hr : reads_ok cs i chunks) :
    fed_lines cs i chunks = [] ∧
    feed cs i chunks = (setbuf cs i ((slot cs i).buf ++ chunks.flatten), []) ∧
    ((slot cs i).buf_len ≤ BUF_SIZE - 1 →
      (slot cs i).buf_len + chunks.flatten.length ≤ BUF_SIZE - 1) := by
  induction chunks generalizing cs with
  | nil =>
    refine ⟨rfl, ?_, fun hb => hb⟩
    simp only [List.flatten_nil, List.append_nil, setbuf_self]
    rfl
  | cons ch rest ih =>
    have hlt := wedged_lt_length cs i hw
    have hpos : (0 : Int) < (ch.length : Int) := by
      have := hr.1.1
      omega
    obtain ⟨h1, h2⟩ := handle_client_data_wedged cs i ch.length ch hw hpos rfl
    have hslot : slot (setbuf cs i ((slot cs i).buf ++ ch)) i =
        { slot cs i with buf := (slot cs i).buf ++ ch } := slot_setbuf cs i _ hlt
    have hr2 : reads_ok (setbuf cs i ((slot cs i).buf ++ ch)) i rest := by
      have := hr.2
      rw [h1] at this
      exact this
    have hw2 : wedged (slot (setbuf cs i ((slot cs i).buf ++ ch)) i).buf := by
      rw [hslot]
      exact wedged_append _ ch hw
    obtain ⟨g1, g2, g3⟩ := ih (setbuf cs i ((slot cs i).buf ++ ch)) hw2 hr2
    refine ⟨?_, ?_, fun hb => ?_⟩
    · show dispatched cs i ch.length ch ++
        fed_lines (handle_client_data cs i ch.length ch).1 i rest = []
      rw [h2, h1, g1]
      rfl
    · show ((feed (handle_client_data cs i ch.length ch).1 i rest).1,
        (handle_client_data cs i ch.length ch).2 ++
          (feed (handle_client_data cs i ch.length ch).1 i rest).2) = _
      rw [h1, g2, hslot, setbuf_setbuf]
      simp only [List.flatten_cons, List.append_assoc, List.append_nil]
    · have hb1 := hr.1.2
      have hb0 := hr.1.1
      have hlen : (slot (setbuf cs i ((slot cs i).buf ++ ch)) i).buf_len =
          (slot cs i).buf_len + ch.length := by
        rw [hslot]
        simp [client_t.buf_len]
      have g4 := g3 (by rw [hlen]; simp only [BUF_SIZE] at hb1 ⊢; omega)
      rw [hlen] at g4
      simp only [List.flatten_cons, List.length_append]
      omega

theorem skip_spaces_replicate (m : Nat) (p : List Byte) :
    skip_spaces (List.replicate m 32 ++ p) = skip_spaces p := by
  induction m with
  | zero => rfl
  | succ m ih =>
    rw [List.replicate_succ, List.cons_append]
    unfold skip_spaces at ih ⊢
    rw [List.dropWhile_cons]
    simp only [decide_True, if_true]
    exact ih

theorem target_token_props (p : List Byte) :
    (target_token p).length ≤ 31 ∧ ∀ b ∈ target_token p, b ≠ 32 ∧ b ≠ 13 ∧ b ≠ 10 := by
  unfold target_token
  constructor
  · rw [List.length_take]
    simp only [CAVE_NICK_MAX]
    omega
  · intro b hb
    have h2 := List.mem_takeWhile_imp (List.mem_of_mem_take hb)
    simpa using h2

/-- The result of `handle_command` on any line that reaches the `GET` branch:
`PROFILE `, optional spaces, `GET `, then the rest `r`. -/
theorem handle_command_profile_get_spaces (cs : Registry) (i m : Nat) (r : List Byte) :
    handle_command cs i (str "PROFILE " ++ List.replicate m 32 ++ str "GET " ++ r) =
      handle_command cs i (str "PROFILE GET " ++ r) := by
  have e : str "PROFILE GET " = str "PROFILE " ++ str "GET " := by decide
  rw [e, List.append_assoc, List.append_assoc, List.append_assoc, handle_command_profile,
    handle_command_profile]
  unfold handle_profile_command
  simp only []
  rw [skip_spaces_replicate]

theorem set_bio_ok (cs : Registry) (i : Nat) (v : List Byte)
    (hlen : strlen (skip_spaces v) < CAVE_BIO_MAX) :
    handle_command cs i (str "PROFILE SET BIO :" ++ v) =
      (cs.set i { slot cs i with bio := skip_spaces v },
        [Ev.send (slot cs i).fd (str "PROFILE OK BIO")]) := by
  have e : str "PROFILE SET BIO :" = str "PROFILE SET " ++ str "BIO" ++ str " :" := by decide
  rw [e, handle_command_profile_set cs i _ _ v (strcasecmp_self _) lower_BIO (by decide)]
  unfold profile_set_field
  have htake : snprintf CAVE_BIO_MAX (skip_spaces v) = skip_spaces v :=
    List.take_of_length_le (by unfold strlen at hlen; omega)
  have h1 : strcasecmp (str "BIO") (str "DISPLAYNAME") ≠ 0 := by decide
  simp only [h1, strcasecmp_self, if_true, ge_iff_le, not_le.mpr hlen, if_false, htake,
    send_line]

theorem set_pronouns_ok (cs : Registry) (i : Nat) (v : List Byte)
    (hlen : strlen (skip_spaces v) < CAVE_PRONOUNS_MAX) :
    handle_command cs i (str "PROFILE SET PRONOUNS :" ++ v) =
      (cs.set i { slot cs i with pronouns := skip_spaces v },
        [Ev.send (slot cs i).fd (str "PROFILE OK PRONOUNS")]) := by
  have e : str "PROFILE SET PRONOUNS :" =
      str "PROFILE SET " ++ str "PRONOUNS" ++ str " :" := by decide
  rw [e, handle_command_profile_set cs i _ _ v (strcasecmp_self _) lower_PRONOUNS (by decide)]
  unfold profile_set_field
  have htake : snprintf CAVE_PRONOUNS_MAX (skip_spaces v) = skip_spaces v :=
    List.take_of_length_le (by unfold strlen at hlen; omega)
  have h1 : strcasecmp (str "PRONOUNS") (str "DISPLAYNAME") ≠ 0 := by decide
  have h2 : strcasecmp (str "PRONOUNS") (str "BIO") ≠ 0 := by decide
  simp only [h1, h2, strcasecmp_self, if_true, ge_iff_le, not_le.mpr hlen, if_false, htake,
    send_line]

theorem skip_spaces_all_spaces (m : Nat) : skip_spaces (List.replicate m 32) = [] := by
  have := skip_spaces_replicate m []
  rw [List.append_nil] at this
  exact this

theorem profile_get_after_set (cs : Registry) (i j : Nat) (d : client_t) (r : List Byte)
    (hi : i < cs.length) (hfit : d.fits)
    (hfind : find_client_by_nick (cs.set i d) (target_token (skip_spaces r)) = some i) :
    handle_command (cs.set i d) j (str "PROFILE GET " ++ r) =
      (cs.set i d,
        (if d.display_name ≠ [] then
            [Ev.send (slot (cs.set i d) j).fd
              (str "PROFILE DATA " ++ d.nick ++ str " DISPLAYNAME :" ++ d.display_name)]
          else [])
        ++ (if d.pronouns ≠ [] then
            [Ev.send (slot (cs.set i d) j).fd
              (str "PROFILE DATA " ++ d.nick ++ str " PRONOUNS :" ++ d.pronouns)]
          else [])
        ++ (if d.bio ≠ [] then
            [Ev.send (slot (cs.set i d) j).fd
              (str "PROFILE DATA " ++ d.nick ++ str " BIO :" ++ d.bio)]
          else [])
        ++ [Ev.send (slot (cs.set i d) j).fd (str "PROFILE END " ++ d.nick)]) := by
  have hs : slot (cs.set i d) i = d := by
    rw [slot_set, if_pos ⟨rfl, hi⟩]
  rw [profile_get_of_find _ j i r hfind, hs, profile_lines_of_fits _ _ hfit]

theorem slot_set_fd (cs : Registry) (i j : Nat) (d : client_t) (hd : d.fd = (slot cs i).fd) :
    (slot (cs.set i d) j).fd = (slot cs j).fd := by
  rw [slot_set]
  split
  · rename_i h
    rw [hd, h.1]
  · rfl

theorem windows_send_line_live (fd : Int) (line : List Byte) (h : fd ≠ -1) :
    Windows.send_line fd line = send_line fd line := by
  unfold Windows.send_line send_line
  rw [if_neg h]

theorem windows_broadcast_line_eq (cs : Registry) (from_fd : Int) (line : List Byte) :
    Windows.broadcast_line cs from_fd line = broadcast_line cs from_fd line := by
  induction cs with
  | nil => rfl
  | cons c cs ih =>
    unfold Windows.broadcast_line broadcast_line
    rw [ih]
    by_cases hc : c.fd ≠ -1 ∧ c.fd ≠ from_fd
    · rw [if_pos hc, if_pos hc, windows_send_line_live _ _ hc.1]
    · rw [if_neg hc, if_neg hc]

theorem windows_find_client_by_nick_eq (cs : Registry) (nick : List Byte) :
    Windows.find_client_by_nick cs nick = find_client_by_nick cs nick := by
  induction cs with
  | nil => rfl
  | cons c cs ih =>
    unfold Windows.find_client_by_nick find_client_by_nick
    rw [ih]

theorem windows_profile_lines_live (fd : Int) (c : client_t) (h : fd ≠ -1) :
    Windows.profile_lines fd c = profile_lines fd c := by
  unfold Windows.profile_lines profile_lines
  simp only [windows_send_line_live _ _ h]

theorem windows_handle_profile_command_eq (cs : Registry) (i : Nat) (args : List Byte)
    (hlive : (slot cs i).fd ≠ -1)
    (hout : (handle_profile_command cs i args).2 ≠
      [Ev.send (slot cs i).fd (str "PROFILE ERR VALUE_TOO_LONG")]) :
    Windows.handle_profile_command cs i args = handle_profile_command cs i args := by
  unfold handle_profile_command at hout
  unfold Windows.handle_profile_command handle_profile_command
  simp only [windows_send_line_live _ _ hlive, windows_find_client_by_nick_eq,
    windows_profile_lines_live _ _ hlive] at hout ⊢
  by_cases hset : strncmp (skip_spaces args) (str "SET ") 4 = 0
  · rw [if_pos hset] at hout ⊢
    rw [if_pos hset]
    revert hout
    cases strchr (skip_spaces ((skip_spaces ((skip_spaces args).drop 4)).drop
        (field_token (skip_spaces ((skip_spaces args).drop 4))).length)) 58 with
    | none => intro _; rfl
    | some colon =>
      intro hout
      simp only [] at hout ⊢
      by_cases h1 : strcasecmp (field_token (skip_spaces ((skip_spaces args).drop 4)))
          (str "DISPLAYNAME") = 0
      · rw [if_pos h1, if_pos h1]
      · rw [if_neg h1, if_neg h1]
        rw [if_neg h1] at hout
        by_cases h2 : strcasecmp (field_token (skip_spaces ((skip_spaces args).drop 4)))
            (str "BIO") = 0
        · rw [if_pos h2, if_pos h2]
        · rw [if_neg h2, if_neg h2]
          rw [if_neg h2] at hout
          by_cases h3 : strcasecmp (field_token (skip_spaces ((skip_spaces args).drop 4)))
              (str "PRONOUNS") = 0
          · rw [if_pos h3, if_pos h3]
            rw [if_pos h3] at hout
            by_cases hl : strlen (skip_spaces (colon.drop 1)) ≥ CAVE_PRONOUNS_MAX
            · rw [if_pos hl] at hout
              exact absurd rfl hout
            · have hl2 : ¬strlen (skip_spaces (colon.drop 1)) ≥ Windows.CAVE_PRONOUNS_MAX := by
                simp only [CAVE_PRONOUNS_MAX, Windows.CAVE_PRONOUNS_MAX] at hl ⊢
                omega
              rw [if_neg hl, if_neg hl2]
              have e : snprintf Windows.CAVE_PRONOUNS_MAX (skip_spaces (colon.drop 1)) =
                  snprintf CAVE_PRONOUNS_MAX (skip_spaces (colon.drop 1)) := by
                unfold snprintf
                unfold strlen at hl
                simp only [CAVE_PRONOUNS_MAX, Windows.CAVE_PRONOUNS_MAX] at hl ⊢
                rw [List.take_of_length_le (by omega), List.take_of_length_le (by omega)]
              rw [e]
          · rw [if_neg h3, if_neg h3]
  · rw [if_neg hset, if_neg hset]

/-- The two servers agree on every line from a connected client that the POSIX
server does not answer with `PROFILE ERR VALUE_TOO_LONG`. -/
theorem windows_handle_command_eq (cs : Registry) (i : Nat) (line : List Byte)
    (hlive : (slot cs i).fd ≠ -1)
    (hout : (handle_command cs i line).2 ≠
      [Ev.send (slot cs i).fd (str "PROFILE ERR VALUE_TOO_LONG")]) :
    Windows.handle_command cs i line = handle_command cs i line := by
  unfold handle_command at hout
  unfold Windows.handle_command handle_command
  simp only [windows_send_line_live _ _ hlive, windows_broadcast_line_eq] at hout ⊢
  by_cases h1 : strncmp line (str "NICK ") 5 = 0
  · rw [if_pos h1, if_pos h1]
  · rw [if_neg h1, if_neg h1]
    rw [if_neg h1] at hout
    by_cases h2 : strncmp line (str "MSG ") 4 = 0
    · rw [if_pos h2, if_pos h2]
    · rw [if_neg h2, if_neg h2]
      rw [if_neg h2] at hout
      by_cases h3 : strcmp line (str "PING") = 0
      · rw [if_pos h3, if_pos h3]
      · rw [if_neg h3, if_neg h3]
        rw [if_neg h3] at hout
        by_cases h4 : strncmp line (str "PROFILE ") 8 = 0
        · rw [if_pos h4, if_pos h4]
          rw [if_pos h4] at hout
          exact windows_handle_profile_command_eq cs i _ hlive hout
        · rw [if_neg h4, if_neg h4]

theorem closed_fds_append (a b : List Ev) :
    closed_fds (a ++ b) = closed_fds a ++ closed_fds b := by
  induction a with
  | nil => rfl
  | cons e es ih =>
    cases e with
    | send f l =>
      show closed_fds (es ++ b) = closed_fds es ++ closed_fds b
      exact ih
    | close f =>
      show f :: closed_fds (es ++ b) = f :: closed_fds es ++ closed_fds b
      rw [ih]
      rfl

theorem closed_fds_send_line (fd : Int) (line : List Byte) :
    closed_fds (send_line fd line) = [] := rfl

theorem closed_fds_broadcast_line (cs : Registry) (from_fd : Int) (line : List Byte) :
    closed_fds (broadcast_line cs from_fd line) = [] := by
  induction cs with
  | nil => rfl
  | cons c cs ih =>
    unfold broadcast_line
    rw [closed_fds_append, ih]
    split <;> rfl

theorem closed_fds_profile_lines (fd : Int) (c : client_t) :
    closed_fds (profile_lines fd c) = [] := by
  unfold profile_lines
  simp only [closed_fds_append, closed_fds_send_line, List.append_nil]
  split_ifs <;> rfl

theorem closed_fds_handle_profile_command (cs : Registry) (i : Nat) (args : List Byte) :
    closed_fds (handle_profile_command cs i args).2 = [] := by
  unfold handle_profile_command
  simp only []
  split_ifs <;> (try split) <;> (try split_ifs) <;>
    simp only [closed_fds_send_line, closed_fds_profile_lines]

theorem closed_fds_handle_command (cs : Registry) (i : Nat) (line : List Byte) :
    closed_fds (handle_command cs i line).2 = [] := by
  unfold handle_command
  simp only []
  split_ifs <;>
    simp only [closed_fds_append, closed_fds_send_line, closed_fds_broadcast_line,
      closed_fds_handle_profile_command, List.append_nil]

theorem closed_fds_dispatch (cs : Registry) (i : Nat) (ls : List (List Byte)) :
    closed_fds (dispatch cs i ls).2 = [] := by
  induction ls generalizing cs with
  | nil => rfl
  | cons l ls ih =>
    show closed_fds ((handle_command cs i l).2 ++ (dispatch (handle_command cs i l).1 i ls).2) = []
    rw [closed_fds_append, closed_fds_handle_command, ih]
    rfl

theorem handle_command_fd (cs : Registry) (i k : Nat) (line : List Byte) :
    (slot (handle_command cs i line).1 k).fd = (slot cs k).fd :=
  handle_command_keeps cs i k line (fun c => c.fd = (slot cs k).fd)
    (fun _ _ hfd _ _ hc => hfd.trans hc) rfl

theorem handle_client_data_fd (cs : Registry) (i k : Nat) (n : Int) (rx : List Byte)
    (hn : 0 < n) : (slot (handle_client_data cs i n rx).1 k).fd = (slot cs k).fd := by
  rw [handle_client_data_read cs i n rx hn]
  simp only []
  rw [slot_setbuf_fd]
  exact dispatch_keeps cs i k _ (fun c => c.fd = (slot cs k).fd)
    (fun _ _ hfd _ _ hc => hfd.trans hc) rfl

theorem live_fds_set (cs : Registry) (i : Nat) (d : client_t) (hd : d.fd = (slot cs i).fd) :
    live_fds (cs.set i d) = live_fds cs := by
  induction cs generalizing i with
  | nil => rfl
  | cons c cs ih =>
    cases i with
    | zero =>
      rw [slot_cons_zero] at hd
      rw [List.set_cons_zero, live_fds_cons, live_fds_cons, hd]
    | succ j =>
      rw [slot_cons_succ] at hd
      rw [List.set_cons_succ, live_fds_cons, live_fds_cons, ih j hd]

theorem handle_command_live_fds (cs : Registry) (i : Nat) (line : List Byte) :
    live_fds (handle_command cs i line).1 = live_fds cs := by
  rcases handle_command_update cs i line with he | ⟨d, he, hfd, _⟩
  · rw [he]
  · rw [he, live_fds_set cs i d hfd]

theorem strchr_first (pre t : List Byte) (ch : Byte) (h : ch ∉ pre) :
    strchr (pre ++ ch :: t) ch = some (ch :: t) := by
  induction pre with
  | nil => simp [strchr]
  | cons b bs ih =>
    have hb : b ≠ ch := fun e => h (by rw [e]; exact List.mem_cons_self _ _)
    have hbs : ch ∉ bs := fun e => h (List.mem_cons_of_mem _ e)
    rw [List.cons_append]
    unfold strchr
    rw [if_neg hb]
    exact ih hbs

theorem shown_nick_props (c : client_t) (hlen : c.nick.length < CAVE_NICK_MAX)
    (hsp : 32 ∉ c.nick) (hcol : 58 ∉ c.nick) :
    (shown_nick c).length ≤ 31 ∧ (∀ b ∈ shown_nick c, b ≠ 32 ∧ b ≠ 58) ∧ shown_nick c ≠ [] := by
  unfold shown_nick
  by_cases hn : c.nick = []
  · rw [if_neg (not_not.mpr hn)]
    decide
  · rw [if_pos hn]
    refine ⟨by simp only [CAVE_NICK_MAX] at hlen; omega, fun b hb => ⟨?_, ?_⟩, hn⟩
    · intro e; rw [e] at hb; exact hsp hb
    · intro e; rw [e] at hb; exact hcol hb

theorem chat_line_shown (c : client_t) (t : List Byte)
    (hfit : (str "MSG @" ++ shown_nick c ++ str " :" ++ t).length < BUF_SIZE) :
    chat_line c (str ":" ++ t) = str "MSG @" ++ shown_nick c ++ str " :" ++ t := by
  unfold chat_line snprintf shown_nick
  have h : strchr (str ":" ++ t) 58 = some (58 :: t) := strchr_first [] t 58 (by simp)
  rw [h]
  apply List.take_of_length_le
  unfold shown_nick at hfit
  simp only [BUF_SIZE] at hfit ⊢
  exact Nat.le_pred_of_lt hfit

theorem client_parses_chat_line (s : Client.State) (n t : List Byte)
    (hlen : n.length ≤ 31) (hn : ∀ b ∈ n, b ≠ 32 ∧ b ≠ 58) :
    Client.handle_net_line s (str "MSG @" ++ n ++ str " :" ++ t) =
      (s, [Client.Out.chat (decide (s.current_nick ≠ [] ∧ strcmp s.current_nick n = 0)) n t]) := by
  have e1 : str "MSG @" ++ n ++ str " :" ++ t = 77 :: 83 :: 71 :: 32 :: 64 :: (n ++ 32 :: 58 :: t) := by
    have a : str "MSG @" = [77, 83, 71, 32, 64] := by decide
    have b : str " :" = [32, 58] := by decide
    rw [a, b]
    simp
  have h1 : strncmp (str "MSG @" ++ n ++ str " :" ++ t) (str "SYS :") 5 ≠ 0 := by
    rw [e1, ne_eq, strncmp_eq_zero]
    have a : str "SYS :" = [83, 89, 83, 32, 58] := by decide
    rw [a]
    simp
  have h2 : strncmp (str "MSG @" ++ n ++ str " :" ++ t) (str "MSG ") 4 = 0 := by
    rw [e1, strncmp_eq_zero, str_MSG]
    simp
  have h3 : strchr (str "MSG @" ++ n ++ str " :" ++ t) 58 = some (58 :: t) := by
    have e2 : str "MSG @" ++ n ++ str " :" ++ t =
        (77 :: 83 :: 71 :: 32 :: 64 :: (n ++ [32])) ++ 58 :: t := by
      rw [e1]; simp
    rw [e2]
    apply strchr_first
    intro hm
    simp at hm
    exact (hn 58 hm).2 rfl
  have h4 : ((n ++ 32 :: 58 :: t).takeWhile (fun b => decide (b ≠ 32 ∧ b ≠ 58))).take
      (Client.CAVE_NICK_MAX - 1) = n := by
    rw [takeWhile_token n (32 :: 58 :: t) _ (by simpa using hn) (by simp)]
    exact List.take_of_length_le hlen
  unfold Client.handle_net_line
  rw [if_neg h1, if_pos h2, h3]
  simp only []
  rw [e1]
  simp only [List.drop_succ_cons, List.drop_zero, List.head?_cons, if_true, h4]

theorem client_sends_chat (s : Client.State) (t : List Byte) (hne : t ≠ [])
    (hslash : t.head? ≠ some 47) (hfit : (str "MSG :" ++ t).length < Client.BUF_SIZE) :
    Client.handle_user_input s (some (t ++ [10])) =
      (s, [Client.Act.send (str "MSG :" ++ t)]) ∧
    (10 ∉ t → Client.handle_user_input s (some t) =
      (s, [Client.Act.send (str "MSG :" ++ t)])) := by
  have htake : snprintf Client.BUF_SIZE (str "MSG :" ++ t) = str "MSG :" ++ t := by
    unfold snprintf
    apply List.take_of_length_le
    simp only [Client.BUF_SIZE] at hfit ⊢
    exact Nat.le_pred_of_lt hfit
  constructor
  · have hl : (t ++ [10]).getLast? = some 10 := by simp
    have hd : (t ++ [10]).dropLast = t := by simp
    unfold Client.handle_user_input
    simp only []
    rw [if_pos hl, hd, if_neg hne, if_neg hslash, htake]
  · intro hnl
    have hlast : t.getLast? ≠ some 10 := fun h => hnl (List.mem_of_getLast?_eq_some h)
    unfold Client.handle_user_input
    simp only []
    rw [if_neg hlast, if_neg hne, if_neg hslash, htake]

/-- C1 (counterexample).  The stream `PING` without a terminating LF, fed as a
single chunk, dispatches no line, while splitting the stream on LF, stripping
CR and dropping empty pieces yields the line `PING`. -/
theorem framer_unterminated_piece_not_dispatched :
    fed_lines one_client 0 [str "PING"] = [] ∧
    (feed one_client 0 [str "PING"]).2 = [] ∧
    spec_lines (List.flatten [str "PING"]) = [str "PING"] ∧
    fed_lines one_client 0 [str "PING"] ≠ spec_lines (List.flatten [str "PING"]) := by
  decide

/-- C1 (amended).  For every NUL-free byte stream cut into chunks that `recv`
can return (each non-empty and no longer than the free space of the
accumulator when it is read), feeding the chunks in order to
`handle_client_data`, starting from an empty accumulator, dispatches to
`handle_command` exactly the LF-terminated pieces of the whole stream, each
with one optional trailing CR stripped and the empty ones dropped; the piece
after the last LF is not dispatched but kept as the accumulator.  The table and
the output are those of dispatching these lines in order, so neither depends
on where the chunk boundaries fall. -/
theorem framer_chunk_independence (cs : Registry) (i : Nat) (chunks : List (List Byte))
    (hi : i < cs.length) (hacc : (slot cs i).buf = [])
    (hnul : ∀ ch ∈ chunks, 0 ∉ ch) (hok : reads_ok cs i chunks) :
    fed_lines cs i chunks = complete_lines chunks.flatten ∧
    feed cs i chunks =
      (setbuf (dispatch cs i (complete_lines chunks.flatten)).1 i (pending chunks.flatten),
        (dispatch cs i (complete_lines chunks.flatten)).2) := by
  have h := feed_general chunks cs i hi (by simp [hacc]) (by simp [hacc]) hnul
    (reads_ok_pos chunks cs i hok)
  simpa [hacc] using h

theorem framer_chunk_independence_witness :
    (0 < one_client.length ∧ (slot one_client 0).buf = [] ∧
      (∀ ch ∈ [str "PI", str "NG\r\nNICK", str " bob\n\nMS"], 0 ∉ ch) ∧
      reads_ok one_client 0 [str "PI", str "NG\r\nNICK", str " bob\n\nMS"]) ∧
    fed_lines one_client 0 [str "PI", str "NG\r\nNICK", str " bob\n\nMS"] =
      [str "PING", str "NICK bob"] ∧
    (feed one_client 0 [str "PI", str "NG\r\nNICK", str " bob\n\nMS"]).2 =
      [Ev.send 4 (str "PONG"), Ev.send 4 (str "SYS :nickname set")] :=
  have h := framer_chunk_independence one_client 0
    [str "PI", str "NG\r\nNICK", str " bob\n\nMS"]
    (by decide) (by decide) (by decide) (by decide)
  ⟨⟨by decide, by decide, by decide, by decide⟩, by rw [h.1]; decide, by rw [h.2]; decide⟩

/-- C3.  For every table, issuing client `i` and value `v`: when the field `F`
is DISPLAYNAME, BIO or PRONOUNS and `v` without its leading spaces is at least
as long as that field's limit (64, 512, 16), the line `PROFILE SET F :v` leaves
the whole table unchanged and its only output is the single line
`PROFILE ERR VALUE_TOO_LONG`, sent to the issuer. -/
theorem profile_set_value_too_long (cs : Registry) (i : Nat) (F v : List Byte) (lim : Nat)
    (hF : (F, lim) ∈ [(str "DISPLAYNAME", CAVE_DISPLAY_MAX), (str "BIO", CAVE_BIO_MAX),
      (str "PRONOUNS", CAVE_PRONOUNS_MAX)])
    (hlen : lim ≤ strlen (skip_spaces v)) :
    handle_command cs i (str "PROFILE SET " ++ F ++ str " :" ++ v) =
      (cs, [Ev.send (slot cs i).fd (str "PROFILE ERR VALUE_TOO_LONG")]) := by
  simp only [List.mem_cons, Prod.mk.injEq, List.mem_singleton, List.not_mem_nil, or_false] at hF
  rcases hF with ⟨rfl, rfl⟩ | ⟨rfl, rfl⟩ | ⟨rfl, rfl⟩
  · rw [handle_command_profile_set cs i _ _ v (strcasecmp_self _) lower_DISPLAYNAME (by decide)]
    unfold profile_set_field
    simp only [strcasecmp_self, if_true, ge_iff_le, hlen, send_line]
  · rw [handle_command_profile_set cs i _ _ v (strcasecmp_self _) lower_BIO (by decide)]
    unfold profile_set_field
    have h1 : strcasecmp (str "BIO") (str "DISPLAYNAME") ≠ 0 := by decide
    simp only [strcasecmp_self, h1, if_true, if_false, ge_iff_le, hlen, send_line]
  · rw [handle_command_profile_set cs i _ _ v (strcasecmp_self _) lower_PRONOUNS (by decide)]
    unfold profile_set_field
    have h1 : strcasecmp (str "PRONOUNS") (str "DISPLAYNAME") ≠ 0 := by decide
    have h2 : strcasecmp (str "PRONOUNS") (str "BIO") ≠ 0 := by decide
    simp only [strcasecmp_self, h1, h2, if_true, if_false, ge_iff_le, hlen, send_line]

theorem profile_set_value_too_long_witness :
    ((str "PRONOUNS", CAVE_PRONOUNS_MAX) ∈
        [(str "DISPLAYNAME", CAVE_DISPLAY_MAX), (str "BIO", CAVE_BIO_MAX),
          (str "PRONOUNS", CAVE_PRONOUNS_MAX)] ∧
      CAVE_PRONOUNS_MAX ≤ strlen (skip_spaces (str "  they/them/theirs"))) ∧
    handle_command sample_table 0 (str "PROFILE SET PRONOUNS :  they/them/theirs") =
      (sample_table, [Ev.send 4 (str "PROFILE ERR VALUE_TOO_LONG")]) :=
  ⟨⟨by decide, by decide⟩,
    profile_set_value_too_long sample_table 0 (str "PRONOUNS") (str "  they/them/theirs")
      CAVE_PRONOUNS_MAX (by decide) (by decide)⟩

/-- C4.  For every table, issuing client `i`, field token `F` and value `v`:
when `F` equals DISPLAYNAME, BIO or PRONOUNS case-insensitively and `v` without
its leading spaces is strictly shorter than that field's limit (64, 512, 16),
the line `PROFILE SET F :v` stores exactly `v` without its leading spaces
(everything after the first colon of the line, later colons included) in that
field of client `i`, changes nothing else, and its only output is
`PROFILE OK <FIELD>` with the field name in upper case, sent to the issuer. -/
theorem profile_set_ok (cs : Registry) (i : Nat) (F v : List Byte) :
    (strcasecmp F (str "DISPLAYNAME") = 0 → strlen (skip_spaces v) < CAVE_DISPLAY_MAX →
      handle_command cs i (str "PROFILE SET " ++ F ++ str " :" ++ v) =
        (cs.set i { slot cs i with display_name := skip_spaces v },
          [Ev.send (slot cs i).fd (str "PROFILE OK DISPLAYNAME")])) ∧
    (strcasecmp F (str "BIO") = 0 → strlen (skip_spaces v) < CAVE_BIO_MAX →
      handle_command cs i (str "PROFILE SET " ++ F ++ str " :" ++ v) =
        (cs.set i { slot cs i with bio := skip_spaces v },
          [Ev.send (slot cs i).fd (str "PROFILE OK BIO")])) ∧
    (strcasecmp F (str "PRONOUNS") = 0 → strlen (skip_spaces v) < CAVE_PRONOUNS_MAX →
      handle_command cs i (str "PROFILE SET " ++ F ++ str " :" ++ v) =
        (cs.set i { slot cs i with pronouns := skip_spaces v },
          [Ev.send (slot cs i).fd (str "PROFILE OK PRONOUNS")])) := by
  refine ⟨fun hF hlen => ?_, fun hF hlen => ?_, fun hF hlen => ?_⟩
  · rw [handle_command_profile_set cs i F _ v hF lower_DISPLAYNAME (by decide)]
    unfold profile_set_field
    have htake : snprintf CAVE_DISPLAY_MAX (skip_spaces v) = skip_spaces v :=
      List.take_of_length_le (by unfold strlen at hlen; omega)
    simp only [hF, if_true, ge_iff_le, not_le.mpr hlen, if_false, htake, send_line]
  · rw [handle_command_profile_set cs i F _ v hF lower_BIO (by decide)]
    unfold profile_set_field
    have htake : snprintf CAVE_BIO_MAX (skip_spaces v) = skip_spaces v :=
      List.take_of_length_le (by unfold strlen at hlen; omega)
    have h1 := strcasecmp_ne_of F _ (str "DISPLAYNAME") hF (by decide)
    simp only [hF, h1, if_true, ge_iff_le, not_le.mpr hlen, if_false, htake, send_line]
  · rw [handle_command_profile_set cs i F _ v hF lower_PRONOUNS (by decide)]
    unfold profile_set_field
    have htake : snprintf CAVE_PRONOUNS_MAX (skip_spaces v) = skip_spaces v :=
      List.take_of_length_le (by unfold strlen at hlen; omega)
    have h1 := strcasecmp_ne_of F _ (str "DISPLAYNAME") hF (by decide)
    have h2 := strcasecmp_ne_of F _ (str "BIO") hF (by decide)
    simp only [hF, h1, h2, if_true, ge_iff_le, not_le.mpr hlen, if_false, htake, send_line]

theorem profile_set_ok_witness :
    (strcasecmp (str "Bio") (str "BIO") = 0 ∧
      strlen (skip_spaces (str "  likes: caves")) < CAVE_BIO_MAX) ∧
    handle_command sample_table 2 (str "PROFILE SET Bio :  likes: caves") =
      (sample_table.set 2 { slot sample_table 2 with bio := str "likes: caves" },
        [Ev.send 5 (str "PROFILE OK BIO")]) :=
  ⟨⟨by decide, by decide⟩,
    (profile_set_ok sample_table 2 (str "Bio") (str "  likes: caves")).2.1
      (by decide) (by decide)⟩

/-- C5.  For every table and every `PROFILE GET` line whose target token is
found by `find_client_by_nick` (in slot `k`), the table is unchanged and the
output, all of it sent to the issuer, is in this order: the DISPLAYNAME data
line if the display name is non-empty, the PRONOUNS data line if the pronouns
are non-empty, the BIO data line if the bio is non-empty, then exactly one
`PROFILE END <n>`, where `n` is the stored nickname of the found client; an
empty field produces no line. -/
theorem profile_get_found (cs : Registry) (i k : Nat) (r : List Byte)
    (hfit : (slot cs k).fits)
    (hfind : find_client_by_nick cs (target_token (skip_spaces r)) = some k) :
    handle_command cs i (str "PROFILE GET " ++ r) =
      (cs,
        (if (slot cs k).display_name ≠ [] then
            [Ev.send (slot cs i).fd (str "PROFILE DATA " ++ (slot cs k).nick ++
              str " DISPLAYNAME :" ++ (slot cs k).display_name)]
          else [])
        ++ (if (slot cs k).pronouns ≠ [] then
            [Ev.send (slot cs i).fd (str "PROFILE DATA " ++ (slot cs k).nick ++
              str " PRONOUNS :" ++ (slot cs k).pronouns)]
          else [])
        ++ (if (slot cs k).bio ≠ [] then
            [Ev.send (slot cs i).fd (str "PROFILE DATA " ++ (slot cs k).nick ++
              str " BIO :" ++ (slot cs k).bio)]
          else [])
        ++ [Ev.send (slot cs i).fd (str "PROFILE END " ++ (slot cs k).nick)]) := by
  rw [profile_get_of_find cs i k r hfind, profile_lines_of_fits _ _ hfit]

theorem profile_get_found_witness :
    ((slot sample_table 0).fits ∧
      find_client_by_nick sample_table (target_token (skip_spaces (str " bob x"))) = some 0) ∧
    handle_command sample_table 2 (str "PROFILE GET  bob x") =
      (sample_table,
        [Ev.send 5 (str "PROFILE DATA bob DISPLAYNAME :Bob"),
         Ev.send 5 (str "PROFILE DATA bob PRONOUNS :he/him"),
         Ev.send 5 (str "PROFILE END bob")]) :=
  ⟨⟨by decide, by decide⟩,
    profile_get_found sample_table 2 0 (str " bob x") (by decide) (by decide)⟩

/-- C6 (counterexample).  A requested nickname of 32 bytes that no client has:
the reply names only its first 31 bytes, not the requested nickname. -/
theorem profile_get_long_target_truncated :
    str "aaaaaaaaaaaaaaaaaaaaaaaaaaaaaaaa" ≠ [] ∧
    32 ∉ str "aaaaaaaaaaaaaaaaaaaaaaaaaaaaaaaa" ∧
    (∀ c ∈ sample_table, c.fd ≠ -1 → c.nick ≠ str "aaaaaaaaaaaaaaaaaaaaaaaaaaaaaaaa") ∧
    handle_command sample_table 2 (str "PROFILE GET " ++ str "aaaaaaaaaaaaaaaaaaaaaaaaaaaaaaaa") =
      (sample_table,
        [Ev.send 5 (str "PROFILE ERR NOTFOUND " ++ str "aaaaaaaaaaaaaaaaaaaaaaaaaaaaaaa")]) ∧
    (handle_command sample_table 2
        (str "PROFILE GET " ++ str "aaaaaaaaaaaaaaaaaaaaaaaaaaaaaaaa")).2 ≠
      [Ev.send 5 (str "PROFILE ERR NOTFOUND " ++ str "aaaaaaaaaaaaaaaaaaaaaaaaaaaaaaaa")] := by
  decide

/-- C6 (amended).  For every table and every requested nickname `t` that is
non-empty, shorter than 32 bytes and free of spaces, CR and LF, such that no
live client has nickname `t`, the line `PROFILE GET t` leaves the table
unchanged and produces exactly one output line, `PROFILE ERR NOTFOUND t`, sent
to the issuer. -/
theorem profile_get_not_found (cs : Registry) (i : Nat) (t : List Byte)
    (hne : t ≠ []) (ht : ∀ b ∈ t, b ≠ 32 ∧ b ≠ 13 ∧ b ≠ 10)
    (hlen : t.length < CAVE_NICK_MAX)
    (hnone : ∀ c ∈ cs, c.fd ≠ -1 → c.nick ≠ t) :
    handle_command cs i (str "PROFILE GET " ++ t) =
      (cs, [Ev.send (slot cs i).fd (str "PROFILE ERR NOTFOUND " ++ t)]) := by
  rw [handle_command_profile_get, target_token_simple t hne ht hlen,
    find_client_by_nick_none cs t hnone]
  simp only [hne, if_false, send_line, snprintf]
  have l1 : (str "PROFILE ERR NOTFOUND ").length = 21 := by decide
  rw [List.take_of_length_le
    (by simp only [List.length_append, l1]; simp only [CAVE_NICK_MAX] at hlen; omega)]

theorem profile_get_not_found_witness :
    (str "ghost" ≠ [] ∧ (∀ b ∈ str "ghost", b ≠ 32 ∧ b ≠ 13 ∧ b ≠ 10) ∧
      (str "ghost").length < CAVE_NICK_MAX ∧
      (∀ c ∈ sample_table, c.fd ≠ -1 → c.nick ≠ str "ghost")) ∧
    handle_command sample_table 2 (str "PROFILE GET ghost") =
      (sample_table, [Ev.send 5 (str "PROFILE ERR NOTFOUND ghost")]) :=
  ⟨⟨by decide, by decide, by decide, by decide⟩,
    profile_get_not_found sample_table 2 (str "ghost") (by decide) (by decide) (by decide)
      (by decide)⟩

/-- C7 (counterexample).  The nickname `a<CR>b` is non-empty, free of spaces and
shorter than 32 bytes, but after `NICK a<CR>b` and `PROFILE SET DISPLAYNAME :Al`
by a freshly accepted client, `PROFILE GET a<CR>b` from a second client is
answered `PROFILE ERR NOTFOUND a`: the target token ends at the CR. -/
theorem set_then_get_nick_with_cr :
    (str "a\rb" ≠ [] ∧ 32 ∉ str "a\rb" ∧ (str "a\rb").length < 32) ∧
    (main_accept free_then_client 7).1 =
      [{ fd := 7, nick := [], display_name := [], bio := [], pronouns := [], buf := [] },
       { fd := 5, nick := [], display_name := [], bio := [], pronouns := [], buf := [] }] ∧
    (handle_command
        (handle_command
          (handle_command (main_accept free_then_client 7).1 0 (str "NICK a\rb")).1 0
          (str "PROFILE SET DISPLAYNAME :Al")).1 1
        (str "PROFILE GET a\rb")).2 =
      [Ev.send 5 (str "PROFILE ERR NOTFOUND a")] := by
  decide

/-- C7 (amended).  Set-then-get round trip: for every nickname `n` (non-empty,
shorter than 32 bytes, free of spaces, CR and LF) and every display name `v`
(non-empty, not starting with a space, shorter than 64 bytes), if a freshly
accepted client (placed in the first free slot `k`) processes `NICK n` and
then `PROFILE SET DISPLAYNAME :v`, and no client in an earlier slot has
nickname `n`, then `PROFILE GET n` from any client `j` yields exactly the two
lines `PROFILE DATA n DISPLAYNAME :v` and `PROFILE END n`, both sent to `j`. -/
theorem set_then_get_round_trip (cs : Registry) (cfd : Int) (k j : Nat) (n v : List Byte)
    (hcfd : 0 ≤ cfd) (hk : k < cs.length) (hfree : (slot cs k).fd = -1)
    (hfirst : ∀ m < k, (slot cs m).fd ≠ -1)
    (hn : n ≠ []) (hn2 : ∀ b ∈ n, b ≠ 32 ∧ b ≠ 13 ∧ b ≠ 10) (hnlen : n.length < CAVE_NICK_MAX)
    (hv : v ≠ []) (hv2 : v.head? ≠ some 32) (hvlen : v.length < CAVE_DISPLAY_MAX)
    (hearlier : ∀ m < k, (slot cs m).nick ≠ n) :
    (handle_command
        (handle_command
          (handle_command (main_accept cs cfd).1 k (str "NICK " ++ n)).1 k
          (str "PROFILE SET DISPLAYNAME :" ++ v)).1 j
        (str "PROFILE GET " ++ n)).2 =
      [Ev.send
          (slot (handle_command
            (handle_command (main_accept cs cfd).1 k (str "NICK " ++ n)).1 k
            (str "PROFILE SET DISPLAYNAME :" ++ v)).1 j).fd
          (str "PROFILE DATA " ++ n ++ str " DISPLAYNAME :" ++ v),
        Ev.send
          (slot (handle_command
            (handle_command (main_accept cs cfd).1 k (str "NICK " ++ n)).1 k
            (str "PROFILE SET DISPLAYNAME :" ++ v)).1 j).fd
          (str "PROFILE END " ++ n)] := by
  have hs1 : (main_accept cs cfd).1 =
      cs.set k
        { fd := cfd, nick := [], display_name := [], bio := [], pronouns := [], buf := [] } := by
    unfold main_accept
    simp only [ge_iff_le, hcfd, if_true, assign_slot_first cs cfd k hk hfree hfirst]
  have hsn : snprintf CAVE_NICK_MAX n = n :=
    List.take_of_length_le (by simp only [CAVE_NICK_MAX] at hnlen ⊢; omega)
  have hs2 : (handle_command (main_accept cs cfd).1 k (str "NICK " ++ n)).1 =
      cs.set k
        { fd := cfd, nick := n, display_name := [], bio := [], pronouns := [], buf := [] } := by
    rw [handle_command_nick, hs1, hsn, slot_set]
    simp [hk, List.set_set]
  have hsv : skip_spaces v = v := skip_spaces_of_head v hv2
  have hs3 : (handle_command
      (handle_command (main_accept cs cfd).1 k (str "NICK " ++ n)).1 k
      (str "PROFILE SET DISPLAYNAME :" ++ v)).1 =
      cs.set k
        { fd := cfd, nick := n, display_name := v, bio := [], pronouns := [], buf := [] } := by
    rw [hs2, set_displayname_ok _ k v (by rw [hsv]; exact hvlen), hsv, slot_set]
    simp [hk, List.set_set]
  rw [hs3]
  have hslotk : slot (cs.set k
        { fd := cfd, nick := n, display_name := v, bio := [], pronouns := [], buf := [] }) k =
      { fd := cfd, nick := n, display_name := v, bio := [], pronouns := [], buf := [] } := by
    rw [slot_set]; simp [hk]
  have hfind : find_client_by_nick (cs.set k
        { fd := cfd, nick := n, display_name := v, bio := [], pronouns := [], buf := [] })
      (target_token (skip_spaces n)) = some k := by
    rw [target_token_simple n hn hn2 hnlen]
    apply find_client_by_nick_first _ n k (by simpa using hk)
    · rw [hslotk]; simp only; omega
    · rw [hslotk]
    · exact hn
    · intro m hm hh
      rw [slot_set] at hh
      have hne : ¬(k = m ∧ k < cs.length) := by omega
      simp only [hne, if_false] at hh
      exact hearlier m hm hh.2
  rw [profile_get_of_find _ j k n hfind, hslotk,
    profile_lines_of_fits _ _ ⟨hnlen, hvlen, by simp, by simp⟩]
  simp [hv]

theorem set_then_get_round_trip_witness :
    ((0 : Int) ≤ 7 ∧ 0 < free_then_client.length ∧ (slot free_then_client 0).fd = -1 ∧
      (∀ m < 0, (slot free_then_client m).fd ≠ -1) ∧
      str "bob" ≠ [] ∧ (∀ b ∈ str "bob", b ≠ 32 ∧ b ≠ 13 ∧ b ≠ 10) ∧
      (str "bob").length < CAVE_NICK_MAX ∧
      str "Bob The Builder" ≠ [] ∧ (str "Bob The Builder").head? ≠ some 32 ∧
      (str "Bob The Builder").length < CAVE_DISPLAY_MAX ∧
      (∀ m < 0, (slot free_then_client m).nick ≠ str "bob")) ∧
    (handle_command
        (handle_command
          (handle_command (main_accept free_then_client 7).1 0 (str "NICK bob")).1 0
          (str "PROFILE SET DISPLAYNAME :Bob The Builder")).1 1
        (str "PROFILE GET bob")).2 =
      [Ev.send 5 (str "PROFILE DATA bob DISPLAYNAME :Bob The Builder"),
       Ev.send 5 (str "PROFILE END bob")] :=
  ⟨⟨by decide, by decide, by decide, by decide, by decide, by decide, by decide, by decide,
      by decide, by decide, by decide⟩,
    set_then_get_round_trip free_then_client 7 0 1 (str "bob") (str "Bob The Builder")
      (by decide) (by decide) (by decide) (by decide) (by decide) (by decide) (by decide)
      (by decide) (by decide) (by decide) (by decide)⟩

/-- C9.  For every table whose live clients have pairwise distinct connection
handles and every `MSG` line issued by a live client `i`, the composed chat
line is delivered exactly once to every live client, the issuer included (its
echo), and every event of the command is the delivery of that line to a live
client: nobody receives it twice and empty slots receive nothing. -/
theorem msg_delivered_exactly_once (cs : Registry) (i : Nat) (r : List Byte)
    (hi : i < cs.length) (hlive : (slot cs i).fd ≠ -1) (hdistinct : (live_fds cs).Nodup) :
    (∀ k, k < cs.length → (slot cs k).fd ≠ -1 →
      (handle_command cs i (str "MSG " ++ r)).2.count
        (Ev.send (slot cs k).fd (chat_line (slot cs i) r)) = 1) ∧
    (∀ e ∈ (handle_command cs i (str "MSG " ++ r)).2,
      ∃ k, k < cs.length ∧ (slot cs k).fd ≠ -1 ∧
        e = Ev.send (slot cs k).fd (chat_line (slot cs i) r)) := by
  rw [handle_command_msg]
  simp only []
  constructor
  · intro k hk hklive
    rw [List.count_append, count_broadcast_line]
    by_cases hf : (slot cs k).fd = (slot cs i).fd
    · simp [hf, send_line]
    · have hmem := mem_live_fds cs k hk hklive
      have hcount := List.count_eq_one_of_mem hdistinct hmem
      have hne : ¬(Ev.send (slot cs i).fd (chat_line (slot cs i) r) =
          Ev.send (slot cs k).fd (chat_line (slot cs i) r)) := by
        intro h; injection h with h1 _; exact hf h1.symm
      simp [hf, hcount, send_line, List.count_cons, hne]
  · intro e he
    rw [List.mem_append] at he
    rcases he with he | he
    · obtain ⟨f, hf, _, hef⟩ := mem_broadcast_line cs _ _ e he
      obtain ⟨k, hk, hkl, hkf⟩ := live_fds_mem cs f hf
      exact ⟨k, hk, hkl, by rw [hkf]; exact hef⟩
    · simp only [send_line, List.mem_singleton] at he
      exact ⟨i, hi, hlive, he⟩

theorem msg_delivered_exactly_once_witness :
    (0 < sample_table.length ∧ (slot sample_table 0).fd ≠ -1 ∧ (live_fds sample_table).Nodup) ∧
    (handle_command sample_table 0 (str "MSG :hi")).2 =
      [Ev.send 5 (str "MSG @bob :hi"), Ev.send 4 (str "MSG @bob :hi")] ∧
    (handle_command sample_table 0 (str "MSG " ++ str ":hi")).2.count
      (Ev.send (slot sample_table 2).fd (chat_line (slot sample_table 0) (str ":hi"))) = 1 :=
  ⟨⟨by decide, by decide, by decide⟩, by decide,
    (msg_delivered_exactly_once sample_table 0 (str ":hi") (by decide) (by decide)
      (by decide)).1 2 (by decide) (by decide)⟩

/-- C10 (counterexample).  A `MSG :` line of 4094 bytes (it fits the input
buffer) from a client without nickname: the composed line `MSG @anon :` plus
the 4089 bytes of text has 4100 bytes, and only its first 4095 bytes are sent,
so the last five bytes of the text are not delivered. -/
theorem msg_long_text_truncated :
    (str "MSG :" ++ List.replicate 4089 97).length = 4094 ∧
    (handle_command one_client 0 (str "MSG :" ++ List.replicate 4089 97)).2 =
      [Ev.send 4 (str "MSG @anon :" ++ List.replicate 4084 97)] ∧
    (handle_command one_client 0 (str "MSG :" ++ List.replicate 4089 97)).2 ≠
      [Ev.send 4 (str "MSG @anon :" ++ List.replicate 4089 97)] := by
  have e1 : str "MSG :" = str "MSG " ++ [58] := by decide
  have e2 : str "MSG @anon :" = str "MSG @" ++ str "anon" ++ str " :" := by decide
  have l1 : (str "MSG @" ++ str "anon" ++ str " :").length = 11 := by decide
  have l2 : (str "MSG @anon :").length = 11 := by decide
  have l3 : (str "MSG :").length = 5 := by decide
  have hout : (handle_command one_client 0 (str "MSG :" ++ List.replicate 4089 97)).2 =
      [Ev.send 4 (str "MSG @anon :" ++ List.replicate 4084 97)] := by
    rw [e1, List.append_assoc, handle_command_msg, chat_line_eq, e2]
    have hs : slot one_client 0 =
        { fd := 4, nick := [], display_name := [], bio := [], pronouns := [], buf := [] } := rfl
    have hb : broadcast_line one_client 4 = fun _ => [] := by
      funext l; simp [one_client, broadcast_line]
    simp only [hs, hb, send_line, List.nil_append, if_true]
    have hmem : (58 : Byte) ∈ [58] ++ List.replicate 4089 97 :=
      List.mem_append_left _ (List.mem_cons_self 58 [])
    simp only [hmem, if_true]
    have hmin : (BUF_SIZE - 1 - 11) ⊓ 4089 = 4084 := by decide
    rw [drop_after_colon, List.take_append_eq_append_take, l1,
      List.take_of_length_le (by rw [l1]; decide), List.take_replicate, hmin]
  refine ⟨by rw [List.length_append, List.length_replicate, l3], hout, ?_⟩
  rw [hout]
  intro h
  have h1 : str "MSG @anon :" ++ List.replicate 4084 97 =
      str "MSG @anon :" ++ List.replicate 4089 97 := by
    injection h with h1 _
    injection h1
  have h2 := congrArg List.length h1
  rw [List.length_append, List.length_append, List.length_replicate, List.length_replicate,
    l2] at h2
  omega

/-- C10 (amended).  For every table, issuer `i` and line `MSG ` followed by
`r`, every event of the command (the broadcast to the other live clients and
the echo) carries the same chat line: the first 4095 bytes (`BUF_SIZE - 1`) of
`MSG @n :t`, where `n` is the issuer's nickname, or `anon` if it is empty, and
`t` is the part of `r` after its first colon (all of `r` when it has none).  In
particular, when `MSG @n :t` is shorter than 4096 bytes, the line `MSG :t`
delivers `t` unchanged, colons included. -/
theorem msg_chat_line (cs : Registry) (i : Nat) (r t : List Byte) :
    (handle_command cs i (str "MSG " ++ r)).2 =
      broadcast_line cs (slot cs i).fd
          ((str "MSG @" ++ (if (slot cs i).nick = [] then str "anon" else (slot cs i).nick) ++
            str " :" ++ (if 58 ∈ r then (r.dropWhile (· ≠ 58)).drop 1 else r)).take
              (BUF_SIZE - 1)) ++
        [Ev.send (slot cs i).fd
          ((str "MSG @" ++ (if (slot cs i).nick = [] then str "anon" else (slot cs i).nick) ++
            str " :" ++ (if 58 ∈ r then (r.dropWhile (· ≠ 58)).drop 1 else r)).take
              (BUF_SIZE - 1))] ∧
    ((str "MSG @" ++ (if (slot cs i).nick = [] then str "anon" else (slot cs i).nick) ++
        str " :" ++ t).length < BUF_SIZE →
      (handle_command cs i (str "MSG :" ++ t)).2 =
        broadcast_line cs (slot cs i).fd
            (str "MSG @" ++ (if (slot cs i).nick = [] then str "anon" else (slot cs i).nick) ++
              str " :" ++ t) ++
          [Ev.send (slot cs i).fd
            (str "MSG @" ++ (if (slot cs i).nick = [] then str "anon" else (slot cs i).nick) ++
              str " :" ++ t)]) := by
  constructor
  · rw [handle_command_msg, chat_line_eq]
    rfl
  · intro hlen
    have e1 : str "MSG :" = str "MSG " ++ [58] := by decide
    rw [e1, List.append_assoc, handle_command_msg, chat_line_eq]
    have hmem : (58 : Byte) ∈ [58] ++ t := by simp
    simp only [hmem, if_true, drop_after_colon, send_line]
    rw [List.take_of_length_le (by simp only [BUF_SIZE] at hlen ⊢; omega)]

theorem msg_chat_line_witness :
    (str "MSG @" ++ (if (slot sample_table 0).nick = [] then str "anon"
        else (slot sample_table 0).nick) ++ str " :" ++ str "a:b :c").length < BUF_SIZE ∧
    (handle_command sample_table 0 (str "MSG :a:b :c")).2 =
      [Ev.send 5 (str "MSG @bob :a:b :c"), Ev.send 4 (str "MSG @bob :a:b :c")] :=
  ⟨by decide,
    ((msg_chat_line sample_table 0 [] (str "a:b :c")).2 (by decide)).trans (by decide)⟩

/-- C11.  For every table whose live clients have pairwise distinct connection
handles and every line `NICK ` followed by `name` issued by a live client `i`:
the issuer receives exactly one line, `SYS :nickname set` (so not the join
notice), and every other live client receives exactly one line,
`SYS :<nick> joined`, where `<nick>` is the issuer's new stored nickname, or
`anonymous` if that is empty. -/
theorem nick_join_notice (cs : Registry) (i : Nat) (name : List Byte)
    (hlive : (slot cs i).fd ≠ -1) (hdistinct : (live_fds cs).Nodup) :
    received (slot cs i).fd (handle_command cs i (str "NICK " ++ name)).2 =
      [str "SYS :nickname set"] ∧
    ∀ k, k ≠ i → (slot cs k).fd ≠ -1 →
      received (slot cs k).fd (handle_command cs i (str "NICK " ++ name)).2 =
        [str "SYS :" ++
          (if (slot (handle_command cs i (str "NICK " ++ name)).1 i).nick = [] then
              str "anonymous"
            else (slot (handle_command cs i (str "NICK " ++ name)).1 i).nick) ++
          str " joined"] := by
  have hi := live_of_slot cs i hlive
  have hlen : (snprintf CAVE_NICK_MAX name).length < CAVE_NICK_MAX := by
    unfold snprintf
    simp only [List.length_take, CAVE_NICK_MAX]
    omega
  have hb : ∀ l, broadcast_line
      (cs.set i { slot cs i with nick := snprintf CAVE_NICK_MAX name }) (slot cs i).fd l =
      broadcast_line cs (slot cs i).fd l := fun l => broadcast_line_set cs i _ _ l rfl
  rw [handle_command_nick, hb, join_notice_fits _ hlen]
  simp only []
  rw [slot_set]
  simp only [hi, and_self, if_true]
  constructor
  · rw [received_append, received_broadcast_line]
    simp [send_line, received]
  · intro k hk hklive
    have hne := live_fd_ne cs i k hk hlive hklive hdistinct
    have hmem := mem_live_fds cs k (live_of_slot cs k hklive) hklive
    have hcount := List.count_eq_one_of_mem hdistinct hmem
    have hne2 : ¬((slot cs i).fd = (slot cs k).fd) := fun h => hne h.symm
    rw [received_append, received_broadcast_line, if_neg hne, hcount]
    simp [send_line, received, hne2]

theorem nick_join_notice_witness :
    ((slot sample_table 2).fd ≠ -1 ∧ (live_fds sample_table).Nodup) ∧
    received 5 (handle_command sample_table 2 (str "NICK amy")).2 = [str "SYS :nickname set"] ∧
    received 4 (handle_command sample_table 2 (str "NICK amy")).2 = [str "SYS :amy joined"] ∧
    received 4 (handle_command sample_table 2 (str "NICK ")).2 = [str "SYS :anonymous joined"] :=
  ⟨⟨by decide, by decide⟩,
    (nick_join_notice sample_table 2 (str "amy") (by decide) (by decide)).1,
    by decide, by decide⟩

/-- C12.  For every table, client slot `i` of the table and line `NICK `
followed by `name`, the command changes nothing but the nickname of client
`i`, which becomes the first 31 bytes of `name`; hence it is `name` itself,
untrimmed and with its embedded spaces, whenever `name` is shorter than 32
bytes, the empty name and a name another client already has included. -/
theorem nick_stores_name (cs : Registry) (i : Nat) (name : List Byte) (hi : i < cs.length) :
    (handle_command cs i (str "NICK " ++ name)).1 =
      cs.set i { slot cs i with nick := name.take (CAVE_NICK_MAX - 1) } ∧
    (slot (handle_command cs i (str "NICK " ++ name)).1 i).nick =
      name.take (CAVE_NICK_MAX - 1) ∧
    (name.length < CAVE_NICK_MAX →
      (slot (handle_command cs i (str "NICK " ++ name)).1 i).nick = name) := by
  rw [handle_command_nick]
  simp only [snprintf]
  rw [slot_set]
  simp only [hi, and_self, if_true, true_and]
  intro hlen
  exact List.take_of_length_le (by simp only [CAVE_NICK_MAX] at hlen ⊢; omega)

theorem nick_stores_name_witness :
    (0 < sample_table.length ∧ (str " al  ice ").length < CAVE_NICK_MAX) ∧
    (slot (handle_command sample_table 0 (str "NICK  al  ice ")).1 0).nick = str " al  ice " :=
  ⟨⟨by decide, by decide⟩,
    (nick_stores_name sample_table 0 (str " al  ice ") (by decide)).2.2 (by decide)⟩

/-- C13.  For every table and issuer `i`, the line that is exactly `PING`
leaves the table unchanged and produces exactly one event: the line `PONG`
sent to the issuer. -/
theorem ping_pong (cs : Registry) (i : Nat) :
    handle_command cs i (str "PING") = (cs, [Ev.send (slot cs i).fd (str "PONG")]) := by
  have h1 : strncmp (str "PING") (str "NICK ") 5 ≠ 0 := by decide
  have h2 : strncmp (str "PING") (str "MSG ") 4 ≠ 0 := by decide
  have h3 : strcmp (str "PING") (str "PING") = 0 := by decide
  unfold handle_command
  simp only []
  rw [if_neg h1, if_neg h2, if_pos h3]
  rfl

/-- C14.  For every table, issuer `i` and line that does not start with
`NICK `, `MSG ` or `PROFILE ` and is not exactly `PING`, the table is unchanged
and the only output is the single line `ERR :unknown command`, sent to the
issuer. -/
theorem unknown_command (cs : Registry) (i : Nat) (line : List Byte)
    (h1 : ¬(str "NICK " <+: line)) (h2 : ¬(str "MSG " <+: line))
    (h3 : ¬(str "PROFILE " <+: line)) (h4 : line ≠ str "PING") :
    handle_command cs i line =
      (cs, [Ev.send (slot cs i).fd (str "ERR :unknown command")]) := by
  apply handle_command_unknown
  · intro h; exact h1 ((strncmp_zero_iff_starts line (str "NICK ")).mp h)
  · intro h; exact h2 ((strncmp_zero_iff_starts line (str "MSG ")).mp h)
  · intro h; exact h4 ((strcmp_eq_zero _ _).mp h)
  · intro h; exact h3 ((strncmp_zero_iff_starts line (str "PROFILE ")).mp h)

theorem unknown_command_witness :
    (¬(str "NICK " <+: str "nick bob") ∧ ¬(str "MSG " <+: str "nick bob") ∧
      ¬(str "PROFILE " <+: str "nick bob") ∧ str "nick bob" ≠ str "PING") ∧
    handle_command sample_table 2 (str "nick bob") =
      (sample_table, [Ev.send 5 (str "ERR :unknown command")]) ∧
    handle_command sample_table 2 (str "PING ") =
      (sample_table, [Ev.send 5 (str "ERR :unknown command")]) ∧
    handle_command sample_table 2 (str "PROFILE") =
      (sample_table, [Ev.send 5 (str "ERR :unknown command")]) :=
  ⟨⟨by decide, by decide, by decide, by decide⟩,
    unknown_command sample_table 2 (str "nick bob") (by decide) (by decide) (by decide)
      (by decide),
    by decide, by decide⟩

/-- C15.  For every table, issuer `i` and `PROFILE SET` line without a colon
after `PROFILE SET ` (the field name never contains one), whatever the field
name is, the table is unchanged and the only output is the single line
`PROFILE ERR SYNTAX`, sent to the issuer. -/
theorem profile_set_no_colon (cs : Registry) (i : Nat) (r : List Byte) (h : 58 ∉ r) :
    handle_command cs i (str "PROFILE SET " ++ r) =
      (cs, [Ev.send (slot cs i).fd (str "PROFILE ERR SYNTAX")]) := by
  rw [handle_command_profile_set_parse]
  have hno : 58 ∉ skip_spaces ((skip_spaces r).drop (field_token (skip_spaces r)).length) :=
    fun hm => h (mem_skip_spaces_of_mem _ _
      (List.mem_of_mem_drop (mem_skip_spaces_of_mem _ _ hm)))
  rw [strchr_none _ _ hno]
  rfl

theorem profile_set_no_colon_witness :
    58 ∉ str "BIO likes caves" ∧
    handle_command sample_table 0 (str "PROFILE SET BIO likes caves") =
      (sample_table, [Ev.send 4 (str "PROFILE ERR SYNTAX")]) ∧
    handle_command sample_table 0 (str "PROFILE SET nosuchfield") =
      (sample_table, [Ev.send 4 (str "PROFILE ERR SYNTAX")]) :=
  ⟨by decide, profile_set_no_colon sample_table 0 (str "BIO likes caves") (by decide),
    by decide⟩

/-- C16 (counterexample).  The field-name token `FOO` is none of DISPLAYNAME,
BIO, PRONOUNS, but the line has no colon and is answered `PROFILE ERR SYNTAX`,
not `PROFILE ERR FIELD`. -/
theorem profile_set_unknown_field_no_colon :
    spec_field_name (str "FOO bar") = str "FOO" ∧
    strcasecmp (str "FOO") (str "DISPLAYNAME") ≠ 0 ∧
    strcasecmp (str "FOO") (str "BIO") ≠ 0 ∧
    strcasecmp (str "FOO") (str "PRONOUNS") ≠ 0 ∧
    handle_command sample_table 0 (str "PROFILE SET FOO bar") =
      (sample_table, [Ev.send 4 (str "PROFILE ERR SYNTAX")]) ∧
    (handle_command sample_table 0 (str "PROFILE SET FOO bar")).2 ≠
      [Ev.send 4 (str "PROFILE ERR FIELD")] := by
  decide

/-- C16 (amended).  For every table, issuer `i` and `PROFILE SET` line that
contains a colon and whose field-name token (up to the next space or colon) is
none of DISPLAYNAME, BIO, PRONOUNS, compared case-insensitively, the table is
unchanged and the only output is the single line `PROFILE ERR FIELD`, sent to
the issuer. -/
theorem profile_set_unknown_field (cs : Registry) (i : Nat) (r : List Byte)
    (hcolon : 58 ∈ r)
    (h1 : strcasecmp (spec_field_name r) (str "DISPLAYNAME") ≠ 0)
    (h2 : strcasecmp (spec_field_name r) (str "BIO") ≠ 0)
    (h3 : strcasecmp (spec_field_name r) (str "PRONOUNS") ≠ 0) :
    handle_command cs i (str "PROFILE SET " ++ r) =
      (cs, [Ev.send (slot cs i).fd (str "PROFILE ERR FIELD")]) := by
  have hc := colon_after_field_token (skip_spaces r) (mem_skip_spaces r 58 (by decide) hcolon)
  have g1 : strcasecmp (field_token (skip_spaces r)) (str "DISPLAYNAME") ≠ 0 :=
    fun h => h1 ((field_token_match r _ (by decide)).mp h)
  have g2 : strcasecmp (field_token (skip_spaces r)) (str "BIO") ≠ 0 :=
    fun h => h2 ((field_token_match r _ (by decide)).mp h)
  have g3 : strcasecmp (field_token (skip_spaces r)) (str "PRONOUNS") ≠ 0 :=
    fun h => h3 ((field_token_match r _ (by decide)).mp h)
  rw [handle_command_profile_set_parse, strchr_some _ _ hc]
  simp only []
  unfold profile_set_field
  simp only []
  rw [if_neg g1, if_neg g2, if_neg g3]
  rfl

theorem profile_set_unknown_field_witness :
    (58 ∈ str "Colour :red" ∧
      strcasecmp (spec_field_name (str "Colour :red")) (str "DISPLAYNAME") ≠ 0 ∧
      strcasecmp (spec_field_name (str "Colour :red")) (str "BIO") ≠ 0 ∧
      strcasecmp (spec_field_name (str "Colour :red")) (str "PRONOUNS") ≠ 0) ∧
    handle_command sample_table 0 (str "PROFILE SET Colour :red") =
      (sample_table, [Ev.send 4 (str "PROFILE ERR FIELD")]) :=
  ⟨⟨by decide, by decide, by decide, by decide⟩,
    profile_set_unknown_field sample_table 0 (str "Colour :red") (by decide) (by decide)
      (by decide) (by decide)⟩

/-- C17.  For every table, issuer `i` and line, `handle_command` either leaves
the table unchanged, or (for a line starting with `NICK `) replaces only the
nickname of client `i`, or (for a `PROFILE SET` answered `PROFILE OK <FIELD>`)
replaces only that one profile field of client `i`.  Every line answered with
`ERR :unknown command` or with a `PROFILE ERR ...` line, and every `PING`,
`MSG ` and `PROFILE GET ` line, leaves the whole table unchanged; no line
changes any slot other than the issuer's. -/
theorem handle_command_frame_effect (cs : Registry) (i : Nat) (line : List Byte) :
    ((handle_command cs i line).1 = cs ∨
      (str "NICK " <+: line ∧
        (handle_command cs i line).1 =
          cs.set i { slot cs i with nick := snprintf CAVE_NICK_MAX (line.drop 5) }) ∨
      (∃ v, handle_command cs i line =
        (cs.set i { slot cs i with display_name := v },
          [Ev.send (slot cs i).fd (str "PROFILE OK DISPLAYNAME")])) ∨
      (∃ v, handle_command cs i line =
        (cs.set i { slot cs i with bio := v },
          [Ev.send (slot cs i).fd (str "PROFILE OK BIO")])) ∨
      (∃ v, handle_command cs i line =
        (cs.set i { slot cs i with pronouns := v },
          [Ev.send (slot cs i).fd (str "PROFILE OK PRONOUNS")]))) ∧
    (((handle_command cs i line).2 = [Ev.send (slot cs i).fd (str "ERR :unknown command")] ∨
        (∃ e, (handle_command cs i line).2 =
          [Ev.send (slot cs i).fd (str "PROFILE ERR " ++ e)]) ∨
        line = str "PING" ∨ str "MSG " <+: line ∨ str "PROFILE GET " <+: line) →
      (handle_command cs i line).1 = cs) ∧
    (∀ k, k ≠ i → slot (handle_command cs i line).1 k = slot cs k) := by
  have hA := handle_command_effect cs i line
  refine ⟨?_, ?_, ?_⟩
  · rcases hA with h | ⟨hn, hs, _⟩ | ⟨_, h | h | h⟩
    · exact Or.inl h
    · exact Or.inr (Or.inl ⟨hn, hs⟩)
    · exact Or.inr (Or.inr (Or.inl h))
    · exact Or.inr (Or.inr (Or.inr (Or.inl h)))
    · exact Or.inr (Or.inr (Or.inr (Or.inr h)))
  · intro hp
    rcases hA with h | ⟨hn, _, bl, hbl⟩ | ⟨hps, hok⟩
    · exact h
    · exfalso
      rcases hp with hp | ⟨e, hp⟩ | hp | hp | hp
      · rw [hbl] at hp
        have h1 := last_of_singleton_eq _ _ _ hp.symm
        injection h1 with _ h2
        exact absurd h2 (by decide)
      · rw [hbl] at hp
        have h1 := last_of_singleton_eq _ _ _ hp.symm
        injection h1 with _ h2
        exact profile_err_ne e _ (by decide) h2
      · rw [hp] at hn
        exact absurd hn (by decide)
      · exact not_two_prefixes _ _ line hp hn (by decide) (by decide)
      · exact not_two_prefixes _ _ line hn hp (by decide) (by decide)
    · exfalso
      have hprof : str "PROFILE " <+: line :=
        (strncmp_zero_iff_starts line (str "PROFILE ")).mp hps.1
      have hout : (handle_command cs i line).2 =
            [Ev.send (slot cs i).fd (str "PROFILE OK DISPLAYNAME")] ∨
          (handle_command cs i line).2 = [Ev.send (slot cs i).fd (str "PROFILE OK BIO")] ∨
          (handle_command cs i line).2 =
            [Ev.send (slot cs i).fd (str "PROFILE OK PRONOUNS")] := by
        rcases hok with ⟨v, h⟩ | ⟨v, h⟩ | ⟨v, h⟩
        · exact Or.inl (by rw [h])
        · exact Or.inr (Or.inl (by rw [h]))
        · exact Or.inr (Or.inr (by rw [h]))
      rcases hp with hp | ⟨e, hp⟩ | hp | hp | hp
      · rcases hout with h | h | h <;>
          exact absurd (ev_send_inj (h.symm.trans hp)) (by decide)
      · rcases hout with h | h | h
        · exact profile_err_ne e _ (by decide) (ev_send_inj (h.symm.trans hp)).symm
        · exact profile_err_ne e _ (by decide) (ev_send_inj (h.symm.trans hp)).symm
        · exact profile_err_ne e _ (by decide) (ev_send_inj (h.symm.trans hp)).symm
      · rw [hp] at hps
        exact absurd hps (by decide)
      · exact not_two_prefixes _ _ line hp hprof (by decide) (by decide)
      · exact not_profile_set_of_get line hp hps
  · intro k hk
    have hne : ∀ d : client_t, slot (cs.set i d) k = slot cs k := by
      intro d
      rw [slot_set]
      have : ¬(i = k ∧ i < cs.length) := fun h => hk h.1.symm
      rw [if_neg this]
    rcases hA with h | ⟨_, hs, _⟩ | ⟨_, ⟨v, h⟩ | ⟨v, h⟩ | ⟨v, h⟩⟩
    · rw [h]
    · rw [hs]; exact hne _
    · rw [h]; exact hne _
    · rw [h]; exact hne _
    · rw [h]; exact hne _

theorem handle_command_frame_effect_witness :
    (∃ e, (handle_command sample_table 0 (str "PROFILE SET BIO nothing")).2 =
      [Ev.send (slot sample_table 0).fd (str "PROFILE ERR " ++ e)]) ∧
    (handle_command sample_table 0 (str "PROFILE SET BIO nothing")).1 = sample_table :=
  ⟨⟨str "SYNTAX", by decide⟩,
    (handle_command_frame_effect sample_table 0 (str "PROFILE SET BIO nothing")).2.1
      (Or.inr (Or.inl ⟨str "SYNTAX", by decide⟩))⟩

/-- C18.  For every table in which all `MAX_CLIENTS` = 32 slots hold live
clients, accepting a new connection `cfd` leaves the whole table unchanged and
produces exactly two events: the line `ERR :server full` sent to `cfd`, then
the close of `cfd`. -/
theorem accept_when_full (cs : Registry) (cfd : Int) (hcfd : 0 ≤ cfd)
    (_hlen : cs.length = MAX_CLIENTS) (hfull : ∀ c ∈ cs, c.fd ≠ -1) :
    main_accept cs cfd =
      (cs, [Ev.send cfd (str "ERR :server full"), Ev.close cfd]) := by
  unfold main_accept
  rw [if_pos (by simpa using hcfd), assign_slot_full cs cfd hfull]
  rfl

theorem accept_when_full_witness :
    ((0 : Int) ≤ 40 ∧ full_table.length = MAX_CLIENTS ∧ (∀ c ∈ full_table, c.fd ≠ -1)) ∧
    main_accept full_table 40 =
      (full_table, [Ev.send 40 (str "ERR :server full"), Ev.close 40]) :=
  ⟨⟨by decide, by decide, by decide⟩,
    accept_when_full full_table 40 (by decide) (by decide) (by decide)⟩

/-- C19.  For every table with at least one empty slot, accepting a new
connection `cfd` stores it in the lowest-indexed empty slot `k` with empty
nickname, display name, bio, pronouns and accumulator, whatever that slot held
before, leaves all other slots unchanged, and produces exactly one event: the
line `WELCOME CAVE/0.1` sent to `cfd`. -/
theorem accept_into_first_free (cs : Registry) (cfd : Int) (hcfd : 0 ≤ cfd)
    (hfree : ∃ c ∈ cs, c.fd = -1) :
    ∃ k, k < cs.length ∧ (slot cs k).fd = -1 ∧ (∀ m < k, (slot cs m).fd ≠ -1) ∧
      main_accept cs cfd =
        (cs.set k
            { fd := cfd, nick := [], display_name := [], bio := [], pronouns := [], buf := [] },
          [Ev.send cfd (str "WELCOME CAVE/0.1")]) := by
  obtain ⟨k, hk, hkfree, hfirst⟩ := exists_first_free cs hfree
  refine ⟨k, hk, hkfree, hfirst, ?_⟩
  unfold main_accept
  rw [if_pos (by simpa using hcfd), assign_slot_first cs cfd k hk hkfree hfirst]
  rfl

theorem accept_into_first_free_witness :
    ((0 : Int) ≤ 9 ∧ ∃ c ∈ sample_table, c.fd = -1) ∧
    main_accept sample_table 9 =
      (sample_table.set 1
          { fd := 9, nick := [], display_name := [], bio := [], pronouns := [], buf := [] },
        [Ev.send 9 (str "WELCOME CAVE/0.1")]) :=
  ⟨⟨by decide, by decide⟩,
    by
      obtain ⟨k, hk, hfree, hfirst, h⟩ :=
        accept_into_first_free sample_table 9 (by decide) (by decide)
      have hk3 : k < 3 := hk
      have hk1 : k = 1 := by
        interval_cases k
        · exact absurd hfree (by decide)
        · rfl
        · exact absurd rfl (hfirst 1 (by decide))
      rw [h, hk1]⟩

/-- C20.  For every table and live client `i`, when `recv` returns zero or a
negative count, `handle_client_data` closes the connection of client `i` and
frees its slot (handle -1; nickname, profile fields and accumulator empty),
dispatches no command, sends no line, and leaves every other slot unchanged;
afterwards no nickname lookup returns slot `i`. -/
theorem disconnect_on_failed_read (cs : Registry) (i : Nat) (n : Int) (rx : List Byte)
    (hlive : (slot cs i).fd ≠ -1) (hn : n ≤ 0) :
    handle_client_data cs i n rx = (cs.set i empty_slot, [Ev.close (slot cs i).fd]) ∧
    dispatched cs i n rx = [] ∧
    slot (handle_client_data cs i n rx).1 i = empty_slot ∧
    (∀ k, k ≠ i → slot (handle_client_data cs i n rx).1 k = slot cs k) ∧
    (∀ nick, find_client_by_nick (handle_client_data cs i n rx).1 nick ≠ some i) := by
  have hi := live_of_slot cs i hlive
  have h1 : handle_client_data cs i n rx = (cs.set i empty_slot, [Ev.close (slot cs i).fd]) := by
    unfold handle_client_data
    simp only []
    rw [if_pos hn]
    rfl
  have h2 : slot (cs.set i empty_slot) i = empty_slot := by
    rw [slot_set, if_pos ⟨rfl, hi⟩]
  refine ⟨h1, ?_, ?_, ?_, ?_⟩
  · unfold dispatched
    rw [if_pos hn]
  · rw [h1]; exact h2
  · intro k hk
    rw [h1]
    show slot (cs.set i empty_slot) k = slot cs k
    rw [slot_set, if_neg (fun h => hk h.1.symm)]
  · intro nick hfind
    rw [h1] at hfind
    have := (find_client_by_nick_some _ nick i hfind).2.1
    rw [h2] at this
    exact this rfl

theorem disconnect_on_failed_read_witness :
    ((slot sample_table 0).fd ≠ -1 ∧ (0 : Int) ≤ 0) ∧
    handle_client_data sample_table 0 0 [] =
      ([empty_slot, empty_slot, slot sample_table 2], [Ev.close 4]) ∧
    find_client_by_nick (handle_client_data sample_table 0 0 []).1 (str "bob") = none :=
  ⟨⟨by decide, by decide⟩,
    (disconnect_on_failed_read sample_table 0 0 [] (by decide) (by decide)).1.trans (by decide),
    by decide⟩

/-- C21.  For every table and live client `i` whose accumulator holds
`BUF_SIZE - 1` = 4095 bytes without an LF, the next read is asked for 0 bytes,
so it returns at most 0: `handle_client_data` closes that connection and frees
its slot, dispatches nothing, sends nothing and leaves every other slot
unchanged. -/
theorem overlong_line_disconnects (cs : Registry) (i : Nat) (n : Int) (rx : List Byte)
    (_hlive : (slot cs i).fd ≠ -1)
    (hfull : (slot cs i).buf_len = BUF_SIZE - 1) (_hnl : 10 ∉ (slot cs i).buf)
    (hrecv : n ≤ (BUF_SIZE : Int) - (slot cs i).buf_len - 1) :
    n ≤ 0 ∧
    handle_client_data cs i n rx = (cs.set i empty_slot, [Ev.close (slot cs i).fd]) ∧
    dispatched cs i n rx = [] ∧
    (∀ k, k ≠ i → slot (handle_client_data cs i n rx).1 k = slot cs k) := by
  have hn : n ≤ 0 := by
    rw [hfull] at hrecv
    simp only [BUF_SIZE] at hrecv
    omega
  refine ⟨hn, handle_client_data_closed cs i n rx hn, ?_, ?_⟩
  · unfold dispatched
    rw [if_pos hn]
  · intro k hk
    exact handle_client_data_other cs i k n rx hk

theorem overlong_line_disconnects_witness :
    (slot full_line_table 0).buf_len = BUF_SIZE - 1 ∧
    handle_client_data full_line_table 0 0 [] =
      (full_line_table.set 0 empty_slot, [Ev.close 4]) ∧
    slot (handle_client_data full_line_table 0 0 []).1 1 = slot full_line_table 1 :=
  have h := overlong_line_disconnects full_line_table 0 0 [] (by decide)
    (List.length_replicate _ _)
    (fun hm => absurd (List.eq_of_mem_replicate hm) (by decide))
    (by
      have hl : (slot full_line_table 0).buf_len = BUF_SIZE - 1 := List.length_replicate _ _
      rw [hl]
      decide)
  ⟨List.length_replicate _ _, h.2.1, h.2.2.2 1 (by decide)⟩

/-- C22.  In every reachable table every client's accumulator length is at
most `BUF_SIZE - 1` = 4095, each read returning no more than the
`BUF_SIZE - buf_len - 1` bytes requested.  Accepting a connection and every
`handle_client_data` call (disconnect included) preserve the bound, and in a
call with a positive read the index `buf_len + n` of the terminating NUL is
below `BUF_SIZE`. -/
theorem accumulator_bound (cs : Registry) :
    (Reachable cs → ∀ c ∈ cs, c.buf_len ≤ BUF_SIZE - 1) ∧
    ((∀ c ∈ cs, c.buf_len ≤ BUF_SIZE - 1) →
      (∀ cfd, ∀ c ∈ (main_accept cs cfd).1, c.buf_len ≤ BUF_SIZE - 1) ∧
      (∀ i n rx, n ≤ (BUF_SIZE : Int) - (slot cs i).buf_len - 1 →
        (∀ c ∈ (handle_client_data cs i n rx).1, c.buf_len ≤ BUF_SIZE - 1) ∧
        (0 < n → (slot cs i).buf_len + n.toNat < BUF_SIZE))) := by
  constructor
  · intro h
    exact forall_mem_of_slot cs _ (reachable_buf_len cs h)
  · intro h
    have hs := forall_slot_of_mem cs (fun c => c.buf_len ≤ BUF_SIZE - 1)
      (by simp [empty_slot, client_t.buf_len]) h
    refine ⟨fun cfd => ?_, fun i n rx hrecv => ⟨?_, fun hn => ?_⟩⟩
    · exact forall_mem_of_slot _ _
        (main_accept_keeps cs cfd (fun c => c.buf_len ≤ BUF_SIZE - 1)
          (by simp [client_t.buf_len]) hs)
    · exact forall_mem_of_slot _ _ (handle_client_data_buf_len cs i n rx hrecv hs)
    · simp only [BUF_SIZE] at hrecv ⊢
      omega

theorem accumulator_bound_witness :
    Reachable (handle_client_data
      (main_accept (List.replicate MAX_CLIENTS empty_slot) 4).1 0 2 (str "PI")).1 ∧
    (slot (handle_client_data
      (main_accept (List.replicate MAX_CLIENTS empty_slot) 4).1 0 2 (str "PI")).1 0).buf =
        str "PI" ∧
    ∀ c ∈ (handle_client_data
        (main_accept (List.replicate MAX_CLIENTS empty_slot) 4).1 0 2 (str "PI")).1,
      c.buf_len ≤ BUF_SIZE - 1 :=
  ⟨Reachable.step (Reachable.step Reachable.init (Step.accept _ 4))
      (Step.read _ 0 2 (str "PI") (by decide) (by decide) (fun _ => by decide)),
    by decide,
    (accumulator_bound (handle_client_data
      (main_accept (List.replicate MAX_CLIENTS empty_slot) 4).1 0 2 (str "PI")).1).1
      (Reachable.step (Reachable.step Reachable.init (Step.accept _ 4))
        (Step.read _ 0 2 (str "PI") (by decide) (by decide) (fun _ => by decide)))⟩

/-- C23.  The pronouns limit of the server `cave_server.c` is 16 and that of
the client `cave_client.c` is 32: both lie between 16 and 32, but they are not
equal.  The 16-byte value `they/them/theirs` is shorter than the client's
limit, and the server answers the line that sets it with
`PROFILE ERR VALUE_TOO_LONG`, storing nothing. -/
theorem pronouns_limit_differs :
    CAVE_PRONOUNS_MAX = 16 ∧ Client.CAVE_PRONOUNS_MAX = 32 ∧
    CAVE_PRONOUNS_MAX ≠ Client.CAVE_PRONOUNS_MAX ∧
    strlen (str "they/them/theirs") < Client.CAVE_PRONOUNS_MAX ∧
    handle_command one_client 0 (str "PROFILE SET PRONOUNS :they/them/theirs") =
      (one_client, [Ev.send 4 (str "PROFILE ERR VALUE_TOO_LONG")]) := by
  decide

/-- C24.  On the line `PROFILE SET PRONOUNS :they/them/theirs` from a
connected client, the POSIX server answers `PROFILE ERR VALUE_TOO_LONG` and
leaves the table unchanged, while the WinSock server stores the value and
answers `PROFILE OK PRONOUNS`: the two `handle_command` functions differ in
output and in the resulting table. -/
theorem servers_differ_on_pronouns :
    handle_command one_client 0 (str "PROFILE SET PRONOUNS :they/them/theirs") =
      (one_client, [Ev.send 4 (str "PROFILE ERR VALUE_TOO_LONG")]) ∧
    Windows.handle_command one_client 0 (str "PROFILE SET PRONOUNS :they/them/theirs") =
      (one_client.set 0 { slot one_client 0 with pronouns := str "they/them/theirs" },
        [Ev.send 4 (str "PROFILE OK PRONOUNS")]) ∧
    (handle_command one_client 0 (str "PROFILE SET PRONOUNS :they/them/theirs")).1 ≠
      (Windows.handle_command one_client 0 (str "PROFILE SET PRONOUNS :they/them/theirs")).1 ∧
    (handle_command one_client 0 (str "PROFILE SET PRONOUNS :they/them/theirs")).2 ≠
      (Windows.handle_command one_client 0 (str "PROFILE SET PRONOUNS :they/them/theirs")).2 := by
  decide

/-- C25 (counterexample).  Client `bob` (handle 4) sends `MSG :hi` while the
socket of the other client (handle 5) is failing.  The chat line is written to
handle 5, no handle is closed, and the client with handle 5 keeps its slot: the
failed write is not treated as a disconnect. -/
theorem write_failure_keeps_client :
    handle_command sample_table 0 (str "MSG :hi") =
      (sample_table, [Ev.send 5 (str "MSG @bob :hi"), Ev.send 4 (str "MSG @bob :hi")]) ∧
    closed_fds (handle_command sample_table 0 (str "MSG :hi")).2 = [] ∧
    (slot (handle_command sample_table 0 (str "MSG :hi")).1 2).fd = 5 ∧
    ¬spec_write_failure_closes (fun fd => decide (fd = 5))
      (handle_command sample_table 0 (str "MSG :hi")) := by
  decide

/-- C25 (amended).  The result of a write is not looked at.  For every table,
client and line, `handle_command` closes no handle and leaves the handle of
every slot as it was, whatever happens to the lines it writes; the same holds
for a `handle_client_data` call with a positive read.  A slot is freed only by
`handle_client_data` when the read on that client returns zero or a negative
length. -/
theorem write_failure_not_detected (cs : Registry) (i : Nat) (line : List Byte) :
    closed_fds (handle_command cs i line).2 = [] ∧
    (∀ k, (slot (handle_command cs i line).1 k).fd = (slot cs k).fd) ∧
    live_fds (handle_command cs i line).1 = live_fds cs ∧
    (∀ n rx, 0 < n →
      closed_fds (handle_client_data cs i n rx).2 = [] ∧
      ∀ k, (slot (handle_client_data cs i n rx).1 k).fd = (slot cs k).fd) ∧
    (∀ n rx, n ≤ 0 →
      handle_client_data cs i n rx = (cs.set i empty_slot, [Ev.close (slot cs i).fd])) := by
  refine ⟨closed_fds_handle_command cs i line, fun k => handle_command_fd cs i k line, ?_,
    fun n rx hn => ⟨?_, fun k => handle_client_data_fd cs i k n rx hn⟩,
    fun n rx hn => handle_client_data_closed cs i n rx hn⟩
  · exact handle_command_live_fds cs i line
  · rw [handle_client_data_read cs i n rx hn]
    exact closed_fds_dispatch cs i _

theorem write_failure_not_detected_witness :
    closed_fds (handle_command sample_table 0 (str "MSG :hi")).2 = [] ∧
    handle_client_data sample_table 2 0 [] =
      (sample_table.set 2 empty_slot, [Ev.close (slot sample_table 2).fd]) :=
  ⟨(write_failure_not_detected sample_table 0 (str "MSG :hi")).1,
    (write_failure_not_detected sample_table 2 []).2.2.2.2 0 [] (by decide)⟩

/-- C26 (counterexample).  Two live clients share the nickname `a b`.
`find_client_by_nick` returns the lower slot for that name, yet the line
`PROFILE GET a b` looks up the token `a` only and is answered
`PROFILE ERR NOTFOUND a`, not with the profile of the client in slot 0. -/
theorem profile_get_shared_nick_with_space :
    (slot shared_nick_table 0).fd ≠ -1 ∧ (slot shared_nick_table 1).fd ≠ -1 ∧
    (slot shared_nick_table 0).nick = str "a b" ∧
    (slot shared_nick_table 1).nick = str "a b" ∧
    find_client_by_nick shared_nick_table (str "a b") = some 0 ∧
    handle_command shared_nick_table 1 (str "PROFILE GET a b") =
      (shared_nick_table, [Ev.send 5 (str "PROFILE ERR NOTFOUND a")]) ∧
    handle_command shared_nick_table 1 (str "PROFILE GET a b") ≠
      (shared_nick_table, profile_lines 5 (slot shared_nick_table 0)) := by
  decide

/-- C26 (amended).  For every table and non-empty name `x`, if slot `k` is the
lowest-indexed slot holding a live client with nickname `x`, then
`find_client_by_nick` returns `k`, whatever later slots hold; and when `x`
has no space, CR or LF and is shorter than 32 bytes, the line `PROFILE GET x`
from any issuer leaves the table unchanged and is answered with the profile
lines of the client in slot `k`. -/
theorem lookup_returns_first_match (cs : Registry) (x : List Byte) (k : Nat)
    (hk : k < cs.length) (hlive : (slot cs k).fd ≠ -1) (hnick : (slot cs k).nick = x)
    (hne : x ≠ [])
    (hfirst : ∀ m < k, ¬((slot cs m).fd ≠ -1 ∧ (slot cs m).nick = x)) :
    find_client_by_nick cs x = some k ∧
    ((∀ b ∈ x, b ≠ 32 ∧ b ≠ 13 ∧ b ≠ 10) → x.length < CAVE_NICK_MAX →
      ∀ i, handle_command cs i (str "PROFILE GET " ++ x) =
        (cs, profile_lines (slot cs i).fd (slot cs k))) := by
  have hf := find_client_by_nick_first cs x k hk hlive hnick hne hfirst
  refine ⟨hf, fun hx hlen i => ?_⟩
  apply profile_get_of_find
  rw [target_token_simple x hne hx hlen]
  exact hf

theorem lookup_returns_first_match_witness :
    find_client_by_nick twin_table (str "bob") = some 1 ∧
    handle_command twin_table 2 (str "PROFILE GET " ++ str "bob") =
      (twin_table, profile_lines 5 (slot twin_table 1)) :=
  have h := lookup_returns_first_match twin_table (str "bob") 1 (by decide) (by decide)
    (by decide) (by decide) (by decide)
  ⟨h.1, h.2 (by decide) (by decide) 2⟩

/-- C27.  In every reachable table of the POSIX server every client's
nickname is shorter than 32 bytes, its display name shorter than 64, its bio
shorter than 512 and its pronouns shorter than 16.  Accepting a connection,
every command line (whatever its length or content) and every
`handle_client_data` call, disconnect included, preserve these bounds. -/
theorem stored_fields_fit (cs : Registry) :
    (Reachable cs → ∀ c ∈ cs, c.nick.length < 32 ∧ c.display_name.length < 64 ∧
      c.bio.length < 512 ∧ c.pronouns.length < 16) ∧
    ((∀ c ∈ cs, c.fits) →
      (∀ cfd, ∀ c ∈ (main_accept cs cfd).1, c.fits) ∧
      (∀ i line, ∀ c ∈ (handle_command cs i line).1, c.fits) ∧
      (∀ i n rx, ∀ c ∈ (handle_client_data cs i n rx).1, c.fits)) := by
  constructor
  · intro h
    exact forall_mem_of_slot cs (fun c => c.fits) (reachable_fits cs h)
  · intro h
    have hs := forall_slot_of_mem cs (fun c => c.fits) (by decide) h
    refine ⟨fun cfd => ?_, fun i line => ?_, fun i n rx => ?_⟩
    · exact forall_mem_of_slot _ _
        (main_accept_keeps cs cfd (fun c => c.fits) (by simp [client_t.fits]) hs)
    · exact forall_mem_of_slot _ _
        (fun k => handle_command_keeps cs i k line (fun c => c.fits)
          (fun c d _ _ hf hc => hf hc) (hs k))
    · exact forall_mem_of_slot _ _ (handle_client_data_fits cs i n rx hs)

theorem stored_fields_fit_witness :
    (∀ c ∈ sample_table, c.fits) ∧
    ∀ c ∈ (handle_command sample_table 0
        (str "NICK " ++ List.replicate 40 97)).1, c.fits :=
  ⟨by decide, fun c hc =>
    ((stored_fields_fit sample_table).2 (by decide)).2.1 0
      (str "NICK " ++ List.replicate 40 97) c hc⟩

/-- C28.  A NUL byte wedges a connection.  If client `i`'s accumulator holds a
NUL byte with no LF before it, every `handle_client_data` call on `i` with a
positive read dispatches no line and sends nothing, whatever bytes arrive, and
only appends them to the accumulator, which stays wedged; the same holds over
any sequence of reads, whose lengths add up to at most what is left of the
4095 bytes; calls on other clients leave it wedged; and once the accumulator
holds 4095 bytes the next read returns at most 0 and the connection is closed. -/
theorem nul_wedges_connection (cs : Registry) (i : Nat) (hw : wedged (slot cs i).buf) :
    (∀ n rx, 0 < n → (rx.length : Int) = n →
      handle_client_data cs i n rx = (setbuf cs i ((slot cs i).buf ++ rx), []) ∧
      dispatched cs i n rx = [] ∧
      (slot (handle_client_data cs i n rx).1 i).buf = (slot cs i).buf ++ rx ∧
      wedged (slot (handle_client_data cs i n rx).1 i).buf) ∧
    (∀ chunks, reads_ok cs i chunks →
      fed_lines cs i chunks = [] ∧
      feed cs i chunks = (setbuf cs i ((slot cs i).buf ++ chunks.flatten), []) ∧
      ((slot cs i).buf_len ≤ BUF_SIZE - 1 →
        (slot cs i).buf_len + chunks.flatten.length ≤ BUF_SIZE - 1)) ∧
    (∀ k n rx, k ≠ i → wedged (slot (handle_client_data cs k n rx).1 i).buf) ∧
    ((slot cs i).buf_len = BUF_SIZE - 1 → ∀ n rx,
      n ≤ (BUF_SIZE : Int) - (slot cs i).buf_len - 1 →
      handle_client_data cs i n rx = (cs.set i empty_slot, [Ev.close (slot cs i).fd])) := by
  refine ⟨fun n rx hn hrx => ?_, fun chunks hr => feed_wedged chunks cs i hw hr,
    fun k n rx hk => ?_, fun hfull n rx hrecv => ?_⟩
  · obtain ⟨h1, h2⟩ := handle_client_data_wedged cs i n rx hw hn hrx
    have hslot : slot (setbuf cs i ((slot cs i).buf ++ rx)) i =
        { slot cs i with buf := (slot cs i).buf ++ rx } :=
      slot_setbuf cs i _ (wedged_lt_length cs i hw)
    refine ⟨h1, h2, ?_, ?_⟩
    · rw [h1]
      show (slot (setbuf cs i ((slot cs i).buf ++ rx)) i).buf = _
      rw [hslot]
    · rw [h1]
      show wedged (slot (setbuf cs i ((slot cs i).buf ++ rx)) i).buf
      rw [hslot]
      exact wedged_append _ rx hw
  · rw [handle_client_data_other cs k i n rx (fun h => hk h.symm)]
    exact hw
  · apply handle_client_data_closed
    rw [hfull] at hrecv
    simp only [BUF_SIZE] at hrecv
    omega

theorem nul_wedges_connection_witness :
    wedged (slot wedged_table 0).buf ∧
    dispatched wedged_table 0 6 (str "\nPING\n") = [] ∧
    handle_client_data wedged_table 0 6 (str "\nPING\n") =
      (setbuf wedged_table 0 (str "PING" ++ [0] ++ str "\nPING\n"), []) :=
  ⟨by decide,
    ((nul_wedges_connection wedged_table 0 (by decide)).1 6 (str "\nPING\n")
      (by decide) (by decide)).2.1,
    ((nul_wedges_connection wedged_table 0 (by decide)).1 6 (str "\nPING\n")
      (by decide) (by decide)).1⟩

/-- C29.  For every table, issuer and `PROFILE GET` line (with any number of
spaces before `GET` and any remainder `r`), the target token is at most 31
bytes long and holds no space, and the line is answered `PROFILE ERR SYNTAX`,
or `PROFILE ERR NOTFOUND <token>`, or with the profile lines of a live client
whose nickname is non-empty and equal to the token.  Hence no slot whose
nickname is empty or contains a space is the result of the lookup. -/
theorem profile_get_returns_token_owner (cs : Registry) (i m : Nat) (r : List Byte) :
    (target_token (skip_spaces r)).length ≤ 31 ∧
    32 ∉ target_token (skip_spaces r) ∧
    (handle_command cs i (str "PROFILE " ++ List.replicate m 32 ++ str "GET " ++ r) =
        (cs, [Ev.send (slot cs i).fd (str "PROFILE ERR SYNTAX")]) ∨
      handle_command cs i (str "PROFILE " ++ List.replicate m 32 ++ str "GET " ++ r) =
        (cs, send_line (slot cs i).fd
          (snprintf 128 (str "PROFILE ERR NOTFOUND " ++ target_token (skip_spaces r)))) ∨
      ∃ k, k < cs.length ∧ (slot cs k).fd ≠ -1 ∧ (slot cs k).nick ≠ [] ∧
        (slot cs k).nick = target_token (skip_spaces r) ∧
        32 ∉ (slot cs k).nick ∧ (slot cs k).nick.length ≤ 31 ∧
        handle_command cs i (str "PROFILE " ++ List.replicate m 32 ++ str "GET " ++ r) =
          (cs, profile_lines (slot cs i).fd (slot cs k))) ∧
    (∀ k, (slot cs k).nick = [] ∨ 32 ∈ (slot cs k).nick →
      find_client_by_nick cs (target_token (skip_spaces r)) ≠ some k) := by
  obtain ⟨hlen, htok⟩ := target_token_props (skip_spaces r)
  have h32 : 32 ∉ target_token (skip_spaces r) := fun h => (htok 32 h).1 rfl
  refine ⟨hlen, h32, ?_, ?_⟩
  · rw [handle_command_profile_get_spaces, handle_command_profile_get]
    by_cases he : target_token (skip_spaces r) = []
    · rw [if_pos he]
      exact Or.inl rfl
    · rw [if_neg he]
      cases hf : find_client_by_nick cs (target_token (skip_spaces r)) with
      | none => exact Or.inr (Or.inl rfl)
      | some k =>
        obtain ⟨h1, h2, h3, h4⟩ := find_client_by_nick_some cs _ k hf
        refine Or.inr (Or.inr ⟨k, h1, h2, h3, h4, ?_, ?_, rfl⟩)
        · rw [h4]; exact h32
        · rw [h4]; exact hlen
  · intro k hk hf
    obtain ⟨_, _, h3, h4⟩ := find_client_by_nick_some cs _ k hf
    rcases hk with hk | hk
    · exact h3 hk
    · rw [h4] at hk
      exact h32 hk

theorem profile_get_returns_token_owner_witness :
    (slot shared_nick_table 0).fd ≠ -1 ∧ 32 ∈ (slot shared_nick_table 0).nick ∧
    find_client_by_nick shared_nick_table (target_token (skip_spaces (str "a b"))) ≠ some 0 ∧
    (target_token (skip_spaces (str "a b"))).length ≤ 31 :=
  ⟨by decide, by decide,
    (profile_get_returns_token_owner shared_nick_table 1 0 (str "a b")).2.2.2 0
      (Or.inr (by decide)),
    (profile_get_returns_token_owner shared_nick_table 1 0 (str "a b")).1⟩

/-- C30.  For every table, client `i` and number `m` of spaces, each of the
lines `PROFILE SET DISPLAYNAME :`, `PROFILE SET BIO :` and
`PROFILE SET PRONOUNS :` followed by `m` spaces and nothing else is answered
`PROFILE OK <field>` and sets that field of client `i` to the empty string,
leaving every other field and slot as it was.  A following `PROFILE GET`
from any client that finds client `i` then emits the data lines of the two
other fields (when non-empty) and `PROFILE END`, and no `PROFILE DATA` line
for the cleared field. -/
theorem empty_value_clears_field (cs : Registry) (i m : Nat) :
    handle_command cs i (str "PROFILE SET DISPLAYNAME :" ++ List.replicate m 32) =
      (cs.set i { slot cs i with display_name := [] },
        [Ev.send (slot cs i).fd (str "PROFILE OK DISPLAYNAME")]) ∧
    handle_command cs i (str "PROFILE SET BIO :" ++ List.replicate m 32) =
      (cs.set i { slot cs i with bio := [] },
        [Ev.send (slot cs i).fd (str "PROFILE OK BIO")]) ∧
    handle_command cs i (str "PROFILE SET PRONOUNS :" ++ List.replicate m 32) =
      (cs.set i { slot cs i with pronouns := [] },
        [Ev.send (slot cs i).fd (str "PROFILE OK PRONOUNS")]) ∧
    ((slot cs i).fits → ∀ j r,
      (find_client_by_nick (cs.set i { slot cs i with display_name := [] })
          (target_token (skip_spaces r)) = some i →
        handle_command (cs.set i { slot cs i with display_name := [] }) j
            (str "PROFILE GET " ++ r) =
          (cs.set i { slot cs i with display_name := [] },
            (if (slot cs i).pronouns ≠ [] then
                [Ev.send (slot cs j).fd (str "PROFILE DATA " ++ (slot cs i).nick ++
                  str " PRONOUNS :" ++ (slot cs i).pronouns)]
              else [])
            ++ (if (slot cs i).bio ≠ [] then
                [Ev.send (slot cs j).fd (str "PROFILE DATA " ++ (slot cs i).nick ++
                  str " BIO :" ++ (slot cs i).bio)]
              else [])
            ++ [Ev.send (slot cs j).fd (str "PROFILE END " ++ (slot cs i).nick)])) ∧
      (find_client_by_nick (cs.set i { slot cs i with bio := [] })
          (target_token (skip_spaces r)) = some i →
        handle_command (cs.set i { slot cs i with bio := [] }) j
            (str "PROFILE GET " ++ r) =
          (cs.set i { slot cs i with bio := [] },
            (if (slot cs i).display_name ≠ [] then
                [Ev.send (slot cs j).fd (str "PROFILE DATA " ++ (slot cs i).nick ++
                  str " DISPLAYNAME :" ++ (slot cs i).display_name)]
              else [])
            ++ (if (slot cs i).pronouns ≠ [] then
                [Ev.send (slot cs j).fd (str "PROFILE DATA " ++ (slot cs i).nick ++
                  str " PRONOUNS :" ++ (slot cs i).pronouns)]
              else [])
            ++ [Ev.send (slot cs j).fd (str "PROFILE END " ++ (slot cs i).nick)])) ∧
      (find_client_by_nick (cs.set i { slot cs i with pronouns := [] })
          (target_token (skip_spaces r)) = some i →
        handle_command (cs.set i { slot cs i with pronouns := [] }) j
            (str "PROFILE GET " ++ r) =
          (cs.set i { slot cs i with pronouns := [] },
            (if (slot cs i).display_name ≠ [] then
                [Ev.send (slot cs j).fd (str "PROFILE DATA " ++ (slot cs i).nick ++
                  str " DISPLAYNAME :" ++ (slot cs i).display_name)]
              else [])
            ++ (if (slot cs i).bio ≠ [] then
                [Ev.send (slot cs j).fd (str "PROFILE DATA " ++ (slot cs i).nick ++
                  str " BIO :" ++ (slot cs i).bio)]
              else [])
            ++ [Ev.send (slot cs j).fd (str "PROFILE END " ++ (slot cs i).nick)]))) := by
  have hsk := skip_spaces_all_spaces m
  have hz : strlen (skip_spaces (List.replicate m 32)) = 0 := by rw [hsk]; rfl
  refine ⟨?_, ?_, ?_, fun hfit j r => ⟨fun hfind => ?_, fun hfind => ?_, fun hfind => ?_⟩⟩
  · rw [set_displayname_ok cs i _ (by rw [hz]; decide), hsk]
  · rw [set_bio_ok cs i _ (by rw [hz]; decide), hsk]
  · rw [set_pronouns_ok cs i _ (by rw [hz]; decide), hsk]
  · have hi : i < cs.length := by
      have := (find_client_by_nick_some _ _ i hfind).1
      rw [List.length_set] at this
      exact this
    rw [profile_get_after_set cs i j { slot cs i with display_name := [] } r hi
        ⟨hfit.1, (by show 0 < 64; decide), hfit.2.2.1, hfit.2.2.2⟩ hfind,
      slot_set_fd cs i j { slot cs i with display_name := [] } rfl]
    simp only [ne_eq, not_true_eq_false, if_false, List.nil_append]
  · have hi : i < cs.length := by
      have := (find_client_by_nick_some _ _ i hfind).1
      rw [List.length_set] at this
      exact this
    rw [profile_get_after_set cs i j { slot cs i with bio := [] } r hi
        ⟨hfit.1, hfit.2.1, (by show 0 < 512; decide), hfit.2.2.2⟩ hfind,
      slot_set_fd cs i j { slot cs i with bio := [] } rfl]
    simp only [ne_eq, not_true_eq_false, if_false, List.append_nil]
  · have hi : i < cs.length := by
      have := (find_client_by_nick_some _ _ i hfind).1
      rw [List.length_set] at this
      exact this
    rw [profile_get_after_set cs i j { slot cs i with pronouns := [] } r hi
        ⟨hfit.1, hfit.2.1, hfit.2.2.1, (by show 0 < 16; decide)⟩ hfind,
      slot_set_fd cs i j { slot cs i with pronouns := [] } rfl]
    simp only [ne_eq, not_true_eq_false, if_false, List.append_nil]

theorem empty_value_clears_field_witness :
    (slot sample_table 0).fits ∧
    (slot sample_table 0).display_name = str "Bob" ∧
    handle_command (sample_table.set 0 { slot sample_table 0 with display_name := [] }) 2
        (str "PROFILE GET " ++ str "bob") =
      (sample_table.set 0 { slot sample_table 0 with display_name := [] },
        [Ev.send 5 (str "PROFILE DATA bob PRONOUNS :he/him"),
         Ev.send 5 (str "PROFILE END bob")]) :=
  ⟨by decide, by decide,
    ((empty_value_clears_field sample_table 0 2).2.2.2 (by decide) 2 (str "bob")).1
      (by decide)⟩

/-- C31.  Chat round trip between client and server.  Let the sender's stored
nickname be shorter than 32 bytes with neither a space nor a colon, and let `t`
be a text without NUL or LF for which `MSG @<name> :t` is shorter than 4096
bytes, where `<name>` is the nickname, or `anon` when it is empty.  Then
`handle_command` turns the line `MSG :t` into the line `MSG @<name> :t`, sent
to every other live client and to the sender, and the client's
`handle_net_line` shows that line as a chat message from `<name>` with body
exactly `t`.  When `t` is non-empty and does not start with a slash, `MSG :t`
is the line `handle_user_input` sends for the typed text `t`. -/
theorem chat_round_trip (cs : Registry) (i : Nat) (s : Client.State) (t : List Byte)
    (hlen : (slot cs i).nick.length < CAVE_NICK_MAX)
    (hsp : 32 ∉ (slot cs i).nick) (hcol : 58 ∉ (slot cs i).nick)
    (_h0 : 0 ∉ t) (hnl : 10 ∉ t)
    (hfit : (str "MSG @" ++ shown_nick (slot cs i) ++ str " :" ++ t).length < BUF_SIZE) :
    handle_command cs i (str "MSG :" ++ t) =
      (cs, broadcast_line cs (slot cs i).fd
          (str "MSG @" ++ shown_nick (slot cs i) ++ str " :" ++ t) ++
        [Ev.send (slot cs i).fd (str "MSG @" ++ shown_nick (slot cs i) ++ str " :" ++ t)]) ∧
    Client.handle_net_line s (str "MSG @" ++ shown_nick (slot cs i) ++ str " :" ++ t) =
      (s, [Client.Out.chat
        (decide (s.current_nick ≠ [] ∧ strcmp s.current_nick (shown_nick (slot cs i)) = 0))
        (shown_nick (slot cs i)) t]) ∧
    (t ≠ [] → t.head? ≠ some 47 →
      Client.handle_user_input s (some (t ++ [10])) =
        (s, [Client.Act.send (str "MSG :" ++ t)]) ∧
      Client.handle_user_input s (some t) = (s, [Client.Act.send (str "MSG :" ++ t)])) := by
  obtain ⟨h1, h2, _⟩ := shown_nick_props (slot cs i) hlen hsp hcol
  refine ⟨?_, client_parses_chat_line s _ t h1 h2, fun hne hslash => ?_⟩
  · have e : str "MSG :" ++ t = str "MSG " ++ (str ":" ++ t) := by
      have a : str "MSG :" = str "MSG " ++ str ":" := by decide
      rw [a, List.append_assoc]
    rw [e, handle_command_msg, chat_line_shown _ t hfit]
    rfl
  · have hfit2 : (str "MSG :" ++ t).length < Client.BUF_SIZE := by
      simp only [List.length_append, BUF_SIZE, Client.BUF_SIZE] at hfit ⊢
      have a : (str "MSG :").length = 5 := by decide
      have b : (str "MSG @").length = 5 := by decide
      have c : (str " :").length = 2 := by decide
      omega
    obtain ⟨g1, g2⟩ := client_sends_chat s t hne hslash hfit2
    exact ⟨g1, g2 hnl⟩

theorem chat_round_trip_witness :
    shown_nick (slot sample_table 0) = str "bob" ∧
    handle_command sample_table 0 (str "MSG :" ++ str "hi: there") =
      (sample_table, [Ev.send 5 (str "MSG @bob :hi: there"),
        Ev.send 4 (str "MSG @bob :hi: there")]) ∧
    Client.handle_net_line Client.sample_state (str "MSG @bob :hi: there") =
      (Client.sample_state, [Client.Out.chat true (str "bob") (str "hi: there")]) ∧
    Client.handle_user_input Client.sample_state (some (str "hi: there" ++ [10])) =
      (Client.sample_state, [Client.Act.send (str "MSG :" ++ str "hi: there")]) :=
  have h := chat_round_trip sample_table 0 Client.sample_state (str "hi: there")
    (by decide) (by decide) (by decide) (by decide) (by decide) (by decide)
  ⟨by decide, h.1, h.2.1, (h.2.2 (by decide) (by decide)).1⟩

end CaveNet
